import Mathlib

/-!
# guard_ptr: a shallow embedding of `src/guard_ptr/src/guard_ptr.h`

The header defines three cooperating classes:

* `guard_block<T>`: the heap allocated control block (`ptr_`, `ref_`);
* `support_guard_ptr<T>`: the base class a pointee derives from; it holds the
  atomic pointer `block_` to the pointee's control block;
* `guard_ptr<T>`: the handle, holding a plain pointer `block_`.

Memory is modelled explicitly.  A pointer to a control block is an index into the
list of all blocks ever allocated (`Heap`); `nullptr` is `none`.  `new` appends a
block, `delete this` sets the ghost flag `deleted` of the block.  Every dereference
of a block pointer (`acquire`, `release`, `data`, `ref_.load`, `ptr_.store`) goes
through `Heap.live`, so touching a deleted block (undefined behaviour in C++) makes
the operation return `none`.

`ref_` is a `std::atomic<unsigned int>`; the embedding keeps it as a natural number
below `UINT_MOD = 2^32` and `fetch_add` / `fetch_sub` wrap modulo `UINT_MOD`.

All operations are embedded as they execute on one thread (each member function
runs to completion).  In addition `internalGetAndRef` is embedded step by step, for two
threads that run it at the same time (`Thread.step`, `Race.exec`).
-/

namespace guard

/-- The number of values of `unsigned int`: 2^32. -/
def UINT_MOD : Nat := 4294967296

/-- The struct `guard_block<T>`: `ptr_` is the stored `T*` (`none` is `nullptr`, an
address is the index of the pointee), `ref_` the stored `unsigned int`; `deleted`
is a ghost flag recording that `delete this` has run on the block. -/
structure guard_block where
  ptr_ : Option Nat
  ref_ : Nat
  deleted : Bool
deriving DecidableEq, Repr

/-- All control blocks allocated so far; a block pointer is an index. -/
abbrev Heap := List guard_block

/-- Dereference of a block pointer: the block, when it is allocated and not deleted. -/
def Heap.live (hp : Heap) (b : Nat) : Option guard_block :=
  match hp[b]? with
  | some blk => if blk.deleted then none else some blk
  | none => none

namespace guard_block

/-- The constructor `guard_block(T* ptr, unsigned int ref)`: it stores `ptr` and the
constant 2; the argument `ref` is not used. -/
def create (ptr : Option Nat) (_ref : Nat) : guard_block :=
  { ptr_ := ptr, ref_ := 2, deleted := false }

/-- The load `block->data()`, i.e. `ptr_.load()`. -/
def data (hp : Heap) (b : Nat) : Option (Option Nat) :=
  match hp.live b with
  | some blk => some blk.ptr_
  | none => none

/-- The call `block->acquire()`: `ref_.fetch_add(1)`. -/
def acquire (hp : Heap) (b : Nat) : Option Heap :=
  match hp.live b with
  | some blk => some (hp.set b { blk with ref_ := (blk.ref_ + 1) % UINT_MOD })
  | none => none

/-- The call `block->release()`: `ref_.fetch_sub(1)` returns the old value; when that
is 1 the block deletes itself and `false` is returned, otherwise `true`. -/
def release (hp : Heap) (b : Nat) : Option (Bool × Heap) :=
  match hp.live b with
  | some blk =>
    let old := blk.ref_
    let blk1 : guard_block := { blk with ref_ := (old + UINT_MOD - 1) % UINT_MOD }
    if old = 1 then
      some (false, hp.set b { blk1 with deleted := true })
    else
      some (true, hp.set b blk1)
  | none => none

end guard_block

/-- The class `support_guard_ptr<T>`: the pointer `block_` (initially `nullptr`). -/
structure support_guard_ptr where
  block_ : Option Nat
deriving DecidableEq, Repr

/-- The call `cell.compare_exchange_strong(expected, desired)` on an atomic pointer:
the result is (success, new value of the cell, new value of `expected`). -/
def compare_exchange_strong (cell expected desired : Option Nat) :
    Bool × Option Nat × Option Nat :=
  if cell = expected then (true, desired, expected) else (false, cell, cell)

namespace support_guard_ptr

/-- The function `internalGetAndRef(base)`, with `p` the address of the pointee
(`static_cast<T*>(base)`).  Result: the returned block pointer, the base object and
the heap afterwards. -/
def internalGetAndRef (hp : Heap) (p : Nat) (base : support_guard_ptr) :
    Option (Nat × support_guard_ptr × Heap) :=
  match base.block_ with
  | some block_ptr =>
    match guard_block.acquire hp block_ptr with
    | some hp1 => some (block_ptr, base, hp1)
    | none => none
  | none =>
    let block_ptr := hp.length
    let hp1 := hp ++ [guard_block.create (some p) 2]
    match compare_exchange_strong base.block_ none (some block_ptr) with
    | (true, cell, _) => some (block_ptr, { block_ := cell }, hp1)
    | (false, cell, block_ptr_held) =>
      -- delete block_ptr; block_ptr = block_ptr_held; block_ptr->acquire();
      match hp1[block_ptr]?, block_ptr_held with
      | some blk, some held =>
        match guard_block.acquire (hp1.set block_ptr { blk with deleted := true }) held with
        | some hp2 => some (held, { block_ := cell }, hp2)
        | none => none
      | _, _ => none

/-- The function `getAndRef(ptr)`. -/
def getAndRef (hp : Heap) (p : Nat) (base : support_guard_ptr) :
    Option (Nat × support_guard_ptr × Heap) :=
  internalGetAndRef hp p base

/-- The destructor `~support_guard_ptr()`. -/
def dtor (hp : Heap) (base : support_guard_ptr) : Option (support_guard_ptr × Heap) :=
  match base.block_ with
  | some block_ptr =>
    match hp.live block_ptr with
    | some blk =>
      -- block_ptr->ptr_.store(nullptr)
      let hp1 := hp.set block_ptr { blk with ptr_ := none }
      match guard_block.release hp1 block_ptr with
      | some (true, hp2) => some (base, hp2)
      | some (false, hp2) => some ({ block_ := none }, hp2)
      | none => none
    | none => none
  | none => some (base, hp)

/-- The member `support_guard_ptr::refCount()`. -/
def refCount (hp : Heap) (base : support_guard_ptr) : Option Nat :=
  match base.block_ with
  | some block_ptr =>
    match hp.live block_ptr with
    | some blk => some blk.ref_
    | none => none
  | none => some 0

end support_guard_ptr

/-- The class `guard_ptr<T>`: the pointer `block_` (initially `nullptr`). -/
structure guard_ptr where
  block_ : Option Nat
deriving DecidableEq, Repr

namespace guard_ptr

/-- The default constructor `guard_ptr()`. -/
def ctor : guard_ptr := { block_ := none }

/-- The member `tryToRelease()`. -/
def tryToRelease (self : guard_ptr) (hp : Heap) : Option (guard_ptr × Heap) :=
  match self.block_ with
  | some b =>
    match guard_block.release hp b with
    | some (true, hp1) => some (self, hp1)
    | some (false, hp1) => some ({ block_ := none }, hp1)
    | none => none
  | none => some (self, hp)

/-- The copy constructor `guard_ptr(const guard_ptr& rhs)`: the new handle and the heap. -/
def ctor_copy (rhs : guard_ptr) (hp : Heap) : Option (guard_ptr × Heap) :=
  match rhs.block_ with
  | some b =>
    match guard_block.acquire hp b with
    | some hp1 => some ({ block_ := some b }, hp1)
    | none => none
  | none => some ({ block_ := none }, hp)

/-- The move constructor `guard_ptr(guard_ptr&& rhs)`: the new handle and `rhs` afterwards. -/
def ctor_move (rhs : guard_ptr) : guard_ptr × guard_ptr :=
  let self : guard_ptr := { block_ := rhs.block_ }
  if self.block_.isSome then (self, { block_ := none }) else (self, rhs)

/-- The destructor `~guard_ptr()`: the heap afterwards. -/
def dtor (self : guard_ptr) (hp : Heap) : Option Heap :=
  match tryToRelease self hp with
  | some (_, hp1) => some hp1
  | none => none

/-- The copy assignment `operator=(const guard_ptr& rhs)`: `*this` and the heap afterwards
(`rhs` is const). -/
def operator_assign (self rhs : guard_ptr) (hp : Heap) : Option (guard_ptr × Heap) :=
  if rhs.block_ ≠ self.block_ then
    let acquired : Option Heap :=
      match rhs.block_ with
      | some b => guard_block.acquire hp b
      | none => some hp
    match acquired with
    | some hp1 =>
      match tryToRelease self hp1 with
      | some (_, hp2) => some ({ block_ := rhs.block_ }, hp2)
      | none => none
    | none => none
  else some (self, hp)

/-- The move assignment `operator=(guard_ptr&& rhs)`: `*this`, `rhs` and the heap afterwards. -/
def operator_assign_move (self rhs : guard_ptr) (hp : Heap) :
    Option (guard_ptr × guard_ptr × Heap) :=
  if rhs.block_ ≠ self.block_ then
    match tryToRelease self hp with
    | some (_, hp1) => some ({ block_ := rhs.block_ }, { block_ := none }, hp1)
    | none => none
  else some (self, rhs, hp)

/-- The member `swap(guard_ptr& rhs)`: `*this` and `rhs` afterwards. -/
def swap (self rhs : guard_ptr) : guard_ptr × guard_ptr :=
  if rhs.block_ ≠ self.block_ then ({ block_ := rhs.block_ }, { block_ := self.block_ })
  else (self, rhs)

/-- The member `isNull()`. -/
def isNull (self : guard_ptr) (hp : Heap) : Option Bool :=
  match self.block_ with
  | none => some true
  | some b =>
    match guard_block.data hp b with
    | some p => some (p == none)
    | none => none

/-- The member `isAlive()`. -/
def isAlive (self : guard_ptr) (hp : Heap) : Option Bool :=
  match isNull self hp with
  | some r => some (!r)
  | none => none

/-- The member `guard_ptr::refCount()`. -/
def refCount (self : guard_ptr) (hp : Heap) : Option Nat :=
  match self.block_ with
  | some b =>
    match hp.live b with
    | some blk => some blk.ref_
    | none => none
  | none => some 0

/-- The member `data()`. -/
def data (self : guard_ptr) (hp : Heap) : Option (Option Nat) :=
  match self.block_ with
  | some b => guard_block.data hp b
  | none => some none

/-- The member `operator->()`. -/
def operator_arrow (self : guard_ptr) (hp : Heap) : Option (Option Nat) :=
  data self hp

/-- The conversion `operator T*()`. -/
def operator_T_ptr (self : guard_ptr) (hp : Heap) : Option (Option Nat) :=
  data self hp

/-- The member `clear()`, i.e. `swap(guard_ptr())` followed by the destruction of the
temporary at the end of the full expression. -/
def clear (self : guard_ptr) (hp : Heap) : Option (guard_ptr × Heap) :=
  let r := swap self ctor
  match dtor r.2 hp with
  | some hp1 => some (r.1, hp1)
  | none => none

end guard_ptr

/-! ## Programs: pointees, handles and the operations a client performs on them -/

/-- An object of a class that derives from `support_guard_ptr` (`Test` in the demo):
its base subobject and a ghost flag recording that the object has been destroyed. -/
structure Pointee where
  base : support_guard_ptr
  destroyed : Bool
deriving DecidableEq, Repr

/-- The memory of a program: the control blocks, the pointees (the address of a pointee
is its index) and the handles (a handle that has been destroyed leaves `none`). -/
structure World where
  heap : Heap
  objs : List Pointee
  hs : List (Option guard_ptr)
deriving DecidableEq, Repr

/-- The handle number `h`, when it exists. -/
def World.handle (w : World) (h : Nat) : Option guard_ptr :=
  match w.hs[h]? with
  | some (some g) => some g
  | _ => none

/-- The pointee at address `p`, when it exists and has not been destroyed. -/
def World.obj (w : World) (p : Nat) : Option Pointee :=
  match w.objs[p]? with
  | some o => if o.destroyed then none else some o
  | none => none

/-- One operation of a client program. -/
inductive Op where
  /-- The expression `new Test`. -/
  | new_obj
  /-- The statement `delete test`, for the pointee at the address. -/
  | delete_obj (p : Nat)
  /-- The declaration `guard_ptr<T> h;`. -/
  | ctor
  /-- The declaration `guard_ptr<T> h(ptr);`. -/
  | ctor_ptr (ptr : Option Nat)
  /-- The declaration `guard_ptr<T> h(rhs);`. -/
  | ctor_copy (rhs : Nat)
  /-- The declaration `guard_ptr<T> h(std::move(rhs));`. -/
  | ctor_move (rhs : Nat)
  /-- The statement `lhs = rhs;`. -/
  | assign (lhs rhs : Nat)
  /-- The statement `lhs = std::move(rhs);`. -/
  | assign_move (lhs rhs : Nat)
  /-- The statement `lhs.swap(rhs);`. -/
  | swap (lhs rhs : Nat)
  /-- The statement `h.clear();`. -/
  | clear (h : Nat)
  /-- The end of the lifetime of handle `h`. -/
  | dtor (h : Nat)
deriving DecidableEq, Repr

/-- What the client must respect: a pointer that is dereferenced or deleted points to a
pointee that has not been destroyed, and a handle that is used exists. -/
def Op.valid (w : World) : Op → Bool
  | .new_obj => true
  | .delete_obj p => (w.obj p).isSome
  | .ctor => true
  | .ctor_ptr none => true
  | .ctor_ptr (some p) => (w.obj p).isSome
  | .ctor_copy rhs => (w.handle rhs).isSome
  | .ctor_move rhs => (w.handle rhs).isSome
  | .assign lhs rhs => (w.handle lhs).isSome && (w.handle rhs).isSome
  | .assign_move lhs rhs => (w.handle lhs).isSome && (w.handle rhs).isSome
  | .swap lhs rhs => (w.handle lhs).isSome && (w.handle rhs).isSome
  | .clear h => (w.handle h).isSome
  | .dtor h => (w.handle h).isSome

/-- The effect of one operation.  The result is `none` when the operation is not valid
for the client, or when the code dereferences a deleted control block. -/
def step (w : World) : Op → Option World
  | .new_obj =>
    some { w with objs := w.objs ++ [{ base := { block_ := none }, destroyed := false }] }
  | .delete_obj p =>
    match w.obj p with
    | some o =>
      match support_guard_ptr.dtor w.heap o.base with
      | some (base1, hp1) =>
        some { w with heap := hp1, objs := w.objs.set p { base := base1, destroyed := true } }
      | none => none
    | none => none
  | .ctor => some { w with hs := w.hs ++ [some guard_ptr.ctor] }
  | .ctor_ptr none => some { w with hs := w.hs ++ [some { block_ := none }] }
  | .ctor_ptr (some p) =>
    match w.obj p with
    | some o =>
      match support_guard_ptr.getAndRef w.heap p o.base with
      | some (b, base1, hp1) =>
        some { heap := hp1
               objs := w.objs.set p { o with base := base1 }
               hs := w.hs ++ [some { block_ := some b }] }
      | none => none
    | none => none
  | .ctor_copy rhs =>
    match w.handle rhs with
    | some r =>
      match guard_ptr.ctor_copy r w.heap with
      | some (n, hp1) => some { w with heap := hp1, hs := w.hs ++ [some n] }
      | none => none
    | none => none
  | .ctor_move rhs =>
    match w.handle rhs with
    | some r =>
      some { w with hs := w.hs.set rhs (some (guard_ptr.ctor_move r).2)
                            ++ [some (guard_ptr.ctor_move r).1] }
    | none => none
  | .assign lhs rhs =>
    match w.handle lhs, w.handle rhs with
    | some l, some r =>
      match guard_ptr.operator_assign l r w.heap with
      | some (l1, hp1) => some { w with heap := hp1, hs := w.hs.set lhs (some l1) }
      | none => none
    | _, _ => none
  | .assign_move lhs rhs =>
    match w.handle lhs, w.handle rhs with
    | some l, some r =>
      match guard_ptr.operator_assign_move l r w.heap with
      | some (l1, r1, hp1) =>
        some { w with heap := hp1, hs := (w.hs.set rhs (some r1)).set lhs (some l1) }
      | none => none
    | _, _ => none
  | .swap lhs rhs =>
    match w.handle lhs, w.handle rhs with
    | some l, some r =>
      some { w with hs := (w.hs.set rhs (some (guard_ptr.swap l r).2)).set lhs
                            (some (guard_ptr.swap l r).1) }
    | _, _ => none
  | .clear h =>
    match w.handle h with
    | some g =>
      match guard_ptr.clear g w.heap with
      | some (g1, hp1) => some { w with heap := hp1, hs := w.hs.set h (some g1) }
      | none => none
    | none => none
  | .dtor h =>
    match w.handle h with
    | some g =>
      match guard_ptr.dtor g w.heap with
      | some hp1 => some { w with heap := hp1, hs := w.hs.set h none }
      | none => none
    | none => none

/-- Running a list of operations, one after the other. -/
def run (w : World) : List Op → Option World
  | [] => some w
  | op :: ops =>
    match step w op with
    | some w1 => run w1 ops
    | none => none

/-- The program start: no block, no pointee, no handle. -/
def World.init : World := { heap := [], objs := [], hs := [] }

/-- The states a program can be in. -/
inductive Reachable : World → Prop where
  | init : Reachable World.init
  | step {w w1 : World} (op : Op) : Reachable w → step w op = some w1 → Reachable w1

/-- The reference slot of a pointee: the block its base holds while the pointee lives. -/
def Pointee.slot (o : Pointee) : Option Nat :=
  if o.destroyed then none else o.base.block_

/-- The reference slot of a handle. -/
def hslot : Option guard_ptr → Option Nat
  | some g => g.block_
  | none => none

/-- The number of living pointees whose base holds block `b`. -/
def anchorSlots (w : World) (b : Nat) : Nat :=
  w.objs.countP (fun o => decide (o.slot = some b))

/-- The number of existing handles bound to block `b`. -/
def handleSlots (w : World) (b : Nat) : Nat :=
  w.hs.countP (fun s => decide (hslot s = some b))

/-- The number of owners of block `b`. -/
def owners (w : World) (b : Nat) : Nat :=
  anchorSlots w b + handleSlots w b

/-! ## Specification predicates and the states used in examples -/

/-- The count of a block agrees with a number `n` of owners: a block that is not deleted
stores `n` modulo 2^32 and has an owner; a deleted block has a multiple of 2^32 owners
(none, when the count never wrapped). -/
def BlockOK (blk : guard_block) (n : Nat) : Prop :=
  blk.ref_ < UINT_MOD ∧ (blk.deleted = false → blk.ref_ = n % UINT_MOD ∧ 1 ≤ n) ∧
    (blk.deleted = true → n % UINT_MOD = 0)

/-- The statement `if (p) { p->acquire(); }` on a block pointer `p`: the heap afterwards. -/
def acq (hp : Heap) : Option Nat → Option Heap
  | some b => guard_block.acquire hp b
  | none => some hp

/-- The statement `if (p) { p->release(); }` on a block pointer `p`: the heap afterwards. -/
def rel (hp : Heap) : Option Nat → Option Heap
  | some b =>
    match guard_block.release hp b with
    | some (_, hp1) => some hp1
    | none => none
  | none => some hp

/-- Every allocated block agrees with the number of owners `n` gives it. -/
def CountsOK (hp : Heap) (n : Nat → Nat) : Prop :=
  ∀ (b : Nat) (blk : guard_block), hp[b]? = some blk → BlockOK blk (n b)

/-- What holds in every state of a program (see `Inv.of_reachable`): the counts agree
with the owners, every stored block pointer was allocated, and the pointee address of a
block is set exactly while the pointee whose base holds the block lives. -/
structure Inv (w : World) : Prop where
  counts : CountsOK w.heap (owners w)
  range_h : ∀ s ∈ w.hs, ∀ b, hslot s = some b → b < w.heap.length
  range_o : ∀ o ∈ w.objs, ∀ b, o.base.block_ = some b → b < w.heap.length
  ptr_alive : ∀ (b : Nat) (blk : guard_block) (p : Nat), w.heap[b]? = some blk →
    blk.ptr_ = some p → ∃ o, w.obj p = some o ∧ o.base.block_ = some b
  alive_ptr : ∀ (p : Nat) (o : Pointee) (b : Nat) (blk : guard_block), w.obj p = some o →
    o.base.block_ = some b → w.heap[b]? = some blk → blk.ptr_ = some p

/-- Two heaps with the same blocks allocated and the same pointee addresses stored. -/
def HeapFrame (hp hp1 : Heap) : Prop :=
  hp1.length = hp.length ∧
    ∀ (c : Nat), (hp1[c]?).map (fun blk => blk.ptr_) = (hp[c]?).map (fun blk => blk.ptr_)

/-- How one operation may change a block: the pointee address stays or becomes null, a
deleted block is left alone, and a block is deleted only with its count going from 1 to 0. -/
def BlockStep (blk blk1 : guard_block) : Prop :=
  (blk1.ptr_ = blk.ptr_ ∨ blk1.ptr_ = none) ∧ (blk.deleted = true → blk1 = blk) ∧
    (blk.deleted = false → blk1.deleted = true → blk.ref_ = 1 ∧ blk1.ref_ = 0)

/-- Some living pointee's base holds block `b`: the pointee of the block is alive. -/
def anchored (w : World) (b : Nat) : Bool :=
  w.objs.any (fun o => decide (o.slot = some b))

/-- The state after `new Test`, a handle from its pointer and a copy of that handle. -/
def demoW : World :=
  { heap := [{ ptr_ := some 0, ref_ := 3, deleted := false }]
    objs := [{ base := { block_ := some 0 }, destroyed := false }]
    hs := [some { block_ := some 0 }, some { block_ := some 0 }] }

/-- The state of `demoW` after `delete test`. -/
def demoWdead : World :=
  { heap := [{ ptr_ := none, ref_ := 2, deleted := false }]
    objs := [{ base := { block_ := some 0 }, destroyed := true }]
    hs := [some { block_ := some 0 }, some { block_ := some 0 }] }

/-- The state after `new Test`, a handle from its pointer and `n` copies of that handle:
one block, one living pointee, `n + 1` handles bound to the block. -/
def bigW (n : Nat) : World :=
  { heap := [{ ptr_ := some 0, ref_ := (n + 2) % UINT_MOD, deleted := false }]
    objs := [{ base := { block_ := some 0 }, destroyed := false }]
    hs := List.replicate (n + 1) (some { block_ := some 0 }) }

/-- The state `bigW n` leaves when its count is 1 and the pointee is destroyed: the block is
deleted while the `n + 1` handles still point to it. -/
def freedW (n : Nat) : World :=
  { heap := [{ ptr_ := none, ref_ := 0, deleted := true }]
    objs := [{ base := { block_ := none }, destroyed := true }]
    hs := List.replicate (n + 1) (some { block_ := some 0 }) }

/-- The state `bigW n` leaves when its count is 1 and handle 1 is destroyed: the block is
deleted while the living pointee and the other handles still point to it. -/
def danglingW (n : Nat) : World :=
  { heap := [{ ptr_ := some 0, ref_ := 0, deleted := true }]
    objs := [{ base := { block_ := some 0 }, destroyed := false }]
    hs := (List.replicate (n + 1) (some { block_ := some 0 })).set 1 none }

/-- The state `bigW n` leaves when its count is 1 and handle 1 is cleared. -/
def clearedW (n : Nat) : World :=
  { heap := [{ ptr_ := some 0, ref_ := 0, deleted := true }]
    objs := [{ base := { block_ := some 0 }, destroyed := false }]
    hs := (List.replicate (n + 1) (some { block_ := some 0 })).set 1 (some { block_ := none }) }

/-- A state with an empty handle 0 and a handle 1 bound to the block of a living pointee. -/
def moveW : World :=
  { heap := [{ ptr_ := some 0, ref_ := 2, deleted := false }]
    objs := [{ base := { block_ := some 0 }, destroyed := false }]
    hs := [some { block_ := none }, some { block_ := some 0 }] }

/-- The state `bigW n` with one more, empty, handle. -/
def bigWe (n : Nat) : World :=
  { heap := [{ ptr_ := some 0, ref_ := (n + 2) % UINT_MOD, deleted := false }]
    objs := [{ base := { block_ := some 0 }, destroyed := false }]
    hs := List.replicate (n + 1) (some { block_ := some 0 }) ++ [some { block_ := none }] }

/-- How a further handle is bound to pointee `p`: from its pointer (`none`), or as a copy of
the `j`-th handle bound before (`some j`); `base` is the number of the first of them. -/
def bindOp (p base : Nat) : Option Nat → Op
  | none => .ctor_ptr (some p)
  | some j => .ctor_copy (base + j)

/-- Every copy in the list is a copy of a handle bound before it, `k` handles being bound
at the start. -/
def okChoices : Nat → List (Option Nat) → Bool
  | _, [] => true
  | k, none :: cs => okChoices (k + 1) cs
  | k, some j :: cs => decide (j < k) && okChoices (k + 1) cs

/-- The state `w` after `k` handles have been bound to its pointee `p`, which had no block:
a new block with count `k + 1`, held by the base of `p` and by the `k` new handles. -/
def boundW (w : World) (p k : Nat) : World :=
  { heap := w.heap ++ [{ ptr_ := some p, ref_ := (k + 1) % UINT_MOD, deleted := false }]
    objs := w.objs.set p { base := { block_ := some w.heap.length }, destroyed := false }
    hs := w.hs ++ List.replicate k (some { block_ := some w.heap.length }) }

/-- The state `boundW` after the pointee has been destroyed: the new block has a null
pointee address, count `m` and deletion flag `d`, and `l` lists the new handles. -/
def orphanW (w : World) (p : Nat) (l : List (Option guard_ptr)) (m : Nat) (d : Bool) : World :=
  { heap := w.heap ++ [{ ptr_ := none, ref_ := m, deleted := d }]
    objs := w.objs.set p { base := { block_ := some w.heap.length }, destroyed := true }
    hs := w.hs ++ l }

/-- The handles of `l` after those numbered in `ds` have been destroyed. -/
def killed (l : List (Option guard_ptr)) (ds : List Nat) : List (Option guard_ptr) :=
  ds.foldl (fun acc d => acc.set d none) l

/-- One living pointee without block, no handle. -/
def freshW : World :=
  { heap := [], objs := [{ base := { block_ := none }, destroyed := false }], hs := [] }

/-- The state `bigW n` leaves when handle 1 is cleared and the count was not 1: the block
stays, its count one lower modulo 2^32. -/
def unboundW (n : Nat) : World :=
  { heap := [{ ptr_ := some 0, ref_ := (n + 1) % UINT_MOD, deleted := false }]
    objs := [{ base := { block_ := some 0 }, destroyed := false }]
    hs := (List.replicate (n + 1) (some { block_ := some 0 })).set 1 (some { block_ := none }) }

/-- The results and the heap of `n` successive calls `block->release()`. -/
def releases (hp : Heap) (b : Nat) : Nat → Option (List Bool × Heap)
  | 0 => some ([], hp)
  | n + 1 =>
    match guard_block.release hp b with
    | some (r, hp1) =>
      match releases hp1 b n with
      | some (rs, hp2) => some (r :: rs, hp2)
      | none => none
    | none => none

/-- An operation of a handle, or `new Test`: every operation but `delete test`. -/
def Op.isDelete : Op → Bool
  | .delete_obj _ => true
  | _ => false

/-! ## Two threads in `internalGetAndRef`

The atomic objects of the header are accessed with the default memory order
(`memory_order_seq_cst`), so a run of two threads is an interleaving of their atomic steps.
`Thread.step` cuts `internalGetAndRef` into these steps; `new` and `delete` of the block a
thread has created are steps of their own. -/

/-- Where a thread stands in `internalGetAndRef(base)`; the constructors carry the locals
`block_ptr` and `block_ptr_held` of the thread. -/
inductive Thread where
  /-- Before `block_ptr = base->block_.load()`. -/
  | entry
  /-- After the load, before `if (block_ptr)`. -/
  | loaded (block_ptr : Option Nat)
  /-- After `block_ptr = new guard_block_t(...)`, before `compare_exchange_strong`. -/
  | created (block_ptr : Nat)
  /-- After `compare_exchange_strong` has failed, before `delete block_ptr`. -/
  | failed (block_ptr : Nat) (block_ptr_held : Option Nat)
  /-- After `delete block_ptr; block_ptr = block_ptr_held`, before `block_ptr->acquire()`. -/
  | discarded (block_ptr : Option Nat)
  /-- After `return block_ptr`. -/
  | returned (block_ptr : Nat)
deriving DecidableEq, Repr

/-- What the threads share: the control blocks, the base subobject of the pointee, and a
ghost list of every block pointer that has been stored in `base->block_`, newest first. -/
structure Shared where
  heap : Heap
  base : support_guard_ptr
  installs : List Nat
deriving DecidableEq, Repr

/-- One atomic step of a thread in `internalGetAndRef(base)`, `p` being the address of the
pointee: the load of `base->block_`, the allocation of a block, `compare_exchange_strong`,
`delete block_ptr`, and `acquire()` followed by the return.  The result is `none` when the
thread has returned, and when the step dereferences a null pointer or a deleted block. -/
def Thread.step (p : Nat) (s : Shared) : Thread → Option (Thread × Shared)
  | .entry => some (.loaded s.base.block_, s)
  | .loaded (some block_ptr) =>
    match guard_block.acquire s.heap block_ptr with
    | some hp1 => some (.returned block_ptr, { s with heap := hp1 })
    | none => none
  | .loaded none =>
    some (.created s.heap.length, { s with heap := s.heap ++ [guard_block.create (some p) 2] })
  | .created block_ptr =>
    match compare_exchange_strong s.base.block_ none (some block_ptr) with
    | (true, cell, _) =>
      some (.returned block_ptr,
        { s with base := { block_ := cell }, installs := block_ptr :: s.installs })
    | (false, cell, block_ptr_held) =>
      some (.failed block_ptr block_ptr_held, { s with base := { block_ := cell } })
  | .failed block_ptr block_ptr_held =>
    match s.heap.live block_ptr with
    | some blk =>
      some (.discarded block_ptr_held,
        { s with heap := s.heap.set block_ptr { blk with deleted := true } })
    | none => none
  | .discarded (some block_ptr) =>
    match guard_block.acquire s.heap block_ptr with
    | some hp1 => some (.returned block_ptr, { s with heap := hp1 })
    | none => none
  | .discarded none => none
  | .returned _ => none

/-- Two threads in `internalGetAndRef(base)` for the same pointee. -/
structure Race where
  shared : Shared
  t1 : Thread
  t2 : Thread
deriving DecidableEq, Repr

/-- One step of the race: the next atomic step of the second thread (`true`) or of the
first (`false`). -/
def Race.step (p : Nat) (r : Race) : Bool → Option Race
  | false =>
    match Thread.step p r.shared r.t1 with
    | some (t, s) => some { r with shared := s, t1 := t }
    | none => none
  | true =>
    match Thread.step p r.shared r.t2 with
    | some (t, s) => some { r with shared := s, t2 := t }
    | none => none

/-- The race under a schedule: the list says which thread takes each step. -/
def Race.exec (p : Nat) (r : Race) : List Bool → Option Race
  | [] => some r
  | t :: ts =>
    match Race.step p r t with
    | some r1 => Race.exec p r1 ts
    | none => none

/-- The start of the race: the blocks `hp` allocated so far, a pointee whose base holds no
block, and both threads at the entry of `internalGetAndRef`. -/
def Race.init (hp : Heap) : Race :=
  { shared := { heap := hp, base := { block_ := none }, installs := [] }
    t1 := .entry, t2 := .entry }

/-- The states one step after a state, for pointee 0. -/
def Race.nexts (r : Race) : List Race :=
  [false, true].filterMap (Race.step 0 r)

/-- The states `k` steps after the states of a list, for pointee 0. -/
def Race.after : Nat → List Race → List Race
  | 0, l => l
  | k + 1, l => Race.after k (l.flatMap Race.nexts)

/-- The block pointer a thread has returned. -/
def Thread.result : Thread → Option Nat
  | .returned b => some b
  | _ => none

/-- The three ways the race from the empty heap for pointee 0 can end. -/
def Race.finals : List Race :=
  [ { shared := { heap := [{ ptr_ := some 0, ref_ := 3, deleted := false }]
                  base := { block_ := some 0 }, installs := [0] }
      t1 := .returned 0, t2 := .returned 0 },
    { shared := { heap := [{ ptr_ := some 0, ref_ := 3, deleted := false },
                           { ptr_ := some 0, ref_ := 2, deleted := true }]
                  base := { block_ := some 0 }, installs := [0] }
      t1 := .returned 0, t2 := .returned 0 },
    { shared := { heap := [{ ptr_ := some 0, ref_ := 2, deleted := true },
                           { ptr_ := some 0, ref_ := 3, deleted := false }]
                  base := { block_ := some 1 }, installs := [1] }
      t1 := .returned 1, t2 := .returned 1 } ]

/-- The block a thread created and failed to install, while it still holds it. -/
def Thread.lost : Thread → Option Nat
  | .failed b _ => some b
  | _ => none

/-- What is checked in every state of the race from the empty heap for pointee 0. -/
def Race.good (r : Race) : Bool :=
  (r.t1.result.isSome || (Race.step 0 r false).isSome) &&
  (r.t2.result.isSome || (Race.step 0 r true).isSome) &&
  decide (r.shared.installs = r.shared.base.block_.toList) &&
  (match r.t1.lost with | some b => decide (b ∉ r.shared.installs) | none => true) &&
  (match r.t2.lost with | some b => decide (b ∉ r.shared.installs) | none => true) &&
  (!(r.t1.result.isSome && r.t2.result.isSome) || decide (r ∈ Race.finals))

/-- A block of the race for pointee 0, as a block of the race for pointee `p`. -/
def liftBlock (p : Nat) (blk : guard_block) : guard_block :=
  { blk with ptr_ := blk.ptr_.map (fun _ => p) }

/-- A thread of the race from the empty heap, as a thread of the race that starts with `n`
blocks allocated: every block pointer is `n` higher. -/
def liftThread (n : Nat) : Thread → Thread
  | .entry => .entry
  | .loaded b => .loaded (b.map (fun c => n + c))
  | .created b => .created (n + b)
  | .failed b held => .failed (n + b) (held.map (fun c => n + c))
  | .discarded b => .discarded (b.map (fun c => n + c))
  | .returned b => .returned (n + b)

/-- The shared state of the race from the empty heap for pointee 0, as a shared state of the
race from the heap `hp` for pointee `p`. -/
def liftShared (hp : Heap) (p : Nat) (s : Shared) : Shared :=
  { heap := hp ++ s.heap.map (liftBlock p)
    base := { block_ := s.base.block_.map (fun c => hp.length + c) }
    installs := s.installs.map (fun c => hp.length + c) }

/-- A state of the race from the empty heap for pointee 0, as a state of the race from the
heap `hp` for pointee `p`. -/
def liftRace (hp : Heap) (p : Nat) (r : Race) : Race :=
  { shared := liftShared hp p r.shared
    t1 := liftThread hp.length r.t1
    t2 := liftThread hp.length r.t2 }

/-- The end of the race for a pointee at address 1 from the heap of `demoW`, when the first
thread installs its block between the load and the compare-and-exchange of the second. -/
def raceDemo : Race :=
  { shared := { heap := demoW.heap ++ [{ ptr_ := some 1, ref_ := 3, deleted := false },
                                       { ptr_ := some 1, ref_ := 2, deleted := true }]
                base := { block_ := some 1 }, installs := [1] }
    t1 := .returned 1, t2 := .returned 1 }

/-- The state after two pointees were created, a handle was bound to each and destroyed
again, and the first pointee was destroyed: block 0 has no owner left and is deleted, block 1
is held by the base of the living second pointee alone. -/
def leakW : World :=
  { heap := [{ ptr_ := none, ref_ := 0, deleted := true },
             { ptr_ := some 1, ref_ := 1, deleted := false }]
    objs := [{ base := { block_ := none }, destroyed := true },
             { base := { block_ := some 1 }, destroyed := false }]
    hs := [none, none] }

/-! ## The copy assignment, statement by statement -/

/-- Where the execution of the copy assignment `operator=(const guard_ptr& rhs)` stands:
before the test `if (rhs.block_ != block_)`, before the statement
`if (rhs.block_) { rhs.block_->acquire(); }`, before `tryToRelease();`, before
`block_ = rhs.block_;`, and at `return *this;`. -/
inductive AssignPc where
  | test
  | acquire
  | release
  | store
  | ret
deriving DecidableEq, Repr

/-- A state of the execution of the copy assignment: the next statement, `*this` and the
heap. -/
structure AssignState where
  pc : AssignPc
  self : guard_ptr
  hp : Heap
deriving DecidableEq, Repr

namespace guard_ptr

/-- One statement of the copy assignment `operator=(const guard_ptr& rhs)`, in the order of
the source. -/
def operator_assign_step (rhs : guard_ptr) (s : AssignState) : Option AssignState :=
  match s.pc with
  | .test =>
    if rhs.block_ ≠ s.self.block_ then some { s with pc := .acquire }
    else some { s with pc := .ret }
  | .acquire =>
    match rhs.block_ with
    | some b =>
      match guard_block.acquire s.hp b with
      | some hp1 => some { s with pc := .release, hp := hp1 }
      | none => none
    | none => some { s with pc := .release }
  | .release =>
    match tryToRelease s.self s.hp with
    | some (self1, hp1) => some { pc := .store, self := self1, hp := hp1 }
    | none => none
  | .store => some { s with pc := .ret, self := { block_ := rhs.block_ } }
  | .ret => none

/-- The copy assignment executed statement by statement, for at most `k` statements, until
`return *this;`. -/
def operator_assign_run (rhs : guard_ptr) : Nat → AssignState → Option AssignState
  | 0, s => some s
  | k + 1, s =>
    if s.pc = .ret then some s
    else
      match operator_assign_step rhs s with
      | some s1 => operator_assign_run rhs k s1
      | none => none

end guard_ptr

/-- Two living pointees, each with its block, and one handle bound to each block. -/
def twoW : World :=
  { heap := [{ ptr_ := some 0, ref_ := 2, deleted := false },
             { ptr_ := some 1, ref_ := 2, deleted := false }]
    objs := [{ base := { block_ := some 0 }, destroyed := false },
             { base := { block_ := some 1 }, destroyed := false }]
    hs := [some { block_ := some 0 }, some { block_ := some 1 }] }

/-! ## Lists -/

theorem count_append_one {α : Type} (p : α → Bool) (l : List α) (v : α) :
    (l ++ [v]).countP p = l.countP p + (if p v then 1 else 0) := by
  simp [List.countP_append, List.countP_cons]

theorem count_set {α : Type} (p : α → Bool) (l : List α) (i : Nat)
    (u v : α) (hu : l[i]? = some u) :
    (l.set i v).countP p + (if p u then 1 else 0)
      = l.countP p + (if p v then 1 else 0) := by
  induction l generalizing i with
  | nil => simp at hu
  | cons x xs ih =>
    cases i with
    | zero =>
      simp at hu
      subst hu
      simp [List.countP_cons]
      omega
    | succ i =>
      simp at hu
      have := ih i hu
      simp [List.countP_cons]
      omega

theorem set_same {α : Type} (l : List α) (i : Nat) (u : α) (hu : l[i]? = some u) :
    l.set i u = l := by
  apply List.ext_getElem?
  intro j
  rw [List.getElem?_set]
  by_cases hij : i = j
  · subst hij
    have hlt : i < l.length := (List.getElem?_eq_some_iff.mp hu).1
    simp [hlt, hu]
  · simp [hij]

theorem count_pos_of_get {α : Type} (p : α → Bool) (l : List α) (i : Nat)
    (u : α) (hu : l[i]? = some u) (hf : p u = true) : 1 ≤ l.countP p := by
  apply List.countP_pos_iff.mpr
  exact ⟨u, List.getElem?_mem hu, hf⟩

theorem count_zero_of_forall {α : Type} (p : α → Bool) (l : List α)
    (h : ∀ (i : Nat) (u : α), l[i]? = some u → p u = false) : l.countP p = 0 := by
  rw [List.countP_eq_zero]
  intro u hu
  obtain ⟨i, hi⟩ := List.getElem?_of_mem hu
  rw [h i u hi]
  simp

theorem count_le_one_of_unique {α : Type} (p : α → Bool) (l : List α)
    (h : ∀ (i j : Nat) (u v : α), l[i]? = some u → l[j]? = some v →
      p u = true → p v = true → i = j) :
    l.countP p ≤ 1 := by
  induction l with
  | nil => simp
  | cons x xs ih =>
    by_cases hx : p x = true
    · have hz : xs.countP p = 0 := by
        apply count_zero_of_forall
        intro i u hu
        by_contra hfu
        have := h 0 (i + 1) x u (by simp) (by simpa using hu) hx (by simpa using hfu)
        omega
      simp [List.countP_cons, hx, hz]
    · have := ih (fun i j u v hi hj hu hv => by
        have := h (i + 1) (j + 1) u v (by simpa using hi) (by simpa using hj) hu hv
        omega)
      simp [List.countP_cons, hx]
      omega

/-! ## The control block -/

theorem live_eq_some {hp : Heap} {b : Nat} {blk : guard_block} :
    hp.live b = some blk ↔ hp[b]? = some blk ∧ blk.deleted = false := by
  unfold Heap.live
  cases h : hp[b]? with
  | none => simp
  | some x =>
    by_cases hx : x.deleted = true
    · simp [hx]; intro h1; subst h1; simp [hx]
    · simp [hx]; intro h1; subst h1; simpa using hx

theorem live_eq_none {hp : Heap} {b : Nat} :
    hp.live b = none ↔ ∀ blk, hp[b]? = some blk → blk.deleted = true := by
  unfold Heap.live
  cases h : hp[b]? with
  | none => simp
  | some x => by_cases hx : x.deleted = true <;> simp [hx]

theorem handle_eq_some {w : World} {h : Nat} {g : guard_ptr} :
    w.handle h = some g ↔ w.hs[h]? = some (some g) := by
  unfold World.handle
  cases hh : w.hs[h]? with
  | none => simp
  | some x => cases x <;> simp

theorem handle_lt {w : World} {h : Nat} {g : guard_ptr} (hg : w.handle h = some g) :
    h < w.hs.length := by
  rw [handle_eq_some] at hg
  exact (List.getElem?_eq_some_iff.mp hg).1

theorem acquire_eq_some {hp hp1 : Heap} {b : Nat} :
    guard_block.acquire hp b = some hp1 ↔
      ∃ blk, hp[b]? = some blk ∧ blk.deleted = false ∧
        hp1 = hp.set b { blk with ref_ := (blk.ref_ + 1) % UINT_MOD } := by
  unfold guard_block.acquire
  cases h : hp.live b with
  | none =>
    simp
    intro blk h1 h2
    have := live_eq_some.mpr ⟨h1, h2⟩
    simp [h] at this
  | some x =>
    obtain ⟨h1, h2⟩ := live_eq_some.mp h
    simp [h1]
    constructor
    · intro e; exact ⟨h2, e.symm⟩
    · intro e; exact e.2.symm

theorem release_eq_some {hp hp1 : Heap} {b : Nat} {r : Bool} :
    guard_block.release hp b = some (r, hp1) ↔
      ∃ blk, hp[b]? = some blk ∧ blk.deleted = false ∧ r = !decide (blk.ref_ = 1) ∧
        hp1 = hp.set b { ptr_ := blk.ptr_, ref_ := (blk.ref_ + UINT_MOD - 1) % UINT_MOD,
                         deleted := decide (blk.ref_ = 1) } := by
  unfold guard_block.release
  cases h : hp.live b with
  | none =>
    simp
    intro blk h1 h2
    have := live_eq_some.mpr ⟨h1, h2⟩
    simp [h] at this
  | some x =>
    obtain ⟨h1, h2⟩ := live_eq_some.mp h
    by_cases h3 : x.ref_ = 1
    · simp [h1, h3, h2]
      intro _
      exact eq_comm
    · simp [h1, h3, h2]
      intro _
      exact eq_comm

theorem CountsOK.congr {hp : Heap} {n m : Nat → Nat} (h : CountsOK hp n)
    (e : ∀ c, c < hp.length → m c = n c) : CountsOK hp m := by
  intro b blk hb
  have hlt : b < hp.length := (List.getElem?_eq_some_iff.mp hb).1
  rw [e b hlt]
  exact h b blk hb

theorem CountsOK.after_acquire {hp : Heap} {n : Nat → Nat} {b : Nat} {blk : guard_block}
    (h : CountsOK hp n) (hb : hp[b]? = some blk) (hd : blk.deleted = false) :
    CountsOK (hp.set b { blk with ref_ := (blk.ref_ + 1) % UINT_MOD })
      (fun c => n c + if c = b then 1 else 0) := by
  intro c blk1 hc
  rw [List.getElem?_set] at hc
  by_cases hcb : b = c
  · subst hcb
    have hlt : b < hp.length := (List.getElem?_eq_some_iff.mp hb).1
    simp [hlt] at hc
    subst hc
    have := h b blk hb
    unfold BlockOK UINT_MOD at *
    simp [hd] at this ⊢
    omega
  · simp [hcb] at hc
    have hcb2 : ¬ c = b := fun e => hcb e.symm
    simpa [hcb2] using h c blk1 hc

theorem CountsOK.after_release {hp : Heap} {n : Nat → Nat} {b : Nat} {blk : guard_block}
    (h : CountsOK hp n) (hb : hp[b]? = some blk) (hd : blk.deleted = false) :
    CountsOK (hp.set b { ptr_ := blk.ptr_, ref_ := (blk.ref_ + UINT_MOD - 1) % UINT_MOD,
                         deleted := decide (blk.ref_ = 1) })
      (fun c => n c - if c = b then 1 else 0) := by
  intro c blk1 hc
  rw [List.getElem?_set] at hc
  by_cases hcb : b = c
  · subst hcb
    have hlt : b < hp.length := (List.getElem?_eq_some_iff.mp hb).1
    simp [hlt] at hc
    subst hc
    have := h b blk hb
    unfold BlockOK UINT_MOD at *
    simp [hd] at this ⊢
    omega
  · simp [hcb] at hc
    have hcb2 : ¬ c = b := fun e => hcb e.symm
    simpa [hcb2] using h c blk1 hc

theorem CountsOK.store_ptr {hp : Heap} {n : Nat → Nat} {b : Nat} {blk : guard_block}
    (x : Option Nat) (h : CountsOK hp n) (hb : hp[b]? = some blk) :
    CountsOK (hp.set b { blk with ptr_ := x }) n := by
  intro c blk1 hc
  rw [List.getElem?_set] at hc
  by_cases hcb : b = c
  · subst hcb
    have hlt : b < hp.length := (List.getElem?_eq_some_iff.mp hb).1
    simp [hlt] at hc
    subst hc
    exact h b blk hb
  · simp [hcb] at hc
    exact h c blk1 hc

theorem CountsOK.after_create {hp : Heap} {n : Nat → Nat} (p : Option Nat) (r : Nat)
    (h : CountsOK hp n) (h0 : n hp.length = 0) :
    CountsOK (hp ++ [guard_block.create p r])
      (fun c => n c + if c = hp.length then 2 else 0) := by
  intro c blk1 hc
  by_cases hlt : c < hp.length
  · rw [List.getElem?_append_left hlt] at hc
    have hne : ¬ c = hp.length := by omega
    simpa [hne] using h c blk1 hc
  · rw [List.getElem?_append_right (by omega)] at hc
    have hce : c = hp.length := by
      by_contra hne
      have : c - hp.length ≠ 0 := by omega
      cases hk : c - hp.length with
      | zero => exact this hk
      | succ k => simp [hk] at hc
    subst hce
    simp [guard_block.create] at hc
    subst hc
    unfold BlockOK UINT_MOD
    simp [h0]

/-! ## The handle operations, one by one -/

theorem tryToRelease_heap {g g1 : guard_ptr} {hp hp1 : Heap}
    (h : guard_ptr.tryToRelease g hp = some (g1, hp1)) : rel hp g.block_ = some hp1 := by
  unfold guard_ptr.tryToRelease at h
  unfold rel
  cases hb : g.block_ with
  | none => simp [hb] at h; simp [h.2]
  | some b =>
    simp only [hb] at h ⊢
    cases hr : guard_block.release hp b with
    | none => simp [hr] at h
    | some x =>
      obtain ⟨r, hp2⟩ := x
      cases r <;> simp [hr] at h <;> simp [h.2]

theorem tryToRelease_of_rel {g : guard_ptr} {hp hp1 : Heap}
    (h : rel hp g.block_ = some hp1) : ∃ g1, guard_ptr.tryToRelease g hp = some (g1, hp1) := by
  unfold guard_ptr.tryToRelease
  unfold rel at h
  cases hb : g.block_ with
  | none => simp [hb] at h; simp [h]
  | some b =>
    simp only [hb] at h ⊢
    cases hr : guard_block.release hp b with
    | none => simp [hr] at h
    | some x =>
      obtain ⟨r, hp2⟩ := x
      cases r <;> simp [hr] at h <;> simp [h]

theorem swap_eq (a g : guard_ptr) :
    guard_ptr.swap a g = ({ block_ := g.block_ }, { block_ := a.block_ }) := by
  unfold guard_ptr.swap
  by_cases h : g.block_ = a.block_
  · cases a; cases g; simp_all
  · simp [h]

theorem ctor_move_eq (g : guard_ptr) :
    guard_ptr.ctor_move g = ({ block_ := g.block_ }, { block_ := none }) := by
  unfold guard_ptr.ctor_move
  cases g with
  | mk b => cases b <;> simp

theorem step_new_obj {w w1 : World} (h : step w .new_obj = some w1) :
    w1 = { w with objs := w.objs ++ [{ base := { block_ := none }, destroyed := false }] } := by
  simp [step] at h; exact h.symm

theorem step_ctor {w w1 : World} (h : step w .ctor = some w1) :
    w1 = { w with hs := w.hs ++ [some { block_ := none }] } := by
  simp [step, guard_ptr.ctor] at h; exact h.symm

theorem step_ctor_null {w w1 : World} (h : step w (.ctor_ptr none) = some w1) :
    w1 = { w with hs := w.hs ++ [some { block_ := none }] } := by
  simp [step] at h; exact h.symm

theorem step_ctor_copy {w w1 : World} {r : Nat} (h : step w (.ctor_copy r) = some w1) :
    ∃ g hp1, w.handle r = some g ∧ acq w.heap g.block_ = some hp1 ∧
      w1 = { w with heap := hp1, hs := w.hs ++ [some { block_ := g.block_ }] } := by
  simp only [step] at h
  cases hg : w.handle r with
  | none => simp [hg] at h
  | some g =>
    simp only [hg] at h
    refine ⟨g, ?_⟩
    unfold guard_ptr.ctor_copy at h
    cases hb : g.block_ with
    | none => simp [hb] at h; exact ⟨w.heap, rfl, rfl, h.symm⟩
    | some b =>
      simp only [hb] at h
      cases ha : guard_block.acquire w.heap b with
      | none => simp [ha] at h
      | some hp1 => simp [ha] at h; exact ⟨hp1, rfl, ha, h.symm⟩

theorem step_ctor_move {w w1 : World} {r : Nat} (h : step w (.ctor_move r) = some w1) :
    ∃ g, w.handle r = some g ∧
      w1 = { w with hs := w.hs.set r (some { block_ := none }) ++ [some { block_ := g.block_ }] } := by
  simp only [step] at h
  cases hg : w.handle r with
  | none => simp [hg] at h
  | some g =>
    simp [hg, ctor_move_eq] at h
    exact ⟨g, rfl, h.symm⟩

theorem step_assign {w w1 : World} {l r : Nat} (h : step w (.assign l r) = some w1) :
    ∃ a g, w.handle l = some a ∧ w.handle r = some g ∧
      ((g.block_ = a.block_ ∧ w1 = w) ∨
       (g.block_ ≠ a.block_ ∧ ∃ hp1 hp2, acq w.heap g.block_ = some hp1 ∧
          rel hp1 a.block_ = some hp2 ∧
          w1 = { w with heap := hp2, hs := w.hs.set l (some { block_ := g.block_ }) })) := by
  simp only [step] at h
  cases ha : w.handle l with
  | none => simp [ha] at h
  | some a =>
    cases hg : w.handle r with
    | none => simp [ha, hg] at h
    | some g =>
      simp only [ha, hg] at h
      refine ⟨a, g, rfl, rfl, ?_⟩
      unfold guard_ptr.operator_assign at h
      by_cases hne : g.block_ = a.block_
      · left
        simp [hne] at h
        refine ⟨hne, ?_⟩
        rw [← h]
        have := handle_eq_some.mp ha
        cases w
        simp at this ⊢
        exact set_same _ _ _ this
      · right
        refine ⟨hne, ?_⟩
        simp only [hne, ne_eq, not_false_eq_true, if_true] at h
        have hacq : (match g.block_ with
            | some b => guard_block.acquire w.heap b
            | none => some w.heap) = acq w.heap g.block_ := by
          unfold acq; cases g.block_ <;> rfl
        rw [hacq] at h
        cases h1 : acq w.heap g.block_ with
        | none => simp [h1] at h
        | some hp1 =>
          simp only [h1] at h
          cases h2 : guard_ptr.tryToRelease a hp1 with
          | none => simp [h2] at h
          | some x =>
            obtain ⟨a1, hp2⟩ := x
            simp [h2] at h
            exact ⟨hp1, hp2, rfl, tryToRelease_heap h2, h.symm⟩

theorem step_assign_move {w w1 : World} {l r : Nat} (h : step w (.assign_move l r) = some w1) :
    ∃ a g, w.handle l = some a ∧ w.handle r = some g ∧
      ((g.block_ = a.block_ ∧ w1 = w) ∨
       (g.block_ ≠ a.block_ ∧ ∃ hp1, rel w.heap a.block_ = some hp1 ∧
          w1 = { w with heap := hp1
                        hs := (w.hs.set r (some { block_ := none })).set l
                                (some { block_ := g.block_ }) })) := by
  simp only [step] at h
  cases ha : w.handle l with
  | none => simp [ha] at h
  | some a =>
    cases hg : w.handle r with
    | none => simp [ha, hg] at h
    | some g =>
      simp only [ha, hg] at h
      refine ⟨a, g, rfl, rfl, ?_⟩
      unfold guard_ptr.operator_assign_move at h
      by_cases hne : g.block_ = a.block_
      · left
        simp [hne] at h
        refine ⟨hne, ?_⟩
        rw [← h]
        have h1 := handle_eq_some.mp ha
        have h2 := handle_eq_some.mp hg
        cases w
        simp at h1 h2 ⊢
        rw [set_same _ _ _ h2, set_same _ _ _ h1]
      · right
        refine ⟨hne, ?_⟩
        simp only [hne, ne_eq, not_false_eq_true, if_true] at h
        cases h2 : guard_ptr.tryToRelease a w.heap with
        | none => simp [h2] at h
        | some x =>
          obtain ⟨a1, hp2⟩ := x
          simp [h2] at h
          exact ⟨hp2, tryToRelease_heap h2, h.symm⟩

theorem step_swap {w w1 : World} {l r : Nat} (h : step w (.swap l r) = some w1) :
    ∃ a g, w.handle l = some a ∧ w.handle r = some g ∧
      w1 = { w with hs := (w.hs.set r (some { block_ := a.block_ })).set l
                            (some { block_ := g.block_ }) } := by
  simp only [step] at h
  cases ha : w.handle l with
  | none => simp [ha] at h
  | some a =>
    cases hg : w.handle r with
    | none => simp [ha, hg] at h
    | some g =>
      simp [ha, hg, swap_eq] at h
      exact ⟨a, g, rfl, rfl, h.symm⟩

theorem clear_eq (g : guard_ptr) (hp : Heap) :
    guard_ptr.clear g hp =
      (match rel hp g.block_ with
       | some hp1 => some ({ block_ := none }, hp1)
       | none => none) := by
  unfold guard_ptr.clear guard_ptr.dtor
  simp only [swap_eq, guard_ptr.ctor]
  cases h : guard_ptr.tryToRelease { block_ := g.block_ } hp with
  | none =>
    cases h2 : rel hp g.block_ with
    | none => rfl
    | some hp1 =>
      obtain ⟨g1, hg1⟩ := tryToRelease_of_rel (g := { block_ := g.block_ }) h2
      simp [h] at hg1
  | some x =>
    obtain ⟨a1, hp2⟩ := x
    have := tryToRelease_heap h
    simp at this
    simp [this]

theorem dtor_eq (g : guard_ptr) (hp : Heap) : guard_ptr.dtor g hp = rel hp g.block_ := by
  unfold guard_ptr.dtor
  cases h : guard_ptr.tryToRelease g hp with
  | none =>
    cases h2 : rel hp g.block_ with
    | none => rfl
    | some hp1 =>
      obtain ⟨g1, hg1⟩ := tryToRelease_of_rel h2
      simp [h] at hg1
  | some x =>
    obtain ⟨a1, hp2⟩ := x
    simp [tryToRelease_heap h]

theorem step_clear {w w1 : World} {h : Nat} (hs : step w (.clear h) = some w1) :
    ∃ g hp1, w.handle h = some g ∧ rel w.heap g.block_ = some hp1 ∧
      w1 = { w with heap := hp1, hs := w.hs.set h (some { block_ := none }) } := by
  simp only [step] at hs
  cases hg : w.handle h with
  | none => simp [hg] at hs
  | some g =>
    simp only [hg, clear_eq] at hs
    cases hr : rel w.heap g.block_ with
    | none => simp [hr] at hs
    | some hp1 =>
      simp [hr] at hs
      exact ⟨g, hp1, rfl, hr, hs.symm⟩

theorem step_dtor {w w1 : World} {h : Nat} (hs : step w (.dtor h) = some w1) :
    ∃ g hp1, w.handle h = some g ∧ rel w.heap g.block_ = some hp1 ∧
      w1 = { w with heap := hp1, hs := w.hs.set h none } := by
  simp only [step] at hs
  cases hg : w.handle h with
  | none => simp [hg] at hs
  | some g =>
    simp only [hg, dtor_eq] at hs
    cases hr : rel w.heap g.block_ with
    | none => simp [hr] at hs
    | some hp1 =>
      simp [hr] at hs
      exact ⟨g, hp1, rfl, hr, hs.symm⟩

theorem obj_eq_some {w : World} {p : Nat} {o : Pointee} :
    w.obj p = some o ↔ w.objs[p]? = some o ∧ o.destroyed = false := by
  unfold World.obj
  cases h : w.objs[p]? with
  | none => simp
  | some x =>
    by_cases hx : x.destroyed = true
    · simp [hx]; intro h1; subst h1; simp [hx]
    · simp [hx]; intro h1; subst h1; simpa using hx

theorem step_ctor_ptr {w w1 : World} {p : Nat} (h : step w (.ctor_ptr (some p)) = some w1) :
    ∃ o, w.obj p = some o ∧
      ((o.base.block_ = none ∧
        w1 = { heap := w.heap ++ [guard_block.create (some p) 2]
               objs := w.objs.set p { base := { block_ := some w.heap.length }, destroyed := false }
               hs := w.hs ++ [some { block_ := some w.heap.length }] }) ∨
       (∃ b hp1, o.base.block_ = some b ∧ acq w.heap (some b) = some hp1 ∧
        w1 = { w with heap := hp1, hs := w.hs ++ [some { block_ := some b }] })) := by
  simp only [step] at h
  cases ho : w.obj p with
  | none => simp [ho] at h
  | some o =>
    simp only [ho] at h
    refine ⟨o, rfl, ?_⟩
    have hod := (obj_eq_some.mp ho).2
    unfold support_guard_ptr.getAndRef support_guard_ptr.internalGetAndRef at h
    cases hb : o.base.block_ with
    | none =>
      left
      simp [hb, compare_exchange_strong] at h
      refine ⟨rfl, ?_⟩
      rw [← h, hod]
    | some b =>
      right
      simp only [hb] at h
      cases ha : guard_block.acquire w.heap b with
      | none => simp [ha] at h
      | some hp1 =>
        simp [ha] at h
        refine ⟨b, hp1, rfl, ha, ?_⟩
        rw [← h]
        have := (obj_eq_some.mp ho).1
        cases w
        simp at this ⊢
        exact set_same _ _ _ this

theorem step_delete_obj {w w1 : World} {p : Nat} (h : step w (.delete_obj p) = some w1) :
    ∃ o, w.obj p = some o ∧
      ((o.base.block_ = none ∧
        w1 = { w with objs := w.objs.set p { base := o.base, destroyed := true } }) ∨
       (∃ b blk, o.base.block_ = some b ∧ w.heap[b]? = some blk ∧ blk.deleted = false ∧
        w1 = { w with
               heap := w.heap.set b { ptr_ := none
                                      ref_ := (blk.ref_ + UINT_MOD - 1) % UINT_MOD
                                      deleted := decide (blk.ref_ = 1) }
               objs := w.objs.set p
                 { base := if blk.ref_ = 1 then { block_ := none } else o.base
                   destroyed := true } })) := by
  simp only [step] at h
  cases ho : w.obj p with
  | none => simp [ho] at h
  | some o =>
    simp only [ho] at h
    refine ⟨o, rfl, ?_⟩
    unfold support_guard_ptr.dtor at h
    cases hb : o.base.block_ with
    | none =>
      left
      simp [hb] at h
      exact ⟨rfl, h.symm⟩
    | some b =>
      right
      simp only [hb] at h
      cases hl : w.heap.live b with
      | none => simp [hl] at h
      | some blk =>
        obtain ⟨h1, h2⟩ := live_eq_some.mp hl
        have hlt : b < w.heap.length := (List.getElem?_eq_some_iff.mp h1).1
        simp only [hl] at h
        refine ⟨b, blk, rfl, h1, h2, ?_⟩
        cases hr : guard_block.release (w.heap.set b { blk with ptr_ := none }) b with
        | none => simp [hr] at h
        | some x =>
          obtain ⟨r, hp2⟩ := x
          obtain ⟨blk2, e1, e2, e3, e4⟩ := release_eq_some.mp hr
          rw [List.getElem?_set_self hlt] at e1
          simp at e1
          subst e1
          simp at e3 e4
          by_cases h1 : blk.ref_ = 1
          · simp [h1] at e3 e4
            subst e3
            simp [hr] at h
            rw [← h, e4]
            simp [h1]
          · simp [h1] at e3 e4
            subst e3
            simp [hr] at h
            rw [← h, e4]
            simp [h1]

/-! ## The invariant -/

theorem HeapFrame.same (hp : Heap) : HeapFrame hp hp := ⟨rfl, fun _ => rfl⟩

theorem HeapFrame.trans {a b c : Heap} (h1 : HeapFrame a b) (h2 : HeapFrame b c) :
    HeapFrame a c := ⟨h2.1.trans h1.1, fun i => (h2.2 i).trans (h1.2 i)⟩

theorem HeapFrame.set {hp : Heap} {b : Nat} {blk blk1 : guard_block}
    (hb : hp[b]? = some blk) (hp1 : blk1.ptr_ = blk.ptr_) : HeapFrame hp (hp.set b blk1) := by
  refine ⟨by simp, fun c => ?_⟩
  rw [List.getElem?_set]
  by_cases hcb : b = c
  · subst hcb
    have hlt : b < hp.length := (List.getElem?_eq_some_iff.mp hb).1
    simp [hlt, hb, hp1]
  · simp [hcb]

theorem acq_frame {hp hp1 : Heap} {x : Option Nat} (h : acq hp x = some hp1) :
    HeapFrame hp hp1 := by
  cases x with
  | none => simp [acq] at h; subst h; exact HeapFrame.same _
  | some b =>
    obtain ⟨blk, h1, _, h3⟩ := acquire_eq_some.mp h
    subst h3
    exact HeapFrame.set h1 rfl

theorem rel_eq_some {hp hp1 : Heap} {b : Nat} :
    rel hp (some b) = some hp1 ↔
      ∃ blk, hp[b]? = some blk ∧ blk.deleted = false ∧
        hp1 = hp.set b { ptr_ := blk.ptr_, ref_ := (blk.ref_ + UINT_MOD - 1) % UINT_MOD,
                         deleted := decide (blk.ref_ = 1) } := by
  unfold rel
  cases hr : guard_block.release hp b with
  | none =>
    simp only [hr]
    simp
    intro blk h1 h2 h3
    have := release_eq_some.mpr ⟨blk, h1, h2, rfl, h3⟩
    simp [hr] at this
  | some x =>
    obtain ⟨r, hp2⟩ := x
    obtain ⟨blk, e1, e2, _, e4⟩ := release_eq_some.mp hr
    simp only [hr]
    simp [e1]
    constructor
    · intro e; subst e; exact ⟨e2, e4⟩
    · intro e; rw [e.2, e4]

theorem rel_frame {hp hp1 : Heap} {x : Option Nat} (h : rel hp x = some hp1) :
    HeapFrame hp hp1 := by
  cases x with
  | none => simp [rel] at h; subst h; exact HeapFrame.same _
  | some b =>
    obtain ⟨blk, h1, _, h3⟩ := rel_eq_some.mp h
    subst h3
    exact HeapFrame.set h1 rfl

theorem acq_counts {hp hp1 : Heap} {x : Option Nat} {n : Nat → Nat} (hc : CountsOK hp n)
    (h : acq hp x = some hp1) :
    CountsOK hp1 (fun c => n c + if x = some c then 1 else 0) := by
  cases x with
  | none => simp [acq] at h; subst h; simpa using hc
  | some b =>
    obtain ⟨blk, h1, h2, h3⟩ := acquire_eq_some.mp h
    subst h3
    have := hc.after_acquire h1 h2
    refine this.congr (fun c _ => ?_)
    by_cases hcb : c = b
    · subst hcb; simp
    · have : ¬ b = c := fun e => hcb e.symm
      simp [hcb, this]

theorem rel_counts {hp hp1 : Heap} {x : Option Nat} {n : Nat → Nat} (hc : CountsOK hp n)
    (h : rel hp x = some hp1) :
    CountsOK hp1 (fun c => n c - if x = some c then 1 else 0) := by
  cases x with
  | none => simp [rel] at h; subst h; simpa using hc
  | some b =>
    obtain ⟨blk, h1, h2, h3⟩ := rel_eq_some.mp h
    subst h3
    have := hc.after_release h1 h2
    refine this.congr (fun c _ => ?_)
    by_cases hcb : c = b
    · subst hcb; simp
    · have : ¬ b = c := fun e => hcb e.symm
      simp [hcb, this]

theorem Inv.of_handle_op {w w1 : World} (hi : Inv w) (ho : w1.objs = w.objs)
    (hf : HeapFrame w.heap w1.heap) (hc : CountsOK w1.heap (owners w1))
    (hr : ∀ s ∈ w1.hs, ∀ b, hslot s = some b → b < w.heap.length) : Inv w1 := by
  have hobj : ∀ p, w1.obj p = w.obj p := fun p => by unfold World.obj; rw [ho]
  have hptr : ∀ (c : Nat) (blk1 : guard_block), w1.heap[c]? = some blk1 →
      ∃ blk, w.heap[c]? = some blk ∧ blk.ptr_ = blk1.ptr_ := by
    intro c blk1 h1
    have := hf.2 c
    rw [h1] at this
    cases h : w.heap[c]? with
    | none => simp [h] at this
    | some blk => simp [h] at this; exact ⟨blk, rfl, this.symm⟩
  refine ⟨hc, ?_, ?_, ?_, ?_⟩
  · intro s hs b hb
    rw [hf.1]
    exact hr s hs b hb
  · intro o hoo b hb
    rw [hf.1]
    rw [ho] at hoo
    exact hi.range_o o hoo b hb
  · intro b blk1 p h1 h2
    obtain ⟨blk, h3, h4⟩ := hptr b blk1 h1
    rw [hobj]
    exact hi.ptr_alive b blk p h3 (h4.trans h2)
  · intro p o b blk1 h1 h2 h3
    obtain ⟨blk, h4, h5⟩ := hptr b blk1 h3
    rw [hobj] at h1
    rw [← h5]
    exact hi.alive_ptr p o b blk h1 h2 h4

theorem owners_hs_append (hp1 : Heap) (w : World) (v : Option guard_ptr) (c : Nat) :
    owners { heap := hp1, objs := w.objs, hs := w.hs ++ [v] } c
      = owners w c + (if hslot v = some c then 1 else 0) := by
  unfold owners anchorSlots handleSlots
  simp only [count_append_one, decide_eq_true_eq]
  omega

theorem owners_hs_set (hp1 : Heap) (w : World) (i : Nat) (u v : Option guard_ptr) (c : Nat)
    (hu : w.hs[i]? = some u) :
    owners { heap := hp1, objs := w.objs, hs := w.hs.set i v } c
        + (if hslot u = some c then 1 else 0)
      = owners w c + (if hslot v = some c then 1 else 0) := by
  unfold owners anchorSlots handleSlots
  have := count_set (fun s => decide (hslot s = some c)) w.hs i u v hu
  simp only [decide_eq_true_eq] at this ⊢
  omega

theorem owners_objs_append (hp1 : Heap) (w : World) (v : Pointee) (c : Nat) :
    owners { heap := hp1, objs := w.objs ++ [v], hs := w.hs } c
      = owners w c + (if v.slot = some c then 1 else 0) := by
  unfold owners anchorSlots handleSlots
  simp only [count_append_one, decide_eq_true_eq]
  omega

theorem owners_objs_set (hp1 : Heap) (w : World) (i : Nat) (u v : Pointee) (c : Nat)
    (hu : w.objs[i]? = some u) :
    owners { heap := hp1, objs := w.objs.set i v, hs := w.hs } c
        + (if u.slot = some c then 1 else 0)
      = owners w c + (if v.slot = some c then 1 else 0) := by
  unfold owners anchorSlots handleSlots
  have := count_set (fun o => decide (Pointee.slot o = some c)) w.objs i u v hu
  simp only [decide_eq_true_eq] at this ⊢
  omega

theorem range_append {w : World} (hi : Inv w) (x : Option Nat)
    (hx : ∀ b, x = some b → b < w.heap.length) :
    ∀ s ∈ w.hs ++ [some { block_ := x }], ∀ b, hslot s = some b → b < w.heap.length := by
  intro s hs b hb
  rw [List.mem_append] at hs
  rcases hs with hs | hs
  · exact hi.range_h s hs b hb
  · simp at hs; subst hs; exact hx b hb

theorem range_set {n : Nat} (l : List (Option guard_ptr)) (i : Nat)
    (v : Option guard_ptr) (hl : ∀ s ∈ l, ∀ b, hslot s = some b → b < n)
    (hv : ∀ b, hslot v = some b → b < n) :
    ∀ s ∈ l.set i v, ∀ b, hslot s = some b → b < n := by
  intro s hs b hb
  rcases List.mem_or_eq_of_mem_set hs with h | h
  · exact hl s h b hb
  · subst h; exact hv b hb

theorem range_of_handle {w : World} (hi : Inv w) {h : Nat} {g : guard_ptr}
    (hg : w.handle h = some g) : ∀ b, g.block_ = some b → b < w.heap.length := by
  intro b hb
  exact hi.range_h (some g) (List.getElem?_mem (handle_eq_some.mp hg)) b hb

theorem Inv.ctor_like {w : World} (hi : Inv w) :
    Inv { w with hs := w.hs ++ [some { block_ := none }] } := by
  refine Inv.of_handle_op hi ?_ ?_ ?_ ?_
  · rfl
  · exact HeapFrame.same _
  · refine hi.counts.congr (fun c _ => ?_)
    rw [owners_hs_append]
    simp [hslot]
  · exact range_append hi none (by simp)

theorem Inv.keep_ctor_copy {w w1 : World} {r : Nat} (hi : Inv w)
    (h : step w (.ctor_copy r) = some w1) : Inv w1 := by
  obtain ⟨g, hp1, hg, ha, e⟩ := guard.step_ctor_copy h
  subst e
  refine Inv.of_handle_op hi ?_ ?_ ?_ ?_
  · rfl
  · exact acq_frame ha
  · refine (acq_counts hi.counts ha).congr (fun c _ => ?_)
    rw [owners_hs_append]
    simp only [hslot]
  · exact range_append hi _ (range_of_handle hi hg)

theorem Inv.keep_ctor_move {w w1 : World} {r : Nat} (hi : Inv w)
    (h : step w (.ctor_move r) = some w1) : Inv w1 := by
  obtain ⟨g, hg, e⟩ := guard.step_ctor_move h
  subst e
  refine Inv.of_handle_op hi ?_ ?_ ?_ ?_
  · rfl
  · exact HeapFrame.same _
  · refine hi.counts.congr (fun c _ => ?_)
    have e1 := owners_hs_append w.heap
      { w with hs := w.hs.set r (some { block_ := none }) } (some { block_ := g.block_ }) c
    have e2 := owners_hs_set w.heap w r (some g) (some { block_ := none }) c
      (handle_eq_some.mp hg)
    simp only [hslot] at e1 e2
    rw [e1]
    simp at e2
    omega
  · intro s hs b hb
    rw [List.mem_append] at hs
    rcases hs with hs | hs
    · exact range_set w.hs r _ hi.range_h (by simp [hslot]) s hs b hb
    · simp at hs; subst hs; exact range_of_handle hi hg b hb

theorem Inv.keep_assign {w w1 : World} {l r : Nat} (hi : Inv w)
    (h : step w (.assign l r) = some w1) : Inv w1 := by
  obtain ⟨a, g, ha, hg, h1 | ⟨hne, hp1, hp2, h1, h2, e⟩⟩ := guard.step_assign h
  · rw [h1.2]; exact hi
  · subst e
    refine Inv.of_handle_op hi ?_ ?_ ?_ ?_
    · rfl
    · exact (acq_frame h1).trans (rel_frame h2)
    · refine (rel_counts (acq_counts hi.counts h1) h2).congr (fun c _ => ?_)
      have e2 := owners_hs_set hp2 w l (some a) (some { block_ := g.block_ }) c
        (handle_eq_some.mp ha)
      simp only [hslot] at e2
      omega
    · exact range_set w.hs l _ hi.range_h (range_of_handle hi hg)

theorem Inv.keep_assign_move {w w1 : World} {l r : Nat} (hi : Inv w)
    (h : step w (.assign_move l r) = some w1) : Inv w1 := by
  obtain ⟨a, g, ha, hg, h1 | ⟨hne, hp1, h1, e⟩⟩ := guard.step_assign_move h
  · rw [h1.2]; exact hi
  · subst e
    have hlr : r ≠ l := by
      intro e
      subst e
      rw [ha] at hg
      simp at hg
      subst hg
      exact hne rfl
    refine Inv.of_handle_op hi ?_ ?_ ?_ ?_
    · rfl
    · exact rel_frame h1
    · refine (rel_counts hi.counts h1).congr (fun c _ => ?_)
      have e1 := owners_hs_set hp1 w r (some g) (some { block_ := none }) c
        (handle_eq_some.mp hg)
      have e2 := owners_hs_set hp1 { w with heap := hp1, hs := w.hs.set r (some { block_ := none }) }
        l (some a) (some { block_ := g.block_ }) c
        (by simp [List.getElem?_set_ne hlr]; exact handle_eq_some.mp ha)
      simp only [hslot] at e1 e2
      simp at e1
      have e3 : owners { heap := hp1, objs := w.objs, hs := w.hs.set r (some { block_ := none }) } c
          = owners { heap := hp1, objs := w.objs, hs := w.hs.set r (some { block_ := none }) } c := rfl
      omega
    · exact range_set _ l _ (range_set w.hs r _ hi.range_h (by simp [hslot]))
        (range_of_handle hi hg)

theorem Inv.keep_swap {w w1 : World} {l r : Nat} (hi : Inv w)
    (h : step w (.swap l r) = some w1) : Inv w1 := by
  obtain ⟨a, g, ha, hg, e⟩ := guard.step_swap h
  subst e
  refine Inv.of_handle_op hi ?_ ?_ ?_ ?_
  · rfl
  · exact HeapFrame.same _
  · refine hi.counts.congr (fun c _ => ?_)
    have hr := handle_lt hg
    have e1 := owners_hs_set w.heap w r (some g) (some { block_ := a.block_ }) c
      (handle_eq_some.mp hg)
    by_cases hlr : r = l
    · subst hlr
      rw [ha] at hg
      simp at hg
      subst hg
      have e2 := owners_hs_set w.heap { w with hs := w.hs.set r (some { block_ := a.block_ }) }
        r (some { block_ := a.block_ }) (some { block_ := a.block_ }) c
        (by simp [List.getElem?_set_self hr])
      simp only [hslot] at e1 e2
      omega
    · have e2 := owners_hs_set w.heap { w with hs := w.hs.set r (some { block_ := a.block_ }) }
        l (some a) (some { block_ := g.block_ }) c
        (by simp [List.getElem?_set_ne hlr]; exact handle_eq_some.mp ha)
      simp only [hslot] at e1 e2
      omega
  · exact range_set _ l _ (range_set w.hs r _ hi.range_h (range_of_handle hi ha))
      (range_of_handle hi hg)

theorem Inv.keep_clear {w w1 : World} {h : Nat} (hi : Inv w)
    (hs : step w (.clear h) = some w1) : Inv w1 := by
  obtain ⟨g, hp1, hg, h1, e⟩ := guard.step_clear hs
  subst e
  refine Inv.of_handle_op hi ?_ ?_ ?_ ?_
  · rfl
  · exact rel_frame h1
  · refine (rel_counts hi.counts h1).congr (fun c _ => ?_)
    have e1 := owners_hs_set hp1 w h (some g) (some { block_ := none }) c
      (handle_eq_some.mp hg)
    simp only [hslot] at e1
    simp at e1
    omega
  · exact range_set w.hs h _ hi.range_h (by simp [hslot])

theorem Inv.keep_dtor {w w1 : World} {h : Nat} (hi : Inv w)
    (hs : step w (.dtor h) = some w1) : Inv w1 := by
  obtain ⟨g, hp1, hg, h1, e⟩ := guard.step_dtor hs
  subst e
  refine Inv.of_handle_op hi ?_ ?_ ?_ ?_
  · rfl
  · exact rel_frame h1
  · refine (rel_counts hi.counts h1).congr (fun c _ => ?_)
    have e1 := owners_hs_set hp1 w h (some g) none c (handle_eq_some.mp hg)
    simp only [hslot] at e1
    simp at e1
    omega
  · exact range_set w.hs h _ hi.range_h (by simp [hslot])

theorem obj_mk (hp : Heap) (os : List Pointee) (l : List (Option guard_ptr)) (p : Nat)
    (o : Pointee) :
    (World.mk hp os l).obj p = some o ↔ os[p]? = some o ∧ o.destroyed = false :=
  obj_eq_some

theorem slot_alive {o : Pointee} (h : o.destroyed = false) : o.slot = o.base.block_ := by
  simp [Pointee.slot, h]

theorem Inv.keep_new_obj {w w1 : World} (hi : Inv w)
    (h : step w .new_obj = some w1) : Inv w1 := by
  have e := guard.step_new_obj h
  subst e
  refine ⟨?_, hi.range_h, ?_, ?_, ?_⟩
  · refine hi.counts.congr (fun c _ => ?_)
    rw [owners_objs_append]
    simp [Pointee.slot]
  · intro o ho b hb
    rw [List.mem_append] at ho
    rcases ho with ho | ho
    · exact hi.range_o o ho b hb
    · simp at ho; subst ho; simp at hb
  · intro b blk p h1 h2
    obtain ⟨o, ho, hb⟩ := hi.ptr_alive b blk p h1 h2
    refine ⟨o, ?_, hb⟩
    obtain ⟨h3, h4⟩ := obj_eq_some.mp ho
    rw [obj_mk]
    refine ⟨?_, h4⟩
    rw [List.getElem?_append_left (List.getElem?_eq_some_iff.mp h3).1]
    exact h3
  · intro p o b blk h1 h2 h3
    rw [obj_mk] at h1
    obtain ⟨h4, h5⟩ := h1
    by_cases hlt : p < w.objs.length
    · rw [List.getElem?_append_left hlt] at h4
      exact hi.alive_ptr p o b blk (obj_eq_some.mpr ⟨h4, h5⟩) h2 h3
    · rw [List.getElem?_append_right (by omega)] at h4
      have : o = { base := { block_ := none }, destroyed := false } := by
        cases hk : p - w.objs.length with
        | zero => simp [hk] at h4; exact h4.symm
        | succ k => simp [hk] at h4
      subst this
      simp at h2

theorem owners_zero_of_ge {w : World} (hi : Inv w) {c : Nat} (hc : w.heap.length ≤ c) :
    owners w c = 0 := by
  unfold owners anchorSlots handleSlots
  rw [count_zero_of_forall, count_zero_of_forall]
  · intro i u hu
    by_contra h
    simp at h
    have := hi.range_h u (List.getElem?_mem hu) c h
    omega
  · intro i u hu
    by_contra h
    simp at h
    have h2 : u.base.block_ = some c := by
      unfold Pointee.slot at h
      by_cases hd : u.destroyed = true
      · simp [hd] at h
      · simpa [hd] using h
    have := hi.range_o u (List.getElem?_mem hu) c h2
    omega

theorem Inv.keep_ctor_ptr {w w1 : World} {p : Nat} (hi : Inv w)
    (h : step w (.ctor_ptr (some p)) = some w1) : Inv w1 := by
  obtain ⟨o, ho, ⟨hb, e⟩ | ⟨b, hp1, hb, ha, e⟩⟩ := guard.step_ctor_ptr h
  · subst e
    obtain ⟨ho1, ho2⟩ := obj_eq_some.mp ho
    have hp : p < w.objs.length := (List.getElem?_eq_some_iff.mp ho1).1
    refine ⟨?_, ?_, ?_, ?_, ?_⟩
    · refine (hi.counts.after_create (some p) 2 (owners_zero_of_ge hi (Nat.le_refl _))).congr
        (fun c _ => ?_)
      have e1 := owners_hs_append (w.heap ++ [guard_block.create (some p) 2])
        (World.mk w.heap (w.objs.set p ⟨⟨some w.heap.length⟩, false⟩) w.hs)
        (some { block_ := some w.heap.length }) c
      have e2 := owners_objs_set w.heap w p o
        { base := { block_ := some w.heap.length }, destroyed := false } c ho1
      simp only [hslot, slot_alive ho2, hb] at e1 e2
      simp [Pointee.slot] at e2
      by_cases hc : c = w.heap.length
      · subst hc
        simp at e1 e2 ⊢
        omega
      · have hc2 : ¬ w.heap.length = c := fun e => hc e.symm
        simp [hc, hc2] at e1 e2 ⊢
        omega
    · intro s hs b hb2
      simp only [List.length_append, List.length_singleton]
      rw [List.mem_append] at hs
      rcases hs with hs | hs
      · have := hi.range_h s hs b hb2
        omega
      · simp at hs; subst hs; simp [hslot] at hb2; omega
    · intro o2 ho2 b hb2
      simp only [List.length_append, List.length_singleton]
      rcases List.mem_or_eq_of_mem_set ho2 with h1 | h1
      · have := hi.range_o o2 h1 b hb2
        omega
      · subst h1; simp at hb2; omega
    · intro b blk q h1 h2
      by_cases hlt : b < w.heap.length
      · rw [List.getElem?_append_left hlt] at h1
        obtain ⟨o2, h3, h4⟩ := hi.ptr_alive b blk q h1 h2
        have hqp : p ≠ q := by
          intro e
          subst e
          rw [ho] at h3
          simp at h3
          subst h3
          rw [hb] at h4
          simp at h4
        refine ⟨o2, ?_, h4⟩
        obtain ⟨h5, h6⟩ := obj_eq_some.mp h3
        rw [obj_mk]
        refine ⟨?_, h6⟩
        rw [List.getElem?_set_ne hqp]
        exact h5
      · rw [List.getElem?_append_right (by omega)] at h1
        have hbe : b = w.heap.length ∧ blk = guard_block.create (some p) 2 := by
          cases hk : b - w.heap.length with
          | zero => simp [hk] at h1; exact ⟨by omega, h1.symm⟩
          | succ k => simp [hk] at h1
        obtain ⟨hb1, hb2⟩ := hbe
        subst hb2
        simp [guard_block.create] at h2
        subst h2
        refine ⟨{ base := { block_ := some w.heap.length }, destroyed := false }, ?_, ?_⟩
        · rw [obj_mk]
          exact ⟨List.getElem?_set_self hp, rfl⟩
        · simp [hb1]
    · intro q o2 b blk h1 h2 h3
      rw [obj_mk] at h1
      obtain ⟨h4, h5⟩ := h1
      by_cases hqp : p = q
      · subst hqp
        rw [List.getElem?_set_self hp] at h4
        simp at h4
        subst h4
        simp at h2
        subst h2
        rw [List.getElem?_append_right (Nat.le_refl _)] at h3
        simp at h3
        subst h3
        rfl
      · rw [List.getElem?_set_ne hqp] at h4
        have hlt := hi.range_o o2 (List.getElem?_mem h4) b h2
        rw [List.getElem?_append_left hlt] at h3
        exact hi.alive_ptr q o2 b blk (obj_eq_some.mpr ⟨h4, h5⟩) h2 h3
  · subst e
    obtain ⟨ho1, ho2⟩ := obj_eq_some.mp ho
    refine Inv.of_handle_op hi ?_ ?_ ?_ ?_
    · rfl
    · exact acq_frame ha
    · refine (acq_counts hi.counts ha).congr (fun c _ => ?_)
      rw [owners_hs_append]
      simp only [hslot]
    · exact range_append hi _ (fun b2 hb2 => by
        simp at hb2
        subst hb2
        exact hi.range_o o (List.getElem?_mem ho1) b hb)

theorem Inv.keep_delete_obj {w w1 : World} {p : Nat} (hi : Inv w)
    (h : step w (.delete_obj p) = some w1) : Inv w1 := by
  obtain ⟨o, ho, ⟨hb, e⟩ | ⟨b, blk, hb, hblk, hdel, e⟩⟩ := guard.step_delete_obj h
  · subst e
    obtain ⟨ho1, ho2⟩ := obj_eq_some.mp ho
    refine ⟨?_, hi.range_h, ?_, ?_, ?_⟩
    · refine hi.counts.congr (fun c _ => ?_)
      have e2 := owners_objs_set w.heap w p o { base := o.base, destroyed := true } c ho1
      simp [Pointee.slot, ho2, hb] at e2
      exact e2
    · intro o2 ho3 b hb2
      rcases List.mem_or_eq_of_mem_set ho3 with h1 | h1
      · exact hi.range_o o2 h1 b hb2
      · subst h1; simp [hb] at hb2
    · intro b blk q h1 h2
      obtain ⟨o2, h3, h4⟩ := hi.ptr_alive b blk q h1 h2
      have hqp : p ≠ q := by
        intro e
        subst e
        rw [ho] at h3
        simp at h3
        subst h3
        rw [hb] at h4
        simp at h4
      refine ⟨o2, ?_, h4⟩
      obtain ⟨h5, h6⟩ := obj_eq_some.mp h3
      rw [obj_mk]
      refine ⟨?_, h6⟩
      rw [List.getElem?_set_ne hqp]
      exact h5
    · intro q o2 b blk h1 h2 h3
      rw [obj_mk] at h1
      obtain ⟨h4, h5⟩ := h1
      have hp : p < w.objs.length := (List.getElem?_eq_some_iff.mp ho1).1
      by_cases hqp : p = q
      · subst hqp
        rw [List.getElem?_set_self hp] at h4
        simp at h4
        subst h4
        simp at h5
      · rw [List.getElem?_set_ne hqp] at h4
        exact hi.alive_ptr q o2 b blk (obj_eq_some.mpr ⟨h4, h5⟩) h2 h3
  · subst e
    obtain ⟨ho1, ho2⟩ := obj_eq_some.mp ho
    have hp : p < w.objs.length := (List.getElem?_eq_some_iff.mp ho1).1
    have hbl : b < w.heap.length := (List.getElem?_eq_some_iff.mp hblk).1
    have hptr := hi.alive_ptr p o b blk ho hb hblk
    refine ⟨?_, ?_, ?_, ?_, ?_⟩
    · have c1 := hi.counts.store_ptr none hblk
      have c2 := @CountsOK.after_release _ _ b { blk with ptr_ := none } c1
        (by simp [List.getElem?_set_self hbl]) hdel
      rw [List.set_set] at c2
      refine c2.congr (fun c _ => ?_)
      have e2 := owners_objs_set
        (w.heap.set b { ptr_ := none, ref_ := (blk.ref_ + UINT_MOD - 1) % UINT_MOD,
                        deleted := decide (blk.ref_ = 1) })
        w p o { base := if blk.ref_ = 1 then { block_ := none } else o.base, destroyed := true }
        c ho1
      simp only [slot_alive ho2, hb] at e2
      simp [Pointee.slot] at e2
      by_cases hc : c = b
      · subst hc
        simp at e2 ⊢
        omega
      · have hc2 : ¬ b = c := fun e => hc e.symm
        simp [hc, hc2] at e2 ⊢
        omega
    · intro s hs c hc
      simp only [List.length_set]
      exact hi.range_h s hs c hc
    · intro o2 ho3 c hc
      simp only [List.length_set]
      rcases List.mem_or_eq_of_mem_set ho3 with h1 | h1
      · exact hi.range_o o2 h1 c hc
      · subst h1
        by_cases h1 : blk.ref_ = 1
        · simp [h1] at hc
        · simp [h1, hb] at hc
          omega
    · intro c blk2 q h1 h2
      simp only at h1
      rw [List.getElem?_set] at h1
      by_cases hcb : b = c
      · subst hcb
        simp [hbl] at h1
        subst h1
        simp at h2
      · simp [hcb] at h1
        obtain ⟨o2, h3, h4⟩ := hi.ptr_alive c blk2 q h1 h2
        have hqp : p ≠ q := by
          intro e
          subst e
          rw [ho] at h3
          simp at h3
          subst h3
          rw [hb] at h4
          simp at h4
          exact hcb h4
        refine ⟨o2, ?_, h4⟩
        obtain ⟨h5, h6⟩ := obj_eq_some.mp h3
        rw [obj_mk]
        refine ⟨?_, h6⟩
        rw [List.getElem?_set_ne hqp]
        exact h5
    · intro q o2 c blk2 h1 h2 h3
      rw [obj_mk] at h1
      obtain ⟨h4, h5⟩ := h1
      by_cases hqp : p = q
      · subst hqp
        rw [List.getElem?_set_self hp] at h4
        simp at h4
        subst h4
        simp at h5
      · rw [List.getElem?_set_ne hqp] at h4
        have hq := obj_eq_some.mpr ⟨h4, h5⟩
        simp only at h3
        rw [List.getElem?_set] at h3
        by_cases hcb : b = c
        · subst hcb
          have := hi.alive_ptr q o2 b blk hq h2 hblk
          rw [hptr] at this
          simp at this
          exact absurd this hqp
        · simp [hcb] at h3
          exact hi.alive_ptr q o2 c blk2 hq h2 h3

theorem Inv.at_start : Inv World.init := by
  refine ⟨?_, ?_, ?_, ?_, ?_⟩ <;> simp [World.init, CountsOK, World.obj]

theorem Inv.after_step {w w1 : World} (op : Op) (hi : Inv w) (h : step w op = some w1) : Inv w1 := by
  cases op with
  | new_obj => exact hi.keep_new_obj h
  | delete_obj p => exact hi.keep_delete_obj h
  | ctor => rw [guard.step_ctor h]; exact hi.ctor_like
  | ctor_ptr ptr =>
    cases ptr with
    | none => rw [guard.step_ctor_null h]; exact hi.ctor_like
    | some p => exact hi.keep_ctor_ptr h
  | ctor_copy r => exact hi.keep_ctor_copy h
  | ctor_move r => exact hi.keep_ctor_move h
  | assign l r => exact hi.keep_assign h
  | assign_move l r => exact hi.keep_assign_move h
  | swap l r => exact hi.keep_swap h
  | clear x => exact hi.keep_clear h
  | dtor x => exact hi.keep_dtor h

theorem Inv.of_reachable {w : World} (h : Reachable w) : Inv w := by
  induction h with
  | init => exact Inv.at_start
  | step op _ hs ih => exact ih.after_step op hs

/-! ## Consequences of the invariant -/

theorem anchorSlots_of_alive {w : World} (hi : Inv w) {p : Nat} {o : Pointee} {b : Nat}
    (ho : w.obj p = some o) (hb : o.base.block_ = some b) : anchorSlots w b = 1 := by
  obtain ⟨ho1, ho2⟩ := obj_eq_some.mp ho
  have hlt := hi.range_o o (List.getElem?_mem ho1) b hb
  obtain ⟨blk, hblk⟩ : ∃ blk, w.heap[b]? = some blk :=
    ⟨w.heap[b], List.getElem?_eq_getElem hlt⟩
  have h1 : 1 ≤ anchorSlots w b :=
    count_pos_of_get _ w.objs p o ho1 (by simp [slot_alive ho2, hb])
  have h2 : anchorSlots w b ≤ 1 := by
    apply count_le_one_of_unique
    intro i j u v hu hv hsu hsv
    simp at hsu hsv
    have hud : u.destroyed = false := by
      unfold Pointee.slot at hsu
      by_cases hd : u.destroyed = true
      · simp [hd] at hsu
      · simpa using hd
    have hvd : v.destroyed = false := by
      unfold Pointee.slot at hsv
      by_cases hd : v.destroyed = true
      · simp [hd] at hsv
      · simpa using hd
    rw [slot_alive hud] at hsu
    rw [slot_alive hvd] at hsv
    have e1 := hi.alive_ptr i u b blk (obj_eq_some.mpr ⟨hu, hud⟩) hsu hblk
    have e2 := hi.alive_ptr j v b blk (obj_eq_some.mpr ⟨hv, hvd⟩) hsv hblk
    rw [e1] at e2
    simpa using e2
  omega

theorem anchorSlots_of_none {w : World} {b : Nat}
    (h : ∀ p o, w.obj p = some o → o.base.block_ ≠ some b) : anchorSlots w b = 0 := by
  apply count_zero_of_forall
  intro i u hu
  by_contra hs
  simp at hs
  have hud : u.destroyed = false := by
    unfold Pointee.slot at hs
    by_cases hd : u.destroyed = true
    · simp [hd] at hs
    · simpa using hd
  rw [slot_alive hud] at hs
  exact h i u (obj_eq_some.mpr ⟨hu, hud⟩) hs

theorem handleSlots_pos {w : World} {h : Nat} {g : guard_ptr} {b : Nat}
    (hg : w.handle h = some g) (hb : g.block_ = some b) : 1 ≤ handleSlots w b :=
  count_pos_of_get _ w.hs h (some g) (handle_eq_some.mp hg) (by simp [hslot, hb])

theorem anchorSlots_pos {w : World} {p : Nat} {o : Pointee} {b : Nat}
    (ho : w.obj p = some o) (hb : o.base.block_ = some b) : 1 ≤ anchorSlots w b := by
  obtain ⟨ho1, ho2⟩ := obj_eq_some.mp ho
  exact count_pos_of_get _ w.objs p o ho1 (by simp [slot_alive ho2, hb])

/-- A block that has an owner and fewer than 2^32 owners is allocated and not deleted,
and its count is the number of its owners. -/
theorem Inv.live_of_owner {w : World} (hi : Inv w) {b : Nat} (hlt : b < w.heap.length)
    (h1 : 1 ≤ owners w b) (h2 : owners w b < UINT_MOD) :
    ∃ blk, w.heap.live b = some blk ∧ blk.ref_ = owners w b := by
  have hblk : w.heap[b]? = some w.heap[b] := List.getElem?_eq_getElem hlt
  have hok := hi.counts b _ hblk
  unfold BlockOK at hok
  have hd : (w.heap[b]).deleted = false := by
    by_contra hd
    have hd2 : (w.heap[b]).deleted = true := by simpa using hd
    have := hok.2.2 hd2
    rw [Nat.mod_eq_of_lt h2] at this
    omega
  refine ⟨_, live_eq_some.mpr ⟨hblk, hd⟩, ?_⟩
  rw [(hok.2.1 hd).1, Nat.mod_eq_of_lt h2]

theorem Inv.live_of_handle {w : World} (hi : Inv w) {h : Nat} {g : guard_ptr} {b : Nat}
    (hg : w.handle h = some g) (hb : g.block_ = some b) (h2 : owners w b < UINT_MOD) :
    ∃ blk, w.heap.live b = some blk ∧ blk.ref_ = owners w b := by
  apply hi.live_of_owner (range_of_handle hi hg b hb) _ h2
  have := handleSlots_pos hg hb
  unfold owners
  omega

theorem Inv.live_of_obj {w : World} (hi : Inv w) {p : Nat} {o : Pointee} {b : Nat}
    (ho : w.obj p = some o) (hb : o.base.block_ = some b) (h2 : owners w b < UINT_MOD) :
    ∃ blk, w.heap.live b = some blk ∧ blk.ref_ = owners w b := by
  apply hi.live_of_owner (hi.range_o o (List.getElem?_mem (obj_eq_some.mp ho).1) b hb) _ h2
  have := anchorSlots_pos ho hb
  unfold owners
  omega

/-! ## Operations succeed when the blocks they touch are live -/

theorem acq_some_of_live {hp : Heap} {x : Option Nat}
    (h : ∀ b, x = some b → ∃ blk, hp.live b = some blk) : ∃ hp1, acq hp x = some hp1 := by
  cases x with
  | none => exact ⟨hp, rfl⟩
  | some b =>
    obtain ⟨blk, hb⟩ := h b rfl
    obtain ⟨h1, h2⟩ := live_eq_some.mp hb
    exact ⟨_, acquire_eq_some.mpr ⟨blk, h1, h2, rfl⟩⟩

theorem rel_some_of_live {hp : Heap} {x : Option Nat}
    (h : ∀ b, x = some b → ∃ blk, hp.live b = some blk) : ∃ hp1, rel hp x = some hp1 := by
  cases x with
  | none => exact ⟨hp, rfl⟩
  | some b =>
    obtain ⟨blk, hb⟩ := h b rfl
    obtain ⟨h1, h2⟩ := live_eq_some.mp hb
    exact ⟨_, rel_eq_some.mpr ⟨blk, h1, h2, rfl⟩⟩

theorem acq_live_other {hp hp1 : Heap} {x : Option Nat} (h : acq hp x = some hp1)
    {c : Nat} {blk : guard_block} (hc : hp.live c = some blk) :
    ∃ blk1, hp1.live c = some blk1 := by
  cases x with
  | none => simp [acq] at h; subst h; exact ⟨blk, hc⟩
  | some b =>
    obtain ⟨blk2, h1, h2, h3⟩ := acquire_eq_some.mp h
    subst h3
    obtain ⟨h4, h5⟩ := live_eq_some.mp hc
    by_cases hbc : b = c
    · subst hbc
      refine ⟨_, live_eq_some.mpr ⟨List.getElem?_set_self (List.getElem?_eq_some_iff.mp h1).1, ?_⟩⟩
      exact h2
    · exact ⟨blk, live_eq_some.mpr ⟨by rw [List.getElem?_set_ne hbc]; exact h4, h5⟩⟩

theorem BlockStep.unchanged (blk : guard_block) : BlockStep blk blk :=
  ⟨Or.inl rfl, fun _ => rfl, fun h1 h2 => by rw [h1] at h2; simp at h2⟩

theorem acq_block {hp hp1 : Heap} {x : Option Nat} (h : acq hp x = some hp1) {c : Nat}
    {blk : guard_block} (hc : hp[c]? = some blk) :
    ∃ blk1, hp1[c]? = some blk1 ∧ blk1.ptr_ = blk.ptr_ ∧ blk1.deleted = blk.deleted ∧
      (x ≠ some c → blk1 = blk) ∧ (blk.deleted = true → blk1 = blk) := by
  cases x with
  | none => simp [acq] at h; subst h; exact ⟨blk, hc, rfl, rfl, fun _ => rfl, fun _ => rfl⟩
  | some b =>
    obtain ⟨blk2, h1, h2, h3⟩ := acquire_eq_some.mp h
    subst h3
    by_cases hbc : b = c
    · subst hbc
      rw [hc] at h1
      simp at h1
      subst h1
      refine ⟨_, List.getElem?_set_self (List.getElem?_eq_some_iff.mp hc).1, rfl, rfl, ?_, ?_⟩
      · intro hne; simp at hne
      · intro hd; rw [h2] at hd; simp at hd
    · refine ⟨blk, by rw [List.getElem?_set_ne hbc]; exact hc, rfl, rfl, fun _ => rfl,
        fun _ => rfl⟩

theorem rel_block {hp hp1 : Heap} {x : Option Nat} (h : rel hp x = some hp1) {c : Nat}
    {blk : guard_block} (hc : hp[c]? = some blk) :
    ∃ blk1, hp1[c]? = some blk1 ∧ blk1.ptr_ = blk.ptr_ ∧
      (x ≠ some c → blk1 = blk) ∧ BlockStep blk blk1 := by
  cases x with
  | none =>
    simp [rel] at h; subst h
    exact ⟨blk, hc, rfl, fun _ => rfl, BlockStep.unchanged _⟩
  | some b =>
    obtain ⟨blk2, h1, h2, h3⟩ := rel_eq_some.mp h
    subst h3
    by_cases hbc : b = c
    · subst hbc
      rw [hc] at h1
      simp at h1
      subst h1
      refine ⟨_, List.getElem?_set_self (List.getElem?_eq_some_iff.mp hc).1, rfl, ?_, ?_⟩
      · intro hne; simp at hne
      · refine ⟨Or.inl rfl, ?_, ?_⟩
        · intro hd; rw [h2] at hd; simp at hd
        · intro _ hd
          simp at hd
          simp [hd, UINT_MOD]
    · exact ⟨blk, by rw [List.getElem?_set_ne hbc]; exact hc, rfl, fun _ => rfl,
        BlockStep.unchanged _⟩

theorem BlockStep.of_acq {blk blk1 : guard_block} (h1 : blk1.ptr_ = blk.ptr_)
    (h2 : blk1.deleted = blk.deleted) (h3 : blk.deleted = true → blk1 = blk) :
    BlockStep blk blk1 :=
  ⟨Or.inl h1, h3, fun h4 h5 => by rw [h2, h4] at h5; simp at h5⟩

/-- Every operation changes every allocated block by a `BlockStep`. -/
theorem step_heap {w w1 : World} {op : Op} (h : step w op = some w1) {c : Nat}
    {blk : guard_block} (hc : w.heap[c]? = some blk) :
    ∃ blk1, w1.heap[c]? = some blk1 ∧ BlockStep blk blk1 := by
  cases op with
  | new_obj => rw [step_new_obj h]; exact ⟨blk, hc, BlockStep.unchanged _⟩
  | ctor => rw [step_ctor h]; exact ⟨blk, hc, BlockStep.unchanged _⟩
  | delete_obj p =>
    obtain ⟨o, ho, ⟨hb, e⟩ | ⟨b, blk2, hb, hblk, hdel, e⟩⟩ := step_delete_obj h
    · subst e; exact ⟨blk, hc, BlockStep.unchanged _⟩
    · subst e
      by_cases hbc : b = c
      · subst hbc
        rw [hc] at hblk
        simp at hblk
        subst hblk
        refine ⟨_, List.getElem?_set_self (List.getElem?_eq_some_iff.mp hc).1, Or.inr rfl, ?_, ?_⟩
        · intro hd; rw [hdel] at hd; simp at hd
        · intro _ hd
          simp at hd
          simp [hd, UINT_MOD]
      · exact ⟨blk, by simp only; rw [List.getElem?_set_ne hbc]; exact hc, BlockStep.unchanged _⟩
  | ctor_ptr ptr =>
    cases ptr with
    | none => rw [step_ctor_null h]; exact ⟨blk, hc, BlockStep.unchanged _⟩
    | some p =>
      obtain ⟨o, ho, ⟨hb, e⟩ | ⟨b, hp1, hb, ha, e⟩⟩ := step_ctor_ptr h
      · subst e
        refine ⟨blk, ?_, BlockStep.unchanged _⟩
        simp only
        rw [List.getElem?_append_left (List.getElem?_eq_some_iff.mp hc).1]
        exact hc
      · subst e
        obtain ⟨blk1, h1, h2, h3, _, h5⟩ := acq_block ha hc
        exact ⟨blk1, h1, BlockStep.of_acq h2 h3 h5⟩
  | ctor_copy r =>
    obtain ⟨g, hp1, hg, ha, e⟩ := step_ctor_copy h
    subst e
    obtain ⟨blk1, h1, h2, h3, _, h5⟩ := acq_block ha hc
    exact ⟨blk1, h1, BlockStep.of_acq h2 h3 h5⟩
  | ctor_move r =>
    obtain ⟨g, hg, e⟩ := step_ctor_move h
    subst e
    exact ⟨blk, hc, BlockStep.unchanged _⟩
  | swap l r =>
    obtain ⟨a, g, ha, hg, e⟩ := step_swap h
    subst e
    exact ⟨blk, hc, BlockStep.unchanged _⟩
  | clear x =>
    obtain ⟨g, hp1, hg, h1, e⟩ := step_clear h
    subst e
    obtain ⟨blk1, h2, _, _, h5⟩ := rel_block h1 hc
    exact ⟨blk1, h2, h5⟩
  | dtor x =>
    obtain ⟨g, hp1, hg, h1, e⟩ := step_dtor h
    subst e
    obtain ⟨blk1, h2, _, _, h5⟩ := rel_block h1 hc
    exact ⟨blk1, h2, h5⟩
  | assign l r =>
    obtain ⟨a, g, ha, hg, h1 | ⟨hne, hp1, hp2, h1, h2, e⟩⟩ := step_assign h
    · rw [h1.2]; exact ⟨blk, hc, BlockStep.unchanged _⟩
    · subst e
      obtain ⟨blk1, e1, e2, e3, e4, e5⟩ := acq_block h1 hc
      obtain ⟨blk2, f1, f2, f3, f4⟩ := rel_block h2 e1
      refine ⟨blk2, f1, ?_⟩
      by_cases hy : a.block_ = some c
      · have hx : g.block_ ≠ some c := fun e => hne (e.trans hy.symm)
        rw [e4 hx] at f4
        exact f4
      · rw [f3 hy]
        exact BlockStep.of_acq e2 e3 e5
  | assign_move l r =>
    obtain ⟨a, g, ha, hg, h1 | ⟨hne, hp1, h1, e⟩⟩ := step_assign_move h
    · rw [h1.2]; exact ⟨blk, hc, BlockStep.unchanged _⟩
    · subst e
      obtain ⟨blk1, h2, _, _, h5⟩ := rel_block h1 hc
      exact ⟨blk1, h2, h5⟩

theorem run_ptr_none {ops : List Op} {w w1 : World} (h : run w ops = some w1) {c : Nat}
    {blk : guard_block} (hc : w.heap[c]? = some blk) (hn : blk.ptr_ = none) :
    ∃ blk1, w1.heap[c]? = some blk1 ∧ blk1.ptr_ = none := by
  induction ops generalizing w blk with
  | nil => simp [run] at h; subst h; exact ⟨blk, hc, hn⟩
  | cons op ops ih =>
    simp only [run] at h
    cases hs : step w op with
    | none => simp [hs] at h
    | some w2 =>
      simp only [hs] at h
      obtain ⟨blk2, h1, h2⟩ := step_heap hs hc
      refine ih h h1 ?_
      rcases h2.1 with h3 | h3
      · rw [h3]; exact hn
      · exact h3

theorem Reachable.after_run {ops : List Op} {w w1 : World} (hr : Reachable w)
    (h : run w ops = some w1) : Reachable w1 := by
  induction ops generalizing w with
  | nil => simp [guard.run] at h; subst h; exact hr
  | cons op ops ih =>
    simp only [guard.run] at h
    cases hs : guard.step w op with
    | none => simp [hs] at h
    | some w2 =>
      simp only [hs] at h
      exact ih (Reachable.step op hr hs) h

/-! ## The count modulo 2^32 -/

/-- In every reachable state, whatever the number of owners: a block that is not deleted
stores the number of its owners (living pointee and bound handles) modulo 2^32 and has at
least one owner, and a deleted block has a multiple of 2^32 owners. -/
theorem count_is_owners_mod (w : World) (hr : Reachable w) (b : Nat) (blk : guard_block)
    (hb : w.heap[b]? = some blk) :
    (blk.deleted = false → blk.ref_ = owners w b % UINT_MOD ∧ 1 ≤ owners w b) ∧
    (blk.deleted = true → owners w b % UINT_MOD = 0) :=
  ((Inv.of_reachable hr).counts b blk hb).2

theorem count_is_owners_mod_witness :
    ((guard_block.mk (some 0) 3 false).deleted = false →
      (guard_block.mk (some 0) 3 false).ref_ = owners demoW 0 % UINT_MOD ∧
        1 ≤ owners demoW 0) ∧
    ((guard_block.mk (some 0) 3 false).deleted = true → owners demoW 0 % UINT_MOD = 0) :=
  count_is_owners_mod demoW (Reachable.after_run Reachable.init
    (by decide : run World.init [.new_obj, .ctor_ptr (some 0), .ctor_copy 0] = some demoW))
    0 { ptr_ := some 0, ref_ := 3, deleted := false } rfl

/-! ## Reference counts, liveness and deletion in reachable states (C1 to C4) -/

theorem anchored_iff {w : World} {b : Nat} :
    anchored w b = true ↔ ∃ p o, w.obj p = some o ∧ o.base.block_ = some b := by
  unfold anchored
  rw [List.any_eq_true]
  constructor
  · rintro ⟨o, ho, hs⟩
    simp at hs
    obtain ⟨p, hp⟩ := List.getElem?_of_mem ho
    have hd : o.destroyed = false := by
      unfold Pointee.slot at hs
      by_cases hd : o.destroyed = true
      · simp [hd] at hs
      · simpa using hd
    rw [slot_alive hd] at hs
    exact ⟨p, o, obj_eq_some.mpr ⟨hp, hd⟩, hs⟩
  · rintro ⟨p, o, ho, hb⟩
    obtain ⟨h1, h2⟩ := obj_eq_some.mp ho
    exact ⟨o, List.getElem?_mem h1, by simp [slot_alive h2, hb]⟩

theorem anchorSlots_eq {w : World} (hi : Inv w) (b : Nat) :
    anchorSlots w b = if anchored w b then 1 else 0 := by
  by_cases h : anchored w b = true
  · obtain ⟨p, o, ho, hb⟩ := anchored_iff.mp h
    simp [h, anchorSlots_of_alive hi ho hb]
  · simp [h]
    apply anchorSlots_of_none
    intro p o ho hb
    exact h (anchored_iff.mpr ⟨p, o, ho, hb⟩)

theorem reachable_of_run (ops : List Op) {w : World} (h : run World.init ops = some w) :
    Reachable w := Reachable.after_run Reachable.init h

/-- C1, amended: in every reachable state, for every handle bound to a block that has fewer
than 2^32 owners, `refCount()` is (1 if the pointee of the block is alive, else 0) plus the
number of existing handles bound to the block; `refCount()` of a living pointee whose base
holds the block returns the same number. -/
theorem refcount_invariant (w : World) (hr : Reachable w) (b : Nat)
    (hB : owners w b < UINT_MOD) :
    (∀ h g, w.handle h = some g → g.block_ = some b →
      guard_ptr.refCount g w.heap
        = some ((if anchored w b then 1 else 0) + handleSlots w b)) ∧
    (∀ p o, w.obj p = some o → o.base.block_ = some b →
      support_guard_ptr.refCount w.heap o.base = some (1 + handleSlots w b)) := by
  have hi := Inv.of_reachable hr
  constructor
  · intro h g hg hb
    obtain ⟨blk, h1, h2⟩ := hi.live_of_handle hg hb hB
    simp only [guard_ptr.refCount, hb, h1, h2, owners, anchorSlots_eq hi]
  · intro p o ho hb
    obtain ⟨blk, h1, h2⟩ := hi.live_of_obj ho hb hB
    simp only [support_guard_ptr.refCount, hb, h1, h2, owners, anchorSlots_of_alive hi ho hb]

theorem demoW_reachable : Reachable demoW :=
  reachable_of_run [.new_obj, .ctor_ptr (some 0), .ctor_copy 0] (by decide)

theorem refcount_invariant_witness :
    owners demoW 0 < UINT_MOD ∧
    (∀ h g, demoW.handle h = some g → g.block_ = some 0 →
      guard_ptr.refCount g demoW.heap
        = some ((if anchored demoW 0 then 1 else 0) + handleSlots demoW 0)) ∧
    (∀ p o, demoW.obj p = some o → o.base.block_ = some 0 →
      support_guard_ptr.refCount demoW.heap o.base = some (1 + handleSlots demoW 0)) :=
  ⟨by decide, refcount_invariant demoW demoW_reachable 0 (by decide)⟩

/-- C2, amended: let a living pointee `p` hold block `b` in a reachable state.  After `p` is
destroyed, and after any further operations, every existing handle bound to `b` reports
`isAlive() == false`, provided the block has fewer than 2^32 owners at that time. -/
theorem not_alive_after_delete (w : World) (hr : Reachable w) (p : Nat) (o : Pointee)
    (b : Nat) (ho : w.obj p = some o) (hb : o.base.block_ = some b)
    (ops : List Op) (w2 : World) (hrun : run w (.delete_obj p :: ops) = some w2)
    (h : Nat) (g : guard_ptr) (hg : w2.handle h = some g) (hgb : g.block_ = some b)
    (hB : owners w2 b < UINT_MOD) :
    guard_ptr.isAlive g w2.heap = some false := by
  have hr2 : Reachable w2 := hr.after_run hrun
  have hi2 := Inv.of_reachable hr2
  simp only [run] at hrun
  cases hs : step w (.delete_obj p) with
  | none => simp [hs] at hrun
  | some w1 =>
    simp only [hs] at hrun
    have hnone : ∃ blk1, w1.heap[b]? = some blk1 ∧ blk1.ptr_ = none := by
      obtain ⟨o2, ho2, ⟨hb2, e⟩ | ⟨b2, blk, hb2, hblk, hdel, e⟩⟩ := step_delete_obj hs
      · rw [ho] at ho2; simp at ho2; subst ho2
        rw [hb] at hb2; simp at hb2
      · rw [ho] at ho2; simp at ho2; subst ho2
        rw [hb] at hb2; simp at hb2; subst hb2
        subst e
        exact ⟨_, List.getElem?_set_self (List.getElem?_eq_some_iff.mp hblk).1, rfl⟩
    obtain ⟨blk1, h1, h2⟩ := hnone
    obtain ⟨blk2, h3, h4⟩ := run_ptr_none hrun h1 h2
    obtain ⟨blk3, h5, _⟩ := hi2.live_of_handle hg hgb hB
    have h6 := (live_eq_some.mp h5).1
    rw [h3] at h6
    simp at h6
    subst h6
    simp [guard_ptr.isAlive, guard_ptr.isNull, guard_block.data, hgb, h5, h4]

theorem not_alive_after_delete_witness :
    guard_ptr.isAlive { block_ := some 0 } demoWdead.heap = some false :=
  not_alive_after_delete demoW demoW_reachable 0 { base := { block_ := some 0 }, destroyed := false }
    0 (by decide) rfl [] demoWdead (by decide) 1 { block_ := some 0 } (by decide) rfl (by decide)

/-- C4, amended: in every reachable state a block without owner is deleted (no leak, whatever
the number of owners was); destroying a living pointee whose block no handle is bound to
deletes the block inside that destruction; and a deleted block that has fewer than 2^32
owners has none (it was not deleted before its last owner released it). -/
theorem no_leak (w : World) (hr : Reachable w) :
    (∀ (b : Nat) (blk : guard_block), w.heap[b]? = some blk → owners w b = 0 →
      blk.deleted = true) ∧
    (∀ p o b, w.obj p = some o → o.base.block_ = some b → handleSlots w b = 0 →
      ∃ w1 blk1, step w (.delete_obj p) = some w1 ∧ w1.heap[b]? = some blk1 ∧
        blk1.deleted = true ∧ w1.obj p = none) ∧
    (∀ (b : Nat) (blk : guard_block), w.heap[b]? = some blk → blk.deleted = true →
      owners w b < UINT_MOD →
      owners w b = 0) := by
  have hi := Inv.of_reachable hr
  refine ⟨?_, ?_, ?_⟩
  · intro b blk hb h0
    have hok := hi.counts b blk hb
    by_contra hd
    have hd2 : blk.deleted = false := by simpa using hd
    have := (hok.2.1 hd2).2
    omega
  · intro p o b ho hb h0
    have ha := anchorSlots_of_alive hi ho hb
    have hown : owners w b = 1 := by unfold owners; omega
    obtain ⟨blk, h1, h2⟩ := hi.live_of_obj ho hb (by rw [hown]; decide)
    obtain ⟨h3, h4⟩ := live_eq_some.mp h1
    have hlt : b < w.heap.length := (List.getElem?_eq_some_iff.mp h3).1
    have hp : p < w.objs.length := (List.getElem?_eq_some_iff.mp (obj_eq_some.mp ho).1).1
    have href : blk.ref_ = 1 := by rw [h2, hown]
    have hrl := (@release_eq_some (w.heap.set b { blk with ptr_ := none }) _ b _).mpr
      ⟨{ blk with ptr_ := none }, List.getElem?_set_self hlt, h4, rfl, rfl⟩
    refine ⟨{ w with heap := w.heap.set b { ptr_ := none, ref_ := 0, deleted := true }
                     objs := w.objs.set p { base := { block_ := none }, destroyed := true } },
      { ptr_ := none, ref_ := 0, deleted := true }, ?_, ?_, rfl, ?_⟩
    · simp only [step, ho, support_guard_ptr.dtor, hb, h1, hrl]
      simp [href, UINT_MOD]
    · simp [List.getElem?_set_self hlt]
    · simp [World.obj, List.getElem?_set_self hp]
  · intro b blk hb hd hB
    have hok := hi.counts b blk hb
    have := hok.2.2 hd
    rw [Nat.mod_eq_of_lt hB] at this
    exact this

theorem leakW_reachable : Reachable leakW :=
  reachable_of_run [.new_obj, .ctor_ptr (some 0), .dtor 0, .new_obj, .ctor_ptr (some 1),
    .dtor 1, .delete_obj 0] (by decide)

theorem no_leak_witness :
    (leakW.heap[0]? = some { ptr_ := none, ref_ := 0, deleted := true } ∧
      owners leakW 0 = 0 ∧ owners leakW 0 < UINT_MOD) ∧
    (leakW.obj 1 = some { base := { block_ := some 1 }, destroyed := false } ∧
      handleSlots leakW 1 = 0) ∧
    (∃ w1 blk1, step leakW (.delete_obj 1) = some w1 ∧ w1.heap[1]? = some blk1 ∧
        blk1.deleted = true ∧ w1.obj 1 = none) ∧
    (∀ (b : Nat) (blk : guard_block), leakW.heap[b]? = some blk → owners leakW b = 0 →
      blk.deleted = true) ∧
    (∀ p o b, leakW.obj p = some o → o.base.block_ = some b → handleSlots leakW b = 0 →
      ∃ w1 blk1, step leakW (.delete_obj p) = some w1 ∧ w1.heap[b]? = some blk1 ∧
        blk1.deleted = true ∧ w1.obj p = none) ∧
    (∀ (b : Nat) (blk : guard_block), leakW.heap[b]? = some blk → blk.deleted = true →
      owners leakW b < UINT_MOD →
      owners leakW b = 0) :=
  ⟨⟨rfl, by decide, by decide⟩, ⟨rfl, by decide⟩,
    (no_leak leakW leakW_reachable).2.1 1 _ 1 rfl rfl (by decide),
    no_leak leakW leakW_reachable⟩

theorem bigW_handle (n : Nat) : (bigW n).handle 0 = some { block_ := some 0 } := by
  simp [bigW, World.handle]

theorem bigW_step_copy (n : Nat) : step (bigW n) (.ctor_copy 0) = some (bigW (n + 1)) := by
  simp only [step, bigW_handle, guard_ptr.ctor_copy, guard_block.acquire]
  have hl : (bigW n).heap.live 0
      = some { ptr_ := some 0, ref_ := (n + 2) % UINT_MOD, deleted := false } := by
    simp [bigW, Heap.live]
  simp only [hl]
  have e : ((n + 2) % UINT_MOD + 1) % UINT_MOD = (n + 1 + 2) % UINT_MOD := by
    unfold UINT_MOD; omega
  simp only [bigW, e, List.set_cons_zero, ← List.replicate_succ']

theorem run_replicate (f : Nat → World) (op : Op) (hf : ∀ k, step (f k) op = some (f (k + 1)))
    (n k : Nat) : run (f k) (List.replicate n op) = some (f (k + n)) := by
  induction n generalizing k with
  | zero => rfl
  | succ n ih =>
    rw [List.replicate_succ]
    simp only [run, hf k]
    rw [ih (k + 1)]
    congr 2
    omega

theorem bigW_run (n : Nat) :
    run World.init (.new_obj :: .ctor_ptr (some 0) :: List.replicate n (.ctor_copy 0))
      = some (bigW n) := by
  have h0 : run World.init [.new_obj, .ctor_ptr (some 0)] = some (bigW 0) := by decide
  have h1 := run_replicate bigW (.ctor_copy 0) bigW_step_copy n 0
  simp only [run] at h0 ⊢
  revert h0
  cases hs : step World.init .new_obj with
  | none => simp
  | some w1 =>
    simp only
    cases hs2 : step w1 (.ctor_ptr (some 0)) with
    | none => simp
    | some w2 =>
      simp only
      intro h0
      simp at h0
      subst h0
      simpa using h1

theorem bigW_reachable (n : Nat) : Reachable (bigW n) :=
  reachable_of_run _ (bigW_run n)

theorem bigW_refCount (n : Nat) :
    guard_ptr.refCount { block_ := some 0 } (bigW n).heap = some ((n + 2) % UINT_MOD) := by
  simp [guard_ptr.refCount, bigW, Heap.live]

theorem bigW_handleSlots (n : Nat) : handleSlots (bigW n) 0 = n + 1 := by
  simp [handleSlots, bigW, List.countP_replicate, hslot]

theorem bigW_anchored (n : Nat) : anchored (bigW n) 0 = true := by
  simp [anchored, bigW, Pointee.slot]

/-- C1 as stated fails: with 4294967295 handles bound to the block of a living pointee
(reached by 4294967294 copies of the first handle) `refCount()` is 0, not 4294967296. -/
theorem refcount_invariant_counterexample :
    Reachable (bigW 4294967294) ∧
    (bigW 4294967294).handle 0 = some { block_ := some 0 } ∧
    anchored (bigW 4294967294) 0 = true ∧
    handleSlots (bigW 4294967294) 0 = 4294967295 ∧
    guard_ptr.refCount { block_ := some 0 } (bigW 4294967294).heap = some 0 :=
  ⟨bigW_reachable _, bigW_handle _, bigW_anchored _, bigW_handleSlots _, bigW_refCount _⟩

theorem bigW_live (n : Nat) : (bigW n).heap.live 0
    = some { ptr_ := some 0, ref_ := (n + 2) % UINT_MOD, deleted := false } := by
  simp [bigW, Heap.live]

theorem bigW_obj (n : Nat) :
    (bigW n).obj 0 = some { base := { block_ := some 0 }, destroyed := false } := by
  simp [bigW, World.obj]

theorem bigW_handle_one (n : Nat) (hn : 1 ≤ n) :
    (bigW n).handle 1 = some { block_ := some 0 } := by
  have : (List.replicate (n + 1) (some ({ block_ := some 0 } : guard_ptr)))[1]?
      = some (some { block_ := some 0 }) := List.getElem?_replicate_of_lt (by omega)
  simp [bigW, World.handle, this]

theorem bigW_step_delete (n : Nat) (hn : (n + 2) % UINT_MOD = 1) :
    step (bigW n) (.delete_obj 0) = some (freedW n) := by
  simp only [step, bigW_obj, support_guard_ptr.dtor, bigW_live, guard_block.release]
  have hn1 : (n + 2) % 4294967296 = 1 := hn
  have h0 : (n + 2 + 4294967295) % 4294967296 = 0 := by omega
  simp [bigW, freedW, Heap.live, hn1, h0, UINT_MOD]

theorem bigW_step_dtor (n : Nat) (hn : (n + 2) % UINT_MOD = 1) (h1 : 1 ≤ n) :
    step (bigW n) (.dtor 1) = some (danglingW n) := by
  simp only [step, bigW_handle_one n h1, guard_ptr.dtor, guard_ptr.tryToRelease,
    guard_block.release, bigW_live]
  have hn1 : (n + 2) % 4294967296 = 1 := hn
  have h0 : (n + 2 + 4294967295) % 4294967296 = 0 := by omega
  simp [bigW, danglingW, hn1, h0, UINT_MOD]

theorem bigW_step_clear (n : Nat) (hn : (n + 2) % UINT_MOD = 1) (h1 : 1 ≤ n) :
    step (bigW n) (.clear 1) = some (clearedW n) := by
  simp only [step, bigW_handle_one n h1, clear_eq, rel, guard_block.release, bigW_live]
  have hn1 : (n + 2) % 4294967296 = 1 := hn
  have h0 : (n + 2 + 4294967295) % 4294967296 = 0 := by omega
  simp [bigW, clearedW, hn1, h0, UINT_MOD]

theorem freedW_handle (n : Nat) : (freedW n).handle 0 = some { block_ := some 0 } := by
  simp [freedW, World.handle]

theorem danglingW_handle (n : Nat) : (danglingW n).handle 0 = some { block_ := some 0 } := by
  simp [danglingW, World.handle]

theorem clearedW_owners (n : Nat) (h1 : 1 ≤ n) : owners (clearedW n) 0 = n + 1 := by
  have hu : (List.replicate (n + 1) (some ({ block_ := some 0 } : guard_ptr)))[1]?
      = some (some { block_ := some 0 }) := List.getElem?_replicate_of_lt (by omega)
  have := count_set (fun s => decide (hslot s = some 0))
    (List.replicate (n + 1) (some ({ block_ := some 0 } : guard_ptr))) 1
    (some { block_ := some 0 }) (some { block_ := none }) hu
  simp [List.countP_replicate, hslot] at this
  simp [owners, anchorSlots, handleSlots, clearedW, Pointee.slot, hslot]
  omega

/-- C2 as stated fails: with 4294967296 handles bound to the block of a living pointee the
count is 1, so the destruction of the pointee deletes the block under the handles, and
`isAlive()` on a handle then reads a deleted block instead of returning `false`. -/
theorem not_alive_after_delete_counterexample :
    Reachable (bigW 4294967295) ∧
    step (bigW 4294967295) (.delete_obj 0) = some (freedW 4294967295) ∧
    (freedW 4294967295).handle 0 = some { block_ := some 0 } ∧
    guard_ptr.isAlive { block_ := some 0 } (freedW 4294967295).heap = none :=
  ⟨bigW_reachable _, bigW_step_delete _ (by decide), freedW_handle _, by decide⟩

/-- C4 as stated fails: with 4294967296 handles bound to the block of a living pointee the
count is 1, so clearing one handle deletes the block although 4294967296 owners (the
pointee and 4294967295 handles) have not released it. -/
theorem no_leak_counterexample :
    Reachable (bigW 4294967295) ∧
    step (bigW 4294967295) (.clear 1) = some (clearedW 4294967295) ∧
    (clearedW 4294967295).heap = [{ ptr_ := some 0, ref_ := 0, deleted := true }] ∧
    owners (clearedW 4294967295) 0 = 4294967296 :=
  ⟨bigW_reachable _, bigW_step_clear _ (by decide) (by decide), rfl,
    clearedW_owners _ (by decide)⟩

/-! ## Scenarios and single operations (C5 to C10) -/

theorem handle_mk (hp : Heap) (os : List Pointee) (l : List (Option guard_ptr)) (h : Nat) :
    (World.mk hp os l).handle h = (match l[h]? with | some (some g) => some g | _ => none) :=
  rfl

theorem getElem?_append_length {α : Type} (l : List α) (x : α) :
    (l ++ [x])[l.length]? = some x := by
  rw [List.getElem?_append_right (Nat.le_refl _)]
  simp

theorem set_append_length {α : Type} (l : List α) (x y : α) :
    (l ++ [x]).set l.length y = l ++ [y] := by
  rw [List.set_append_right _ _ (Nat.le_refl _)]
  simp

/-- C5 as stated fails: after `new Test`, a handle from its pointer and `clear()` on the
handle, the block is not deleted; its count is 1 and the base of the pointee still holds it. -/
theorem scenario7_counterexample :
    run World.init [.new_obj, .ctor_ptr (some 0), .clear 0]
      = some { heap := [{ ptr_ := some 0, ref_ := 1, deleted := false }]
               objs := [{ base := { block_ := some 0 }, destroyed := false }]
               hs := [some { block_ := none }] } := by
  decide

/-- C5, amended: for a living pointee `p` without block and a single handle constructed from
its pointer, `clear()` leaves the handle empty (`isAlive()` false) and the block allocated
with count 1, held by the base of the pointee; the destruction of `p` then finds the block,
sets its pointee address to null and deletes it (count 1 to 0). -/
theorem scenario7 (w : World) (p : Nat) (o : Pointee) (ho : w.obj p = some o)
    (hb : o.base.block_ = none) :
    ∃ w1 w2 w3, step w (.ctor_ptr (some p)) = some w1 ∧
      step w1 (.clear w.hs.length) = some w2 ∧
      step w2 (.delete_obj p) = some w3 ∧
      w1.handle w.hs.length = some { block_ := some w.heap.length } ∧
      w2.handle w.hs.length = some { block_ := none } ∧
      guard_ptr.isAlive { block_ := none } w2.heap = some false ∧
      w2.heap[w.heap.length]? = some { ptr_ := some p, ref_ := 1, deleted := false } ∧
      w2.obj p = some { base := { block_ := some w.heap.length }, destroyed := false } ∧
      w3.heap[w.heap.length]? = some { ptr_ := none, ref_ := 0, deleted := true } ∧
      w3.objs[p]? = some { base := { block_ := none }, destroyed := true } := by
  obtain ⟨ho1, ho2⟩ := obj_eq_some.mp ho
  have hp : p < w.objs.length := (List.getElem?_eq_some_iff.mp ho1).1
  refine ⟨{ heap := w.heap ++ [{ ptr_ := some p, ref_ := 2, deleted := false }]
            objs := w.objs.set p { base := { block_ := some w.heap.length }, destroyed := false }
            hs := w.hs ++ [some { block_ := some w.heap.length }] },
          { heap := w.heap ++ [{ ptr_ := some p, ref_ := 1, deleted := false }]
            objs := w.objs.set p { base := { block_ := some w.heap.length }, destroyed := false }
            hs := w.hs ++ [some { block_ := none }] },
          { heap := w.heap ++ [{ ptr_ := none, ref_ := 0, deleted := true }]
            objs := w.objs.set p { base := { block_ := none }, destroyed := true }
            hs := w.hs ++ [some { block_ := none }] }, ?_, ?_, ?_, ?_, ?_, ?_, ?_, ?_, ?_, ?_⟩
  · simp only [step, ho, support_guard_ptr.getAndRef, support_guard_ptr.internalGetAndRef, hb]
    simp [compare_exchange_strong, guard_block.create, ho2]
  · have e : (2 + UINT_MOD - 1) % UINT_MOD = 1 := by decide
    simp only [step, handle_mk, getElem?_append_length, clear_eq, rel, guard_block.release,
      Heap.live]
    have e1 : 1 % UINT_MOD = 1 := by decide
    simp [e, e1, set_append_length]
  · have e : (1 + UINT_MOD - 1) % UINT_MOD = 0 := by decide
    simp only [step, World.obj, List.getElem?_set_self hp, support_guard_ptr.dtor, Heap.live,
      getElem?_append_length, guard_block.release]
    simp [e, set_append_length]
  · simp [handle_mk]
  · simp [handle_mk]
  · simp [guard_ptr.isAlive, guard_ptr.isNull]
  · simp
  · simp [World.obj, List.getElem?_set_self hp]
  · simp
  · simp [List.getElem?_set_self hp]

theorem scenario7_witness :
    ∃ w1 w2 w3, step { heap := [], objs := [{ base := { block_ := none }, destroyed := false }],
                       hs := [] } (.ctor_ptr (some 0)) = some w1 ∧
      step w1 (.clear 0) = some w2 ∧
      step w2 (.delete_obj 0) = some w3 ∧
      w1.handle 0 = some { block_ := some 0 } ∧
      w2.handle 0 = some { block_ := none } ∧
      guard_ptr.isAlive { block_ := none } w2.heap = some false ∧
      w2.heap[0]? = some { ptr_ := some 0, ref_ := 1, deleted := false } ∧
      w2.obj 0 = some { base := { block_ := some 0 }, destroyed := false } ∧
      w3.heap[0]? = some { ptr_ := none, ref_ := 0, deleted := true } ∧
      w3.objs[0]? = some { base := { block_ := none }, destroyed := true } :=
  scenario7 { heap := [], objs := [{ base := { block_ := none }, destroyed := false }], hs := [] }
    0 { base := { block_ := none }, destroyed := false } rfl rfl

/-- C7: move construction from any handle `src` leaves `src` empty (`isAlive()` false,
`refCount()` 0), binds the new handle to exactly the block `src` held, with the `isAlive()`
result `src` had, and changes no block (the heap and the pointees are as before), nor any
other handle. -/
theorem move_construct (w : World) (r : Nat) (src : guard_ptr) (hsrc : w.handle r = some src) :
    ∃ w1 dst src1, step w (.ctor_move r) = some w1 ∧
      w1.handle r = some src1 ∧ w1.handle w.hs.length = some dst ∧
      src1.block_ = none ∧ guard_ptr.isAlive src1 w1.heap = some false ∧
      guard_ptr.refCount src1 w1.heap = some 0 ∧
      dst.block_ = src.block_ ∧ guard_ptr.isAlive dst w1.heap = guard_ptr.isAlive src w.heap ∧
      w1.heap = w.heap ∧ w1.objs = w.objs ∧
      (∀ h, h ≠ r → h < w.hs.length → w1.handle h = w.handle h) := by
  have hr := handle_lt hsrc
  refine ⟨{ w with hs := w.hs.set r (some (guard_ptr.ctor_move src).2)
                            ++ [some (guard_ptr.ctor_move src).1] },
    (guard_ptr.ctor_move src).1, (guard_ptr.ctor_move src).2,
    by simp only [step, hsrc], ?_, ?_, ?_, ?_, ?_, ?_, ?_, rfl, rfl, ?_⟩
  · simp [handle_mk, List.getElem?_append_left, hr]
  · simp [handle_mk, List.getElem?_append_right]
  · simp [ctor_move_eq]
  · simp [ctor_move_eq, guard_ptr.isAlive, guard_ptr.isNull]
  · simp [ctor_move_eq, guard_ptr.refCount]
  · simp [ctor_move_eq]
  · cases hb : src.block_ <;>
      simp [ctor_move_eq, hb, guard_ptr.isAlive, guard_ptr.isNull]
  · intro h hne hlt
    have hne2 : r ≠ h := fun e => hne e.symm
    simp [handle_mk, World.handle, List.getElem?_append_left, hlt, List.getElem?_set_ne hne2]

theorem move_construct_witness :
    ∃ w1 dst src1, step demoW (.ctor_move 1) = some w1 ∧
      w1.handle 1 = some src1 ∧ w1.handle demoW.hs.length = some dst ∧
      src1.block_ = none ∧ guard_ptr.isAlive src1 w1.heap = some false ∧
      guard_ptr.refCount src1 w1.heap = some 0 ∧
      dst.block_ = (guard_ptr.mk (some 0)).block_ ∧
      guard_ptr.isAlive dst w1.heap = guard_ptr.isAlive { block_ := some 0 } demoW.heap ∧
      w1.heap = demoW.heap ∧ w1.objs = demoW.objs ∧
      (∀ h, h ≠ 1 → h < demoW.hs.length → w1.handle h = demoW.handle h) :=
  move_construct demoW 1 { block_ := some 0 } rfl

theorem isAlive_congr {hp hp1 : Heap} {b : Nat} (h : hp1[b]? = hp[b]?) :
    guard_ptr.isAlive { block_ := some b } hp1 = guard_ptr.isAlive { block_ := some b } hp := by
  simp only [guard_ptr.isAlive, guard_ptr.isNull, guard_block.data, Heap.live, h]

/-- C8 as stated fails: when `dst` and `src` are two handles bound to the same block,
`dst = std::move(src)` changes nothing, so `src` is still bound and alive. -/
theorem move_assign_counterexample :
    demoW.handle 0 = some { block_ := some 0 } ∧
    demoW.handle 1 = some { block_ := some 0 } ∧
    step demoW (.assign_move 0 1) = some demoW ∧
    guard_ptr.isAlive { block_ := some 0 } demoW.heap = some true := by
  decide

/-- C8, amended: let `dst` and `src` be handles with `src` bound to block `bs`.  When `dst`
is not bound to `bs` (it is empty, or bound to another block, which is not deleted),
`dst = std::move(src)` leaves `src` empty (`isAlive()` false), `dst` bound to `bs` with the
liveness `src` had, and block `bs` unchanged.  When `dst` is bound to `bs` too, the
assignment changes nothing: `src` stays bound. -/
theorem move_assign (w : World) (l r : Nat) (dst src : guard_ptr) (bs : Nat)
    (hl : w.handle l = some dst) (hr : w.handle r = some src) (hsb : src.block_ = some bs) :
    (dst.block_ ≠ some bs →
      (∀ bd, dst.block_ = some bd → ∃ blk, w.heap.live bd = some blk) →
      ∃ w1, step w (.assign_move l r) = some w1 ∧
        w1.handle r = some { block_ := none } ∧
        guard_ptr.isAlive { block_ := none } w1.heap = some false ∧
        w1.handle l = some { block_ := some bs } ∧
        guard_ptr.isAlive { block_ := some bs } w1.heap = guard_ptr.isAlive src w.heap ∧
        w1.heap[bs]? = w.heap[bs]? ∧ w1.objs = w.objs) ∧
    (dst.block_ = some bs → step w (.assign_move l r) = some w) := by
  have hll := handle_lt hl
  have hrl := handle_lt hr
  constructor
  · intro hne hlive
    have hne2 : src.block_ ≠ dst.block_ := by rw [hsb]; exact fun e => hne e.symm
    have hlr : r ≠ l := by
      intro e; subst e; rw [hl] at hr; simp at hr; subst hr; exact hne hsb
    obtain ⟨hp1, h1⟩ := @rel_some_of_live w.heap dst.block_ hlive
    obtain ⟨d1, h2⟩ := tryToRelease_of_rel h1
    have hbs : hp1[bs]? = w.heap[bs]? := by
      cases hd : dst.block_ with
      | none => rw [hd] at h1; simp [rel] at h1; rw [h1]
      | some bd =>
        rw [hd] at h1
        obtain ⟨blk, _, _, e⟩ := rel_eq_some.mp h1
        have hbd : bd ≠ bs := by
          intro e2; subst e2; exact hne hd
        rw [e, List.getElem?_set_ne hbd]
    refine ⟨{ w with heap := hp1
                     hs := (w.hs.set r (some { block_ := none })).set l
                            (some { block_ := some bs }) }, ?_, ?_, ?_, ?_, ?_, hbs, rfl⟩
    · have hne3 : ¬ (some bs = dst.block_) := fun e => hne e.symm
      simp [step, hl, hr, guard_ptr.operator_assign_move, h2, hsb, hne3]
    · simp [handle_mk, List.getElem?_set_ne (fun e => hlr e.symm), List.getElem?_set_self hrl]
    · simp [guard_ptr.isAlive, guard_ptr.isNull]
    · simp [handle_mk, List.getElem?_set_self, hll]
    · have : src = { block_ := some bs } := by cases src; simp_all
      rw [this]
      exact isAlive_congr hbs
  · intro he
    have he2 : src.block_ = dst.block_ := by rw [hsb, he]
    simp [step, hl, hr, guard_ptr.operator_assign_move, he2]
    have h1 := handle_eq_some.mp hl
    have h2 := handle_eq_some.mp hr
    cases w
    simp at h1 h2 ⊢
    rw [set_same _ _ _ h2, set_same _ _ _ h1]

theorem move_assign_witness :
    (guard_ptr.mk none).block_ ≠ some 0 ∧
    (∃ w1, step moveW (.assign_move 0 1) = some w1 ∧
        w1.handle 1 = some { block_ := none } ∧
        guard_ptr.isAlive { block_ := none } w1.heap = some false ∧
        w1.handle 0 = some { block_ := some 0 } ∧
        guard_ptr.isAlive { block_ := some 0 } w1.heap
          = guard_ptr.isAlive { block_ := some 0 } moveW.heap ∧
        w1.heap[0]? = moveW.heap[0]? ∧ w1.objs = moveW.objs) :=
  ⟨by decide, (move_assign moveW 0 1 { block_ := none } { block_ := some 0 } 0 rfl rfl rfl).1
    (by decide) (by intro bd h; simp at h)⟩

/-- C9 as stated fails: with 4294967294 handles bound to the block of a living pointee the
count is 4294967295, and copy-constructing one more handle takes it to 0, not to 4294967296. -/
theorem copy_construct_counterexample :
    Reachable (bigW 4294967293) ∧
    guard_ptr.refCount { block_ := some 0 } (bigW 4294967293).heap = some 4294967295 ∧
    step (bigW 4294967293) (.ctor_copy 0) = some (bigW 4294967294) ∧
    guard_ptr.refCount { block_ := some 0 } (bigW 4294967294).heap = some 0 :=
  ⟨bigW_reachable _, bigW_refCount _, bigW_step_copy _, bigW_refCount _⟩

/-- C9, amended: copy-constructing from a handle bound to a block that is not deleted yields
one new handle bound to the same block, leaves the source handle, every other handle and
every other block unchanged, and raises the count of the block by 1 modulo 2^32: by exactly
1 unless the count was 2^32 - 1, from which it wraps to 0.  Copy-constructing from an empty
handle yields an empty handle and changes nothing else. -/
theorem copy_construct (w : World) (r : Nat) (src : guard_ptr) (hr : w.handle r = some src) :
    (∀ b blk, src.block_ = some b → w.heap.live b = some blk →
      ∃ w1, step w (.ctor_copy r) = some w1 ∧
        w1.hs = w.hs ++ [some { block_ := some b }] ∧ w1.objs = w.objs ∧
        w1.heap = w.heap.set b { blk with ref_ := (blk.ref_ + 1) % UINT_MOD } ∧
        guard_ptr.refCount { block_ := some b } w1.heap = some ((blk.ref_ + 1) % UINT_MOD) ∧
        (blk.ref_ + 1 < UINT_MOD →
          guard_ptr.refCount { block_ := some b } w1.heap = some (blk.ref_ + 1)) ∧
        (blk.ref_ + 1 = UINT_MOD →
          guard_ptr.refCount { block_ := some b } w1.heap = some 0)) ∧
    (src.block_ = none →
      step w (.ctor_copy r) = some { w with hs := w.hs ++ [some { block_ := none }] }) := by
  constructor
  · intro b blk hb hlive
    obtain ⟨h1, h2⟩ := live_eq_some.mp hlive
    have hlt : b < w.heap.length := (List.getElem?_eq_some_iff.mp h1).1
    have hrc : guard_ptr.refCount { block_ := some b }
        (w.heap.set b { blk with ref_ := (blk.ref_ + 1) % UINT_MOD })
        = some ((blk.ref_ + 1) % UINT_MOD) := by
      simp [guard_ptr.refCount, Heap.live, List.getElem?_set_self hlt, h2]
    refine ⟨{ w with heap := w.heap.set b { blk with ref_ := (blk.ref_ + 1) % UINT_MOD }
                     hs := w.hs ++ [some { block_ := some b }] }, ?_, rfl, rfl, rfl, hrc, ?_, ?_⟩
    · simp [step, hr, guard_ptr.ctor_copy, hb, guard_block.acquire, hlive]
    · intro hlt2
      rw [hrc, Nat.mod_eq_of_lt hlt2]
    · intro he
      rw [hrc, he, Nat.mod_self]
  · intro hb
    simp [step, hr, guard_ptr.ctor_copy, hb]

theorem copy_construct_witness :
    (∀ b blk, (guard_ptr.mk (some 0)).block_ = some b → demoW.heap.live b = some blk →
      ∃ w1, step demoW (.ctor_copy 0) = some w1 ∧
        w1.hs = demoW.hs ++ [some { block_ := some b }] ∧ w1.objs = demoW.objs ∧
        w1.heap = demoW.heap.set b { blk with ref_ := (blk.ref_ + 1) % UINT_MOD } ∧
        guard_ptr.refCount { block_ := some b } w1.heap = some ((blk.ref_ + 1) % UINT_MOD) ∧
        (blk.ref_ + 1 < UINT_MOD →
          guard_ptr.refCount { block_ := some b } w1.heap = some (blk.ref_ + 1)) ∧
        (blk.ref_ + 1 = UINT_MOD →
          guard_ptr.refCount { block_ := some b } w1.heap = some 0)) ∧
    ((guard_ptr.mk (some 0)).block_ = none →
      step demoW (.ctor_copy 0)
        = some { demoW with hs := demoW.hs ++ [some { block_ := none }] }) :=
  copy_construct demoW 0 { block_ := some 0 } rfl

theorem bigWe_reachable (n : Nat) : Reachable (bigWe n) :=
  Reachable.step .ctor (bigW_reachable n) (by simp [step, guard_ptr.ctor, bigW, bigWe])

theorem bigWe_handle_zero (n : Nat) : (bigWe n).handle 0 = some { block_ := some 0 } := by
  simp [bigWe, World.handle, List.replicate_succ]

theorem bigWe_handle_last (n : Nat) : (bigWe n).handle (n + 1) = some { block_ := none } := by
  have : (List.replicate (n + 1) (some ({ block_ := some 0 } : guard_ptr))
      ++ [some { block_ := none }])[n + 1]? = some (some { block_ := none }) := by
    rw [List.getElem?_append_right (by simp)]
    simp
  simp only [bigWe, World.handle, this]

theorem bigWe_refCount (n : Nat) :
    guard_ptr.refCount { block_ := some 0 } (bigWe n).heap = some ((n + 2) % UINT_MOD) := by
  simp [guard_ptr.refCount, bigWe, Heap.live]

theorem bigWe_step_assign (n : Nat) :
    step (bigWe n) (.assign (n + 1) 0) = some (bigW (n + 1)) := by
  have hl : (bigWe n).heap.live 0
      = some { ptr_ := some 0, ref_ := (n + 2) % UINT_MOD, deleted := false } := by
    simp [bigWe, Heap.live]
  have e : ((n + 2) % UINT_MOD + 1) % UINT_MOD = (n + 1 + 2) % UINT_MOD := by
    unfold UINT_MOD; omega
  have hset : (List.replicate (n + 1) (some ({ block_ := some 0 } : guard_ptr))
      ++ [some ({ block_ := none } : guard_ptr)]).set (n + 1) (some { block_ := some 0 })
      = List.replicate (n + 1 + 1) (some { block_ := some 0 }) := by
    rw [List.set_append_right _ _ (by simp)]
    simp only [List.length_replicate, Nat.sub_self, List.set_cons_zero]
    exact (List.replicate_succ' (n + 1) _).symm
  simp only [step, bigWe_handle_zero, bigWe_handle_last, guard_ptr.operator_assign,
    guard_block.acquire, hl, guard_ptr.tryToRelease]
  simp [bigWe, bigW, e, hset]

/-- C10 as stated fails: with 4294967294 handles bound to the block of a living pointee the
count is 4294967295, and assigning one of them to an empty handle takes the count to 0, not
to 4294967296. -/
theorem copy_assign_counterexample :
    Reachable (bigWe 4294967293) ∧
    (bigWe 4294967293).handle 4294967294 = some { block_ := none } ∧
    (bigWe 4294967293).handle 0 = some { block_ := some 0 } ∧
    guard_ptr.refCount { block_ := some 0 } (bigWe 4294967293).heap = some 4294967295 ∧
    step (bigWe 4294967293) (.assign 4294967294 0) = some (bigW 4294967294) ∧
    guard_ptr.refCount { block_ := some 0 } (bigW 4294967294).heap = some 0 :=
  ⟨bigWe_reachable _, bigWe_handle_last _, bigWe_handle_zero _, bigWe_refCount _,
    bigWe_step_assign _, bigW_refCount _⟩

theorem operator_assign_run_eq (self rhs : guard_ptr) (hp : Heap) :
    guard_ptr.operator_assign_run rhs 4 { pc := .test, self := self, hp := hp }
      = (guard_ptr.operator_assign self rhs hp).map
          (fun x => { pc := .ret, self := x.1, hp := x.2 }) := by
  by_cases hne : rhs.block_ = self.block_
  · simp [guard_ptr.operator_assign_run, guard_ptr.operator_assign_step,
      guard_ptr.operator_assign, hne]
  · cases hb : rhs.block_ with
    | none =>
      rw [hb] at hne
      cases ht : guard_ptr.tryToRelease self hp with
      | none =>
        simp [guard_ptr.operator_assign_run, guard_ptr.operator_assign_step,
          guard_ptr.operator_assign, hne, hb, ht]
      | some x =>
        simp [guard_ptr.operator_assign_run, guard_ptr.operator_assign_step,
          guard_ptr.operator_assign, hne, hb, ht]
    | some b =>
      rw [hb] at hne
      cases ha : guard_block.acquire hp b with
      | none =>
        simp [guard_ptr.operator_assign_run, guard_ptr.operator_assign_step,
          guard_ptr.operator_assign, hne, hb, ha]
      | some hp1 =>
        cases ht : guard_ptr.tryToRelease self hp1 with
        | none =>
          simp [guard_ptr.operator_assign_run, guard_ptr.operator_assign_step,
            guard_ptr.operator_assign, hne, hb, ha, ht]
        | some x =>
          simp [guard_ptr.operator_assign_run, guard_ptr.operator_assign_step,
            guard_ptr.operator_assign, hne, hb, ha, ht]

/-- C10, amended: let `dst` and `src` be handles that do not hold the same block pointer
(either may be empty) and whose blocks are not deleted.  Then `dst = src` first increments
the block of `src` and then releases the former block of `dst`; it leaves `dst` with the
binding of `src`, `src` and the pointees unchanged, the count of the block of `src` raised
by 1 modulo 2^32 (by exactly 1 unless it was 2^32 - 1), the count of the former block of
`dst` lowered by 1 modulo 2^32, that block deleted iff its count was 1, and every other
block unchanged.  The order is that of the statements of `operator=`, executed one by one
(`operator_assign_step`): the test, then the increment, which leaves the former block of
`dst` as it was, then the release, then the store to `block_`; executed to the end, the
statements give the result of `operator_assign`, for all handles and heaps. -/
theorem copy_assign (w : World) (l r : Nat) (dst src : guard_ptr)
    (hl : w.handle l = some dst) (hr : w.handle r = some src)
    (hne : src.block_ ≠ dst.block_)
    (hsl : ∀ b, src.block_ = some b → ∃ blk, w.heap.live b = some blk)
    (hdl : ∀ b, dst.block_ = some b → ∃ blk, w.heap.live b = some blk) :
    ∃ w1 hp1, step w (.assign l r) = some w1 ∧
      acq w.heap src.block_ = some hp1 ∧ rel hp1 dst.block_ = some w1.heap ∧
      w1.hs = w.hs.set l (some { block_ := src.block_ }) ∧ w1.objs = w.objs ∧
      w1.handle l = some { block_ := src.block_ } ∧ w1.handle r = some src ∧
      (∀ (bs : Nat) (blk : guard_block), src.block_ = some bs → w.heap[bs]? = some blk →
        w1.heap[bs]? = some { blk with ref_ := (blk.ref_ + 1) % UINT_MOD } ∧
        (blk.ref_ + 1 < UINT_MOD →
          w1.heap[bs]? = some { blk with ref_ := blk.ref_ + 1 })) ∧
      (∀ (bd : Nat) (blk : guard_block), dst.block_ = some bd → w.heap[bd]? = some blk →
        w1.heap[bd]? = some { ptr_ := blk.ptr_
                              ref_ := (blk.ref_ + UINT_MOD - 1) % UINT_MOD
                              deleted := decide (blk.ref_ = 1) }) ∧
      (∀ (c : Nat), src.block_ ≠ some c → dst.block_ ≠ some c → w1.heap[c]? = w.heap[c]?) ∧
      guard_ptr.operator_assign_step src { pc := .test, self := dst, hp := w.heap }
        = some { pc := .acquire, self := dst, hp := w.heap } ∧
      guard_ptr.operator_assign_step src { pc := .acquire, self := dst, hp := w.heap }
        = some { pc := .release, self := dst, hp := hp1 } ∧
      (∀ (bs : Nat) (blk : guard_block), src.block_ = some bs → w.heap[bs]? = some blk →
        hp1[bs]? = some { blk with ref_ := (blk.ref_ + 1) % UINT_MOD }) ∧
      (∀ (bd : Nat) (blk : guard_block), dst.block_ = some bd → w.heap[bd]? = some blk →
        hp1[bd]? = some blk) ∧
      (∃ dst1 : guard_ptr,
        guard_ptr.operator_assign_step src { pc := .release, self := dst, hp := hp1 }
          = some { pc := .store, self := dst1, hp := w1.heap } ∧
        guard_ptr.operator_assign_step src { pc := .store, self := dst1, hp := w1.heap }
          = some { pc := .ret, self := { block_ := src.block_ }, hp := w1.heap }) ∧
      (∀ (self rhs : guard_ptr) (hp : Heap),
        guard_ptr.operator_assign_run rhs 4 { pc := .test, self := self, hp := hp }
          = (guard_ptr.operator_assign self rhs hp).map
              (fun x => { pc := .ret, self := x.1, hp := x.2 })) := by
  have hll := handle_lt hl
  have hlr : l ≠ r := by
    intro e; subst e; rw [hl] at hr; simp at hr; subst hr; exact hne rfl
  obtain ⟨hp1, h1⟩ := @acq_some_of_live w.heap src.block_ hsl
  obtain ⟨hp2, h2⟩ := @rel_some_of_live hp1 dst.block_ (fun c hc => by
    obtain ⟨blk, hlv⟩ := hdl c hc
    exact acq_live_other h1 hlv)
  obtain ⟨a1, h3⟩ := tryToRelease_of_rel h2
  refine ⟨{ w with heap := hp2, hs := w.hs.set l (some { block_ := src.block_ }) }, hp1,
    ?_, h1, h2, rfl, rfl, ?_, ?_, ?_, ?_, ?_, ?_, ?_, ?_, ?_, ?_, operator_assign_run_eq⟩
  · simp only [step, hl, hr, guard_ptr.operator_assign, hne, ne_eq, not_false_eq_true, if_true]
    cases hsb : src.block_ with
    | none =>
      rw [hsb] at h1
      simp only [acq, Option.some.injEq] at h1
      subst h1
      simp [h3]
    | some b =>
      rw [hsb] at h1
      simp only [acq] at h1
      simp [h1, h3]
  · simp [handle_mk, List.getElem?_set_self hll]
  · rw [handle_eq_some] at hr ⊢
    simp only
    rw [List.getElem?_set_ne hlr]
    exact hr
  · intro bs blk hs hblk
    have hmain : hp2[bs]? = some { blk with ref_ := (blk.ref_ + 1) % UINT_MOD } := by
      rw [hs] at h1
      obtain ⟨blk2, e1, e2, e3⟩ := acquire_eq_some.mp h1
      rw [hblk] at e1
      simp at e1
      subst e1
      have hlt : bs < w.heap.length := (List.getElem?_eq_some_iff.mp hblk).1
      have h4 : hp1[bs]? = some { blk with ref_ := (blk.ref_ + 1) % UINT_MOD } := by
        rw [e3, List.getElem?_set_self hlt]
      obtain ⟨blk3, f1, _, f3, _⟩ := rel_block h2 h4
      rw [f1, f3 (fun e => hne (hs.trans e.symm))]
    refine ⟨hmain, fun hlt => ?_⟩
    simp only
    rw [hmain, Nat.mod_eq_of_lt hlt]
  · intro bd blk hd hblk
    obtain ⟨blk1, e1, _, _, e4, _⟩ := acq_block h1 hblk
    rw [e4 (fun e => hne (e.trans hd.symm))] at e1
    rw [hd] at h2
    obtain ⟨blk2, f1, f2, f3⟩ := rel_eq_some.mp h2
    rw [e1] at f1
    simp at f1
    subst f1
    simp only
    rw [f3, List.getElem?_set_self (List.getElem?_eq_some_iff.mp e1).1]
  · intro c hsc hdc
    simp only
    cases hc : w.heap[c]? with
    | none =>
      have hlen : hp2.length = w.heap.length := ((acq_frame h1).trans (rel_frame h2)).1
      rw [List.getElem?_eq_none_iff] at hc ⊢
      omega
    | some blk =>
      obtain ⟨blk1, e1, _, _, e4, _⟩ := acq_block h1 hc
      rw [e4 hsc] at e1
      obtain ⟨blk2, f1, _, f3, _⟩ := rel_block h2 e1
      rw [f1, f3 hdc]
  · simp [guard_ptr.operator_assign_step, hne]
  · cases hsb : src.block_ with
    | none =>
      rw [hsb] at h1
      simp only [acq, Option.some.injEq] at h1
      subst h1
      simp [guard_ptr.operator_assign_step, hsb]
    | some b =>
      rw [hsb] at h1
      simp only [acq] at h1
      simp [guard_ptr.operator_assign_step, hsb, h1]
  · intro bs blk hs hblk
    rw [hs] at h1
    obtain ⟨blk2, e1, e2, e3⟩ := acquire_eq_some.mp h1
    rw [hblk] at e1
    simp at e1
    subst e1
    rw [e3, List.getElem?_set_self (List.getElem?_eq_some_iff.mp hblk).1]
  · intro bd blk hd hblk
    obtain ⟨blk1, e1, _, _, e4, _⟩ := acq_block h1 hblk
    rw [e4 (fun e => hne (e.trans hd.symm))] at e1
    exact e1
  · exact ⟨a1, by simp [guard_ptr.operator_assign_step, h3],
      by simp [guard_ptr.operator_assign_step]⟩

theorem copy_assign_witness :
    ∃ w1 hp1, step twoW (.assign 0 1) = some w1 ∧
      acq twoW.heap (guard_ptr.mk (some 1)).block_ = some hp1 ∧ rel hp1 (guard_ptr.mk (some 0)).block_ = some w1.heap ∧
      w1.hs = twoW.hs.set 0 (some { block_ := (guard_ptr.mk (some 1)).block_ }) ∧ w1.objs = twoW.objs ∧
      w1.handle 0 = some { block_ := (guard_ptr.mk (some 1)).block_ } ∧ w1.handle 1 = some (guard_ptr.mk (some 1)) ∧
      (∀ (bs : Nat) (blk : guard_block), (guard_ptr.mk (some 1)).block_ = some bs → twoW.heap[bs]? = some blk →
        w1.heap[bs]? = some { blk with ref_ := (blk.ref_ + 1) % UINT_MOD } ∧
        (blk.ref_ + 1 < UINT_MOD →
          w1.heap[bs]? = some { blk with ref_ := blk.ref_ + 1 })) ∧
      (∀ (bd : Nat) (blk : guard_block), (guard_ptr.mk (some 0)).block_ = some bd → twoW.heap[bd]? = some blk →
        w1.heap[bd]? = some { ptr_ := blk.ptr_
                              ref_ := (blk.ref_ + UINT_MOD - 1) % UINT_MOD
                              deleted := decide (blk.ref_ = 1) }) ∧
      (∀ (c : Nat), (guard_ptr.mk (some 1)).block_ ≠ some c → (guard_ptr.mk (some 0)).block_ ≠ some c → w1.heap[c]? = twoW.heap[c]?) ∧
      guard_ptr.operator_assign_step (guard_ptr.mk (some 1)) { pc := .test, self := (guard_ptr.mk (some 0)), hp := twoW.heap }
        = some { pc := .acquire, self := (guard_ptr.mk (some 0)), hp := twoW.heap } ∧
      guard_ptr.operator_assign_step (guard_ptr.mk (some 1)) { pc := .acquire, self := (guard_ptr.mk (some 0)), hp := twoW.heap }
        = some { pc := .release, self := (guard_ptr.mk (some 0)), hp := hp1 } ∧
      (∀ (bs : Nat) (blk : guard_block), (guard_ptr.mk (some 1)).block_ = some bs → twoW.heap[bs]? = some blk →
        hp1[bs]? = some { blk with ref_ := (blk.ref_ + 1) % UINT_MOD }) ∧
      (∀ (bd : Nat) (blk : guard_block), (guard_ptr.mk (some 0)).block_ = some bd → twoW.heap[bd]? = some blk →
        hp1[bd]? = some blk) ∧
      (∃ dst1 : guard_ptr,
        guard_ptr.operator_assign_step (guard_ptr.mk (some 1)) { pc := .release, self := (guard_ptr.mk (some 0)), hp := hp1 }
          = some { pc := .store, self := dst1, hp := w1.heap } ∧
        guard_ptr.operator_assign_step (guard_ptr.mk (some 1)) { pc := .store, self := dst1, hp := w1.heap }
          = some { pc := .ret, self := { block_ := (guard_ptr.mk (some 1)).block_ }, hp := w1.heap }) ∧
      (∀ (self rhs : guard_ptr) (hp : Heap),
        guard_ptr.operator_assign_run rhs 4 { pc := .test, self := self, hp := hp }
          = (guard_ptr.operator_assign self rhs hp).map
              (fun x => { pc := .ret, self := x.1, hp := x.2 })) :=
  copy_assign twoW 0 1 { block_ := some 0 } { block_ := some 1 } rfl rfl (by decide)
    (by intro b h; simp at h; subst h; exact ⟨_, rfl⟩)
    (by intro b h; simp at h; subst h; exact ⟨_, rfl⟩)

theorem getElem?_append_add {α : Type} (l1 l2 : List α) (d : Nat) :
    (l1 ++ l2)[l1.length + d]? = l2[d]? := by
  rw [List.getElem?_append_right (Nat.le_add_right _ _)]
  simp

theorem set_append_add {α : Type} (l1 l2 : List α) (d : Nat) (x : α) :
    (l1 ++ l2).set (l1.length + d) x = l1 ++ l2.set d x := by
  rw [List.set_append_right _ _ (Nat.le_add_right _ _)]
  simp

theorem boundW_obj (w : World) (p k : Nat) (hp : p < w.objs.length) :
    (boundW w p k).obj p
      = some { base := { block_ := some w.heap.length }, destroyed := false } := by
  simp [boundW, World.obj, List.getElem?_set_self hp]

theorem boundW_live (w : World) (p k : Nat) :
    (boundW w p k).heap.live w.heap.length
      = some { ptr_ := some p, ref_ := (k + 1) % UINT_MOD, deleted := false } := by
  simp [boundW, Heap.live, getElem?_append_length]

theorem boundW_handle (w : World) (p k i : Nat) (hi : i < k) :
    (boundW w p k).handle (w.hs.length + i) = some { block_ := some w.heap.length } := by
  simp only [boundW, handle_mk, getElem?_append_add, List.getElem?_replicate_of_lt hi]

theorem boundW_first (w : World) (p : Nat) (o : Pointee) (ho : w.obj p = some o)
    (hb : o.base.block_ = none) : step w (.ctor_ptr (some p)) = some (boundW w p 1) := by
  obtain ⟨_, ho2⟩ := obj_eq_some.mp ho
  have e : (1 + 1) % UINT_MOD = 2 := by decide
  simp only [step, ho, support_guard_ptr.getAndRef, support_guard_ptr.internalGetAndRef, hb]
  simp [compare_exchange_strong, guard_block.create, ho2, boundW, e]

theorem boundW_acquire (w : World) (p k : Nat) :
    guard_block.acquire (boundW w p k).heap w.heap.length = some (boundW w p (k + 1)).heap := by
  have e : ((k + 1) % UINT_MOD + 1) % UINT_MOD = (k + 1 + 1) % UINT_MOD := by
    unfold UINT_MOD; omega
  simp only [guard_block.acquire, boundW_live]
  simp only [boundW, set_append_length, e]

theorem boundW_step (w : World) (p k : Nat) (hp : p < w.objs.length) (c : Option Nat)
    (hc : ∀ j, c = some j → j < k) :
    step (boundW w p k) (bindOp p w.hs.length c) = some (boundW w p (k + 1)) := by
  have hacq := boundW_acquire w p k
  have hso : (boundW w p k).objs.set p
      { base := { block_ := some w.heap.length }, destroyed := false } = (boundW w p k).objs := by
    simp [boundW]
  cases c with
  | none =>
    simp only [bindOp, step, boundW_obj w p k hp, support_guard_ptr.getAndRef,
      support_guard_ptr.internalGetAndRef, hacq, hso]
    simp [boundW, List.replicate_succ' k]
  | some j =>
    simp only [bindOp, step, boundW_handle w p k j (hc j rfl), guard_ptr.ctor_copy, hacq]
    simp [boundW, List.replicate_succ' k]

theorem boundW_run (w : World) (p : Nat) (hp : p < w.objs.length) (cs : List (Option Nat))
    (k : Nat) (hcs : okChoices k cs = true) :
    run (boundW w p k) (cs.map (bindOp p w.hs.length)) = some (boundW w p (k + cs.length)) := by
  induction cs generalizing k with
  | nil => rfl
  | cons c cs ih =>
    have hc : ∀ j, c = some j → j < k := by
      intro j hj
      subst hj
      simp [okChoices] at hcs
      exact hcs.1
    have hrest : okChoices (k + 1) cs = true := by
      cases c with
      | none => simpa [okChoices] using hcs
      | some j => simp [okChoices] at hcs; exact hcs.2
    simp only [List.map_cons, run, boundW_step w p k hp c hc]
    rw [ih (k + 1) hrest]
    congr 2
    simp only [List.length_cons]
    omega

theorem boundW_step_delete (w : World) (p n : Nat) (hp : p < w.objs.length) (h1 : 1 ≤ n)
    (hn : n + 1 < UINT_MOD) :
    step (boundW w p n) (.delete_obj p)
      = some (orphanW w p (List.replicate n (some { block_ := some w.heap.length })) n false) := by
  have e1 : (n + 1) % UINT_MOD = n + 1 := Nat.mod_eq_of_lt hn
  have e2 : (n + 1 + UINT_MOD - 1) % UINT_MOD = n := by
    unfold UINT_MOD at *; omega
  have e3 : ¬ (n + 1 = 1) := by omega
  have e4 : n % UINT_MOD = n := Nat.mod_eq_of_lt (by omega)
  simp only [step, boundW_obj w p n hp, support_guard_ptr.dtor, boundW_live, guard_block.release,
    Heap.live]
  simp only [boundW, e1, set_append_length, getElem?_append_length]
  simp [e2, e3, e4, orphanW, set_append_length]

theorem orphanW_step (w : World) (p : Nat) (l : List (Option guard_ptr)) (m d : Nat)
    (hd : l[d]? = some (some { block_ := some w.heap.length })) (h1 : 1 ≤ m)
    (hm : m < UINT_MOD) :
    step (orphanW w p l m false) (.dtor (w.hs.length + d))
      = some (orphanW w p (l.set d none) (m - 1) (decide (m = 1))) := by
  have e : (m + UINT_MOD - 1) % UINT_MOD = m - 1 := by
    unfold UINT_MOD at *; omega
  have hh : (orphanW w p l m false).handle (w.hs.length + d)
      = some { block_ := some w.heap.length } := by
    simp only [orphanW, handle_mk, getElem?_append_add, hd]
  have hl : (orphanW w p l m false).heap.live w.heap.length
      = some { ptr_ := none, ref_ := m, deleted := false } := by
    simp [orphanW, Heap.live, getElem?_append_length]
  simp only [step, hh, dtor_eq, rel, guard_block.release, hl]
  by_cases h : m = 1
  · simp [h, orphanW, set_append_length, set_append_add, e]
  · simp [h, orphanW, set_append_length, set_append_add, e]

theorem killed_get_of_not_mem (ds : List Nat) (l : List (Option guard_ptr)) (i : Nat)
    (hi : i ∉ ds) : (killed l ds)[i]? = l[i]? := by
  induction ds generalizing l with
  | nil => rfl
  | cons d ds ih =>
    simp only [List.mem_cons, not_or] at hi
    simp only [killed, List.foldl_cons]
    have := ih (l.set d none) hi.2
    simp only [killed] at this
    rw [this, List.getElem?_set_ne (fun e => hi.1 e.symm)]

theorem killed_get_of_mem (ds : List Nat) (l : List (Option guard_ptr)) (i : Nat)
    (hi : i ∈ ds) (hl : i < l.length) : (killed l ds)[i]? = some none := by
  induction ds generalizing l with
  | nil => simp at hi
  | cons d ds ih =>
    simp only [killed, List.foldl_cons]
    by_cases hmem : i ∈ ds
    · have := ih (l.set d none) hmem (by simpa using hl)
      simpa only [killed] using this
    · have hid : i = d := by
        rcases List.mem_cons.mp hi with h | h
        · exact h
        · exact absurd h hmem
      subst hid
      have := killed_get_of_not_mem ds (l.set i none) i hmem
      simp only [killed] at this
      rw [this, List.getElem?_set_self hl]

theorem orphanW_run (w : World) (p : Nat) (ds : List Nat) (l : List (Option guard_ptr))
    (m : Nat) (hnd : ds.Nodup)
    (hds : ∀ d ∈ ds, l[d]? = some (some { block_ := some w.heap.length }))
    (hcount : l.countP (fun s => decide (hslot s = some w.heap.length)) = m)
    (h1 : 1 ≤ m) (hm : m < UINT_MOD) :
    run (orphanW w p l m false) (ds.map (fun d => Op.dtor (w.hs.length + d)))
      = some (orphanW w p (killed l ds) (m - ds.length) (decide (ds.length = m))) := by
  induction ds generalizing l m with
  | nil =>
    have : decide (0 = m) = false := by simp; omega
    simp [run, killed, this]
  | cons d ds ih =>
    have hd := hds d (List.mem_cons_self _ _)
    have hnd2 := List.nodup_cons.mp hnd
    simp only [List.map_cons, run, orphanW_step w p l m d hd h1 hm]
    have hc : (l.set d none).countP (fun s => decide (hslot s = some w.heap.length)) + 1
        = l.countP (fun s => decide (hslot s = some w.heap.length)) := by
      have := count_set (fun s => decide (hslot s = some w.heap.length)) l d
        (some { block_ := some w.heap.length }) none hd
      have a1 : (fun s => decide (hslot s = some w.heap.length))
          (some { block_ := some w.heap.length }) = true := by simp [hslot]
      have a2 : (fun s => decide (hslot s = some w.heap.length)) none = false := by
        simp [hslot]
      rw [a1, a2] at this
      simpa using this
    have hds2 : ∀ d2 ∈ ds, (l.set d none)[d2]?
        = some (some { block_ := some w.heap.length }) := by
      intro d2 h2
      have hne : d ≠ d2 := by
        intro e; subst e; exact hnd2.1 h2
      rw [List.getElem?_set_ne hne]
      exact hds d2 (List.mem_cons_of_mem _ h2)
    by_cases h : m = 1
    · have hnil : ds = [] := by
        cases ds with
        | nil => rfl
        | cons d2 ds2 =>
          have h3 := hds2 d2 (List.mem_cons_self _ _)
          have h4 := count_pos_of_get (fun s => decide (hslot s = some w.heap.length))
            (l.set d none) d2 _ h3 (by simp [hslot])
          omega
      subst hnil
      simp [run, killed, h]
    · have hrec := ih (l.set d none) (m - 1) hnd2.2 hds2 (by omega) (by omega) (by omega)
      have hdec : decide (m = 1) = false := by simp [h]
      rw [hdec, hrec]
      have e1 : m - 1 - ds.length = m - (d :: ds).length := by
        simp only [List.length_cons]; omega
      have e2 : decide (ds.length = m - 1) = decide ((d :: ds).length = m) := by
        simp only [List.length_cons, decide_eq_decide]; omega
      rw [e1, e2]
      rfl

/-- C6, amended: let `p` be a living pointee without block and bind `n` handles to it, the
first from its pointer and each further one from its pointer or as a copy of an earlier
one, with `n + 1 < 2^32`.  Then all `n` handles are bound to one new block, alive, with
`refCount() == n + 1`; destroying `p` leaves them bound and not alive with
`refCount() == n`; and destroying any `k` different ones of them, in any order, leaves the
count `n - k`, the block being deleted exactly when `k = n`, while the handles not yet
destroyed stay bound to it. -/
theorem bind_then_destroy (w : World) (p : Nat) (o : Pointee) (ho : w.obj p = some o)
    (hb : o.base.block_ = none) (cs : List (Option Nat)) (hcs : okChoices 1 cs = true)
    (hn : cs.length + 1 + 1 < UINT_MOD) :
    ∃ w1 w2, run w (.ctor_ptr (some p) :: cs.map (bindOp p w.hs.length)) = some w1 ∧
      (∀ i, i < cs.length + 1 →
        w1.handle (w.hs.length + i) = some { block_ := some w.heap.length }) ∧
      guard_ptr.refCount { block_ := some w.heap.length } w1.heap = some (cs.length + 1 + 1) ∧
      guard_ptr.isAlive { block_ := some w.heap.length } w1.heap = some true ∧
      step w1 (.delete_obj p) = some w2 ∧
      (∀ i, i < cs.length + 1 →
        w2.handle (w.hs.length + i) = some { block_ := some w.heap.length }) ∧
      guard_ptr.isAlive { block_ := some w.heap.length } w2.heap = some false ∧
      guard_ptr.refCount { block_ := some w.heap.length } w2.heap = some (cs.length + 1) ∧
      (∀ ds : List Nat, ds.Nodup → (∀ d ∈ ds, d < cs.length + 1) →
        ∃ w3, run w2 (ds.map (fun d => Op.dtor (w.hs.length + d))) = some w3 ∧
          w3.heap[w.heap.length]? = some { ptr_ := none
                                           ref_ := cs.length + 1 - ds.length
                                           deleted := decide (ds.length = cs.length + 1) } ∧
          (∀ i, i < cs.length + 1 → i ∉ ds →
            w3.handle (w.hs.length + i) = some { block_ := some w.heap.length }) ∧
          (∀ d ∈ ds, w3.handle (w.hs.length + d) = none)) := by
  have hp : p < w.objs.length :=
    (List.getElem?_eq_some_iff.mp (obj_eq_some.mp ho).1).1
  have hrun1 : run w (.ctor_ptr (some p) :: cs.map (bindOp p w.hs.length))
      = some (boundW w p (cs.length + 1)) := by
    simp only [run, boundW_first w p o ho hb]
    rw [boundW_run w p hp cs 1 hcs]
    congr 2
    omega
  have e1 : (cs.length + 1 + 1) % UINT_MOD = cs.length + 1 + 1 := Nat.mod_eq_of_lt hn
  refine ⟨boundW w p (cs.length + 1),
    orphanW w p (List.replicate (cs.length + 1) (some { block_ := some w.heap.length }))
      (cs.length + 1) false, hrun1, ?_, ?_, ?_, ?_, ?_, ?_, ?_, ?_⟩
  · intro i hi
    exact boundW_handle w p _ i hi
  · simp only [guard_ptr.refCount, boundW_live, e1]
  · simp [guard_ptr.isAlive, guard_ptr.isNull, guard_block.data, boundW_live]
  · exact boundW_step_delete w p _ hp (by omega) hn
  · intro i hi
    simp only [orphanW, handle_mk, getElem?_append_add, List.getElem?_replicate_of_lt hi]
  · simp [guard_ptr.isAlive, guard_ptr.isNull, guard_block.data, orphanW, Heap.live,
      getElem?_append_length]
  · simp [guard_ptr.refCount, orphanW, Heap.live, getElem?_append_length]
  · intro ds hnd hds
    have hl : ∀ i, i < cs.length + 1 →
        (List.replicate (cs.length + 1) (some ({ block_ := some w.heap.length } : guard_ptr)))[i]?
          = some (some { block_ := some w.heap.length }) :=
      fun i hi => List.getElem?_replicate_of_lt hi
    have hcount : (List.replicate (cs.length + 1)
        (some ({ block_ := some w.heap.length } : guard_ptr))).countP
          (fun s => decide (hslot s = some w.heap.length)) = cs.length + 1 := by
      simp [List.countP_replicate, hslot]
    refine ⟨_, orphanW_run w p ds _ (cs.length + 1) hnd (fun d hd => hl d (hds d hd)) hcount
      (by omega) (by omega), ?_, ?_, ?_⟩
    · simp only [orphanW, getElem?_append_length]
    · intro i hi hmem
      simp only [orphanW, handle_mk, getElem?_append_add, killed_get_of_not_mem ds _ i hmem,
        hl i hi]
    · intro d hd
      have hk := killed_get_of_mem ds
        (List.replicate (cs.length + 1) (some { block_ := some w.heap.length })) d hd
        (by simpa using hds d hd)
      simp only [orphanW, handle_mk, getElem?_append_add, hk]

theorem bind_then_destroy_witness :
    ∃ w1 w2, run freshW (.ctor_ptr (some 0) :: [some 0].map (bindOp 0 freshW.hs.length))
        = some w1 ∧
      (∀ i, i < [some 0].length + 1 →
        w1.handle (freshW.hs.length + i) = some { block_ := some freshW.heap.length }) ∧
      guard_ptr.refCount { block_ := some freshW.heap.length } w1.heap
        = some ([some 0].length + 1 + 1) ∧
      guard_ptr.isAlive { block_ := some freshW.heap.length } w1.heap = some true ∧
      step w1 (.delete_obj 0) = some w2 ∧
      (∀ i, i < [some 0].length + 1 →
        w2.handle (freshW.hs.length + i) = some { block_ := some freshW.heap.length }) ∧
      guard_ptr.isAlive { block_ := some freshW.heap.length } w2.heap = some false ∧
      guard_ptr.refCount { block_ := some freshW.heap.length } w2.heap
        = some ([some 0].length + 1) ∧
      (∀ ds : List Nat, ds.Nodup → (∀ d ∈ ds, d < [some 0].length + 1) →
        ∃ w3, run w2 (ds.map (fun d => Op.dtor (freshW.hs.length + d))) = some w3 ∧
          w3.heap[freshW.heap.length]? = some { ptr_ := none
                                                ref_ := [some 0].length + 1 - ds.length
                                                deleted := decide (ds.length = [some 0].length + 1) } ∧
          (∀ i, i < [some 0].length + 1 → i ∉ ds →
            w3.handle (freshW.hs.length + i) = some { block_ := some freshW.heap.length }) ∧
          (∀ d ∈ ds, w3.handle (freshW.hs.length + d) = none)) :=
  bind_then_destroy freshW 0 { base := { block_ := none }, destroyed := false } rfl rfl
    [some 0] (by decide) (by decide)

/-- C6 as stated fails for `n = 4294967295`: after a handle from the pointer of a fresh
pointee and 4294967294 copies of it, `refCount()` is 0, not `n + 1 = 4294967296`. -/
theorem bind_then_destroy_counterexample :
    run World.init (.new_obj :: .ctor_ptr (some 0) :: List.replicate 4294967294 (.ctor_copy 0))
      = some (bigW 4294967294) ∧
    handleSlots (bigW 4294967294) 0 = 4294967295 ∧
    guard_ptr.refCount { block_ := some 0 } (bigW 4294967294).heap = some 0 :=
  ⟨bigW_run _, bigW_handleSlots _, bigW_refCount _⟩

/-! ## Assignment between handles of one block, the liveness query and swap (C11, C12, C19) -/

/-- C11: self-assignment, and copy or move assignment between two handles that hold the same
block pointer (both empty included), change nothing: the heap (every count and pointee
address), the pointees and the handles are as before.  The member functions return before
any `acquire()` or `release()`: they do so on every heap, also one where the block is
deleted. -/
theorem same_block_assign (w : World) (l r : Nat) (a g : guard_ptr)
    (hl : w.handle l = some a) (hr : w.handle r = some g) (he : g.block_ = a.block_) :
    step w (.assign l r) = some w ∧ step w (.assign_move l r) = some w ∧
    step w (.assign l l) = some w ∧ step w (.assign_move l l) = some w ∧
    (∀ hp : Heap, guard_ptr.operator_assign a g hp = some (a, hp)) ∧
    (∀ hp : Heap, guard_ptr.operator_assign_move a g hp = some (a, g, hp)) := by
  have h1 := handle_eq_some.mp hl
  have h2 := handle_eq_some.mp hr
  have e1 : { w with hs := w.hs.set l (some a) } = w := by
    cases w; simp at h1 ⊢; exact set_same _ _ _ h1
  have e2 : { w with hs := (w.hs.set r (some g)).set l (some a) } = w := by
    cases w; simp at h1 h2 ⊢; rw [set_same _ _ _ h2, set_same _ _ _ h1]
  refine ⟨?_, ?_, ?_, ?_, ?_, ?_⟩
  · simp [step, hl, hr, guard_ptr.operator_assign, he, e1]
  · simp [step, hl, hr, guard_ptr.operator_assign_move, he, e2]
  · simp [step, hl, guard_ptr.operator_assign, e1]
  · simp [step, hl, guard_ptr.operator_assign_move, e1]
  · intro hp; simp [guard_ptr.operator_assign, he]
  · intro hp; simp [guard_ptr.operator_assign_move, he]

theorem same_block_assign_witness :
    step demoW (.assign 0 1) = some demoW ∧ step demoW (.assign_move 0 1) = some demoW ∧
    step demoW (.assign 0 0) = some demoW ∧ step demoW (.assign_move 0 0) = some demoW ∧
    (∀ hp : Heap, guard_ptr.operator_assign { block_ := some 0 } { block_ := some 0 } hp
      = some ({ block_ := some 0 }, hp)) ∧
    (∀ hp : Heap, guard_ptr.operator_assign_move { block_ := some 0 } { block_ := some 0 } hp
      = some ({ block_ := some 0 }, { block_ := some 0 }, hp)) :=
  same_block_assign demoW 0 1 { block_ := some 0 } { block_ := some 0 } rfl rfl rfl

/-- C12: `isAlive()` is true iff the handle is bound to a block (allocated, not deleted)
whose stored pointee address is not null; an empty handle is not alive and has
`refCount()` 0; on a bound handle `isAlive()` tells whether the stored address is set and
`refCount()` returns the count of the block.  A default-constructed handle, a handle
constructed from `nullptr`, a moved-from handle and a cleared handle are empty. -/
theorem liveness_query (g : guard_ptr) (hp : Heap) :
    (guard_ptr.isAlive g hp = some true ↔
      ∃ b blk, g.block_ = some b ∧ hp.live b = some blk ∧ blk.ptr_ ≠ none) ∧
    (g.block_ = none →
      guard_ptr.isAlive g hp = some false ∧ guard_ptr.refCount g hp = some 0) ∧
    (∀ b blk, g.block_ = some b → hp.live b = some blk →
      guard_ptr.isAlive g hp = some blk.ptr_.isSome ∧
      guard_ptr.refCount g hp = some blk.ref_) ∧
    guard_ptr.ctor.block_ = none ∧
    (guard_ptr.ctor_move g).2.block_ = none ∧
    (∀ g1 hp1, guard_ptr.clear g hp = some (g1, hp1) → g1.block_ = none) ∧
    (∀ w : World, ∃ w1, step w (.ctor_ptr none) = some w1 ∧
      w1.handle w.hs.length = some { block_ := none }) := by
  refine ⟨?_, ?_, ?_, rfl, ?_, ?_, ?_⟩
  · cases hb : g.block_ with
    | none => simp [guard_ptr.isAlive, guard_ptr.isNull, hb]
    | some b =>
      cases hl : hp.live b with
      | none => simp [guard_ptr.isAlive, guard_ptr.isNull, guard_block.data, hb, hl]
      | some blk =>
        cases hptr : blk.ptr_ <;>
          simp [guard_ptr.isAlive, guard_ptr.isNull, guard_block.data, hb, hl, hptr]
  · intro hb
    simp [guard_ptr.isAlive, guard_ptr.isNull, guard_ptr.refCount, hb]
  · intro b blk hb hl
    cases hptr : blk.ptr_ <;>
      simp [guard_ptr.isAlive, guard_ptr.isNull, guard_block.data, guard_ptr.refCount, hb, hl,
        hptr]
  · simp [ctor_move_eq]
  · intro g1 hp1 h
    rw [clear_eq] at h
    cases hr : rel hp g.block_ with
    | none => simp [hr] at h
    | some hp2 => simp [hr] at h; rw [← h.1]
  · intro w
    exact ⟨_, rfl, by simp [handle_mk]⟩

/-- C19: for two handles `l` and `r`, `l.swap(r)` exchanges the block pointers of the two
handles, leaves the heap (every count and pointee address), the pointees and every other
handle unchanged, and swapping again restores the state.  When both hold the same block
pointer, or when `l` and `r` are the same handle, nothing changes. -/
theorem swap_exchanges (w : World) (l r : Nat) (a g : guard_ptr)
    (hl : w.handle l = some a) (hr : w.handle r = some g) :
    ∃ w1, step w (.swap l r) = some w1 ∧ w1.heap = w.heap ∧ w1.objs = w.objs ∧
      w1.handle l = some { block_ := g.block_ } ∧ w1.handle r = some { block_ := a.block_ } ∧
      (∀ h, h ≠ l → h ≠ r → w1.handle h = w.handle h) ∧
      step w1 (.swap l r) = some w ∧
      (g.block_ = a.block_ → w1 = w) ∧ (l = r → w1 = w) ∧
      guard_ptr.swap a g = ({ block_ := g.block_ }, { block_ := a.block_ }) := by
  have h1 := handle_eq_some.mp hl
  have h2 := handle_eq_some.mp hr
  have hll := handle_lt hl
  have hrl := handle_lt hr
  have hself : l = r → g = a := by
    intro e; subst e; rw [hl] at hr; simpa using hr.symm
  have hw1l : (World.mk w.heap w.objs ((w.hs.set r (some { block_ := a.block_ })).set l
      (some { block_ := g.block_ }))).handle l = some { block_ := g.block_ } := by
    simp [handle_mk, List.getElem?_set_self, hll]
  have hw1r : (World.mk w.heap w.objs ((w.hs.set r (some { block_ := a.block_ })).set l
      (some { block_ := g.block_ }))).handle r = some { block_ := a.block_ } := by
    by_cases e : l = r
    · have := hself e
      subst e; subst this
      simp [handle_mk, List.getElem?_set_self, hll]
    · simp [handle_mk, List.getElem?_set_ne e, List.getElem?_set_self hrl]
  have hback : ((((w.hs.set r (some { block_ := a.block_ })).set l
      (some { block_ := g.block_ })).set r (some { block_ := g.block_ })).set l
      (some { block_ := a.block_ })) = w.hs := by
    apply List.ext_getElem?
    intro i
    simp only [List.getElem?_set, List.length_set]
    by_cases hil : l = i
    · subst hil; simp [hll, h1]
    · by_cases hir : r = i
      · subst hir; simp [hil, hrl, h2]
      · simp [hil, hir]
  refine ⟨World.mk w.heap w.objs ((w.hs.set r (some { block_ := a.block_ })).set l
      (some { block_ := g.block_ })), ?_, rfl, rfl, hw1l, hw1r, ?_, ?_, ?_, ?_, swap_eq a g⟩
  · simp [step, hl, hr, swap_eq]
  · intro h hne1 hne2
    simp only [handle_mk, World.handle]
    rw [List.getElem?_set_ne (fun e => hne1 e.symm), List.getElem?_set_ne (fun e => hne2 e.symm)]
  · simp only [step, hw1l, hw1r, swap_eq]
    simp only [hback]
  · intro he
    have ea : ({ block_ := a.block_ } : guard_ptr) = g := by cases g; cases a; simp_all
    have eg : ({ block_ := g.block_ } : guard_ptr) = a := by cases g; cases a; simp_all
    rw [ea, eg]
    cases w
    simp at h1 h2 ⊢
    rw [set_same _ _ _ h2, set_same _ _ _ h1]
  · intro e
    have := hself e
    subst e; subst this
    cases w
    simp at h1 ⊢
    exact set_same _ _ _ h1

theorem swap_exchanges_witness :
    ∃ w1, step moveW (.swap 0 1) = some w1 ∧ w1.heap = moveW.heap ∧ w1.objs = moveW.objs ∧
      w1.handle 0 = some { block_ := (guard_ptr.mk (some 0)).block_ } ∧
      w1.handle 1 = some { block_ := (guard_ptr.mk none).block_ } ∧
      (∀ h, h ≠ 0 → h ≠ 1 → w1.handle h = moveW.handle h) ∧
      step w1 (.swap 0 1) = some moveW ∧
      ((guard_ptr.mk (some 0)).block_ = (guard_ptr.mk none).block_ → w1 = moveW) ∧
      (0 = 1 → w1 = moveW) ∧
      guard_ptr.swap { block_ := none } { block_ := some 0 }
        = ({ block_ := (guard_ptr.mk (some 0)).block_ },
           { block_ := (guard_ptr.mk none).block_ }) :=
  swap_exchanges moveW 0 1 { block_ := none } { block_ := some 0 } rfl rfl

/-! ## The contract of `release()` (C14) -/

theorem releases_down (n : Nat) (hp : Heap) (b : Nat) (blk : guard_block)
    (hb : hp.live b = some blk) (hn : blk.ref_ = n + 1) (hlt : n + 1 < UINT_MOD) :
    ∃ hp2, releases hp b (n + 1) = some (List.replicate n true ++ [false], hp2) ∧
      hp2[b]? = some { ptr_ := blk.ptr_, ref_ := 0, deleted := true } := by
  induction n generalizing hp blk with
  | zero =>
    obtain ⟨h1, h2⟩ := live_eq_some.mp hb
    have hl : b < hp.length := (List.getElem?_eq_some_iff.mp h1).1
    have e : (1 + UINT_MOD - 1) % UINT_MOD = 0 := by decide
    refine ⟨hp.set b { ptr_ := blk.ptr_, ref_ := 0, deleted := true }, ?_,
      List.getElem?_set_self hl⟩
    simp only [releases, guard_block.release, hb, hn]
    simp [e]
  | succ n ih =>
    obtain ⟨h1, h2⟩ := live_eq_some.mp hb
    have hl : b < hp.length := (List.getElem?_eq_some_iff.mp h1).1
    have e : (n + 1 + 1 + UINT_MOD - 1) % UINT_MOD = n + 1 := by
      unfold UINT_MOD at *; omega
    have hne : ¬ (n + 1 + 1 = 1) := by omega
    have hb1 : Heap.live (hp.set b (guard_block.mk blk.ptr_ (n + 1) blk.deleted)) b
        = some (guard_block.mk blk.ptr_ (n + 1) blk.deleted) := by
      apply live_eq_some.mpr
      exact ⟨List.getElem?_set_self hl, h2⟩
    obtain ⟨hp2, h3, h4⟩ := ih _ _ hb1 rfl (by omega)
    refine ⟨hp2, ?_, h4⟩
    rw [releases]
    simp only [guard_block.release, hb, hn, hne, if_false, e, h3]
    rfl

/-- C14: for a block with count `c`, `release()` stores `(c - 1) mod 2^32` (pointee address
kept), returns `false` iff `c = 1`, and deletes the block iff `c = 1`.  Of `n` successive
releases of a block whose count is `n >= 1`, the first `n - 1` return `true` and the last
returns `false` and deletes the block. -/
theorem release_contract (hp : Heap) (b : Nat) (blk : guard_block)
    (hb : hp.live b = some blk) :
    (∃ blk1, guard_block.release hp b = some (!decide (blk.ref_ = 1), hp.set b blk1) ∧
      blk1.ptr_ = blk.ptr_ ∧ blk1.ref_ = (blk.ref_ + UINT_MOD - 1) % UINT_MOD ∧
      (blk.ref_ < UINT_MOD →
        (blk1.ref_ : Int) = ((blk.ref_ : Int) - 1) % (4294967296 : Int)) ∧
      (blk1.deleted = true ↔ blk.ref_ = 1)) ∧
    (∀ n, blk.ref_ = n → 1 ≤ n → n < UINT_MOD →
      ∃ hp2, releases hp b n = some (List.replicate (n - 1) true ++ [false], hp2) ∧
        hp2[b]? = some { ptr_ := blk.ptr_, ref_ := 0, deleted := true }) := by
  obtain ⟨h1, h2⟩ := live_eq_some.mp hb
  constructor
  · refine ⟨{ ptr_ := blk.ptr_, ref_ := (blk.ref_ + UINT_MOD - 1) % UINT_MOD,
              deleted := decide (blk.ref_ = 1) }, ?_, rfl, rfl, ?_, ?_⟩
    · exact release_eq_some.mpr ⟨blk, h1, h2, rfl, rfl⟩
    · intro hlt
      simp only
      unfold UINT_MOD at *
      omega
    · simp
  · intro n hn h1n hlt
    obtain ⟨m, rfl⟩ : ∃ m, n = m + 1 := ⟨n - 1, by omega⟩
    simpa using releases_down m hp b blk hb hn hlt

theorem release_contract_witness :
    (∃ blk1, guard_block.release demoW.heap 0
        = some (!decide ((guard_block.mk (some 0) 3 false).ref_ = 1), demoW.heap.set 0 blk1) ∧
      blk1.ptr_ = (guard_block.mk (some 0) 3 false).ptr_ ∧
      blk1.ref_ = ((guard_block.mk (some 0) 3 false).ref_ + UINT_MOD - 1) % UINT_MOD ∧
      ((guard_block.mk (some 0) 3 false).ref_ < UINT_MOD →
        (blk1.ref_ : Int)
          = (((guard_block.mk (some 0) 3 false).ref_ : Nat) - 1 : Int) % (4294967296 : Int)) ∧
      (blk1.deleted = true ↔ (guard_block.mk (some 0) 3 false).ref_ = 1)) ∧
    (∀ n, (guard_block.mk (some 0) 3 false).ref_ = n → 1 ≤ n → n < UINT_MOD →
      ∃ hp2, releases demoW.heap 0 n = some (List.replicate (n - 1) true ++ [false], hp2) ∧
        hp2[0]? = some { ptr_ := (guard_block.mk (some 0) 3 false).ptr_, ref_ := 0,
                         deleted := true }) :=
  release_contract demoW.heap 0 { ptr_ := some 0, ref_ := 3, deleted := false } rfl

/-! ## A handle from a pointer, and `clear()` (C13, C15) -/

theorem bigW_step_ptr (n : Nat) : step (bigW n) (.ctor_ptr (some 0)) = some (bigW (n + 1)) := by
  simp only [step, bigW_obj, support_guard_ptr.getAndRef, support_guard_ptr.internalGetAndRef,
    guard_block.acquire, bigW_live]
  have e : ((n + 2) % UINT_MOD + 1) % UINT_MOD = (n + 1 + 2) % UINT_MOD := by
    unfold UINT_MOD; omega
  simp only [bigW, e, List.set_cons_zero, ← List.replicate_succ']

theorem bigW_handle_end (n : Nat) : (bigW n).handle n = some { block_ := some 0 } := by
  simp only [bigW, handle_mk]
  rw [List.getElem?_replicate_of_lt (by omega)]

/-- C13 as stated fails: with 4294967294 handles bound to the block of a living pointee
`refCount()` is 4294967295, and one more handle constructed from the pointer makes it 0,
not one greater. -/
theorem bind_from_pointer_counterexample :
    Reachable (bigW 4294967293) ∧
    guard_ptr.refCount { block_ := some 0 } (bigW 4294967293).heap = some 4294967295 ∧
    step (bigW 4294967293) (.ctor_ptr (some 0)) = some (bigW 4294967294) ∧
    (bigW 4294967294).handle 4294967294 = some { block_ := some 0 } ∧
    guard_ptr.refCount { block_ := some 0 } (bigW 4294967294).heap = some 0 :=
  ⟨bigW_reachable _, bigW_refCount _, bigW_step_ptr _, bigW_handle_end _, bigW_refCount _⟩

/-- C13, amended: a handle constructed from the pointer of a living pointee whose base holds
no block creates one block, with the address of the pointee and count 2 whatever count is
passed to the block constructor, stores it in the base and binds the handle to it; when the
base holds a block the handle is bound to that block, whose count becomes
`(count + 1) mod 2^32` (one greater when `count + 1 < 2^32`), and no block is created; a
handle constructed from a null pointer is empty and changes no block and no pointee. -/
theorem bind_from_pointer (w : World) (p : Nat) (o : Pointee) (ho : w.obj p = some o) :
    (o.base.block_ = none →
      (∀ r : Nat, guard_block.create (some p) r
        = { ptr_ := some p, ref_ := 2, deleted := false }) ∧
      support_guard_ptr.getAndRef w.heap p o.base
        = some (w.heap.length, { block_ := some w.heap.length },
            w.heap ++ [{ ptr_ := some p, ref_ := 2, deleted := false }]) ∧
      step w (.ctor_ptr (some p))
        = some (World.mk (w.heap ++ [{ ptr_ := some p, ref_ := 2, deleted := false }])
            (w.objs.set p { base := { block_ := some w.heap.length }, destroyed := false })
            (w.hs ++ [some { block_ := some w.heap.length }]))) ∧
    (∀ (b : Nat) (blk : guard_block), o.base.block_ = some b → w.heap.live b = some blk →
      support_guard_ptr.getAndRef w.heap p o.base
        = some (b, o.base,
            w.heap.set b (guard_block.mk blk.ptr_ ((blk.ref_ + 1) % UINT_MOD) blk.deleted)) ∧
      step w (.ctor_ptr (some p))
        = some (World.mk
            (w.heap.set b (guard_block.mk blk.ptr_ ((blk.ref_ + 1) % UINT_MOD) blk.deleted))
            w.objs (w.hs ++ [some { block_ := some b }])) ∧
      (blk.ref_ + 1 < UINT_MOD → (blk.ref_ + 1) % UINT_MOD = blk.ref_ + 1)) ∧
    step w (.ctor_ptr none) = some (World.mk w.heap w.objs (w.hs ++ [some { block_ := none }])) ∧
    guard_ptr.isAlive { block_ := none } w.heap = some false := by
  obtain ⟨ho1, ho2⟩ := obj_eq_some.mp ho
  refine ⟨?_, ?_, rfl, rfl⟩
  · intro hb
    refine ⟨fun _ => rfl, ?_, ?_⟩
    · simp [support_guard_ptr.getAndRef, support_guard_ptr.internalGetAndRef, hb,
        compare_exchange_strong, guard_block.create]
    · simp only [step, ho, support_guard_ptr.getAndRef, support_guard_ptr.internalGetAndRef, hb]
      simp [compare_exchange_strong, guard_block.create, ho2]
  · intro b blk hb hl
    have hg : support_guard_ptr.getAndRef w.heap p o.base
        = some (b, o.base,
            w.heap.set b (guard_block.mk blk.ptr_ ((blk.ref_ + 1) % UINT_MOD) blk.deleted)) := by
      simp only [support_guard_ptr.getAndRef, support_guard_ptr.internalGetAndRef, hb,
        guard_block.acquire, hl]
    refine ⟨hg, ?_, fun h => Nat.mod_eq_of_lt h⟩
    simp only [step, ho, hg]
    have e : w.objs.set p { base := o.base, destroyed := o.destroyed } = w.objs :=
      set_same _ _ _ ho1
    simp only [e]

theorem bind_from_pointer_witness :
    ((Pointee.mk { block_ := none } false).base.block_ = none →
      (∀ r : Nat, guard_block.create (some 0) r
        = { ptr_ := some 0, ref_ := 2, deleted := false }) ∧
      support_guard_ptr.getAndRef freshW.heap 0 (Pointee.mk { block_ := none } false).base
        = some (freshW.heap.length, { block_ := some freshW.heap.length },
            freshW.heap ++ [{ ptr_ := some 0, ref_ := 2, deleted := false }]) ∧
      step freshW (.ctor_ptr (some 0))
        = some (World.mk (freshW.heap ++ [{ ptr_ := some 0, ref_ := 2, deleted := false }])
            (freshW.objs.set 0
              { base := { block_ := some freshW.heap.length }, destroyed := false })
            (freshW.hs ++ [some { block_ := some freshW.heap.length }]))) ∧
    (∀ (b : Nat) (blk : guard_block),
      (Pointee.mk { block_ := none } false).base.block_ = some b →
      freshW.heap.live b = some blk →
      support_guard_ptr.getAndRef freshW.heap 0 (Pointee.mk { block_ := none } false).base
        = some (b, (Pointee.mk { block_ := none } false).base,
            freshW.heap.set b (guard_block.mk blk.ptr_ ((blk.ref_ + 1) % UINT_MOD) blk.deleted)) ∧
      step freshW (.ctor_ptr (some 0))
        = some (World.mk
            (freshW.heap.set b (guard_block.mk blk.ptr_ ((blk.ref_ + 1) % UINT_MOD) blk.deleted))
            freshW.objs (freshW.hs ++ [some { block_ := some b }])) ∧
      (blk.ref_ + 1 < UINT_MOD → (blk.ref_ + 1) % UINT_MOD = blk.ref_ + 1)) ∧
    step freshW (.ctor_ptr none)
      = some (World.mk freshW.heap freshW.objs (freshW.hs ++ [some { block_ := none }])) ∧
    guard_ptr.isAlive { block_ := none } freshW.heap = some false :=
  bind_from_pointer freshW 0 { base := { block_ := none }, destroyed := false } rfl

theorem bigW_step_unbind (n : Nat) (hn : (n + 2) % UINT_MOD ≠ 1) (h1 : 1 ≤ n) :
    step (bigW n) (.clear 1) = some (unboundW n) := by
  simp only [step, bigW_handle_one n h1, clear_eq, rel, guard_block.release, bigW_live]
  have hn1 : ¬ (n + 2) % UINT_MOD = 1 := hn
  have e : ((n + 2) % UINT_MOD + UINT_MOD - 1) % UINT_MOD = (n + 1) % UINT_MOD := by
    unfold UINT_MOD; omega
  simp only [hn1, if_false, e]
  simp only [bigW, unboundW, List.set_cons_zero]

theorem unboundW_handle (n : Nat) (h1 : 1 ≤ n) :
    (unboundW n).handle 1 = some { block_ := none } := by
  simp only [unboundW, handle_mk]
  rw [List.getElem?_set_self (by rw [List.length_replicate]; omega)]

theorem unboundW_refCount (n : Nat) :
    guard_ptr.refCount { block_ := some 0 } (unboundW n).heap = some ((n + 1) % UINT_MOD) := by
  simp [guard_ptr.refCount, unboundW, Heap.live]

/-- C15 as stated fails: with 4294967295 handles bound to the block of a living pointee the
count is 0, and `clear()` on one of them makes it 4294967295: it is not lowered by 1. -/
theorem clear_handle_counterexample :
    Reachable (bigW 4294967294) ∧
    (bigW 4294967294).handle 1 = some { block_ := some 0 } ∧
    guard_ptr.refCount { block_ := some 0 } (bigW 4294967294).heap = some 0 ∧
    step (bigW 4294967294) (.clear 1) = some (unboundW 4294967294) ∧
    (unboundW 4294967294).handle 1 = some { block_ := none } ∧
    guard_ptr.refCount { block_ := some 0 } (unboundW 4294967294).heap = some 4294967295 :=
  ⟨bigW_reachable _, bigW_handle_one _ (by decide), bigW_refCount _,
    bigW_step_unbind _ (by decide) (by decide), unboundW_handle _ (by decide),
    unboundW_refCount _⟩

/-- C15, amended: `clear()` on a handle bound to a block with count `c` stores
`(c - 1) mod 2^32` in the block (one less when `c >= 1`), deletes the block iff `c = 1`,
and leaves the handle empty; no other block, no other handle and no pointee changes.
On an empty handle `clear()` changes nothing.  An empty handle is not alive and its
`refCount()` is 0. -/
theorem clear_handle (w : World) (h : Nat) (g : guard_ptr) (hg : w.handle h = some g) :
    (∀ (b : Nat) (blk : guard_block), g.block_ = some b → w.heap.live b = some blk →
      step w (.clear h)
        = some (World.mk
            (w.heap.set b (guard_block.mk blk.ptr_ ((blk.ref_ + UINT_MOD - 1) % UINT_MOD) (decide (blk.ref_ = 1))))
            w.objs (w.hs.set h (some { block_ := none }))) ∧
      (1 ≤ blk.ref_ → blk.ref_ < UINT_MOD →
        (blk.ref_ + UINT_MOD - 1) % UINT_MOD = blk.ref_ - 1)) ∧
    (g.block_ = none → step w (.clear h) = some w) ∧
    (∀ hp : Heap, guard_ptr.isAlive { block_ := none } hp = some false ∧
      guard_ptr.refCount { block_ := none } hp = some 0) := by
  refine ⟨?_, ?_, fun hp => ⟨rfl, rfl⟩⟩
  · intro b blk hb hl
    obtain ⟨h1, h2⟩ := live_eq_some.mp hl
    have hr : rel w.heap g.block_ = some
        (w.heap.set b (guard_block.mk blk.ptr_ ((blk.ref_ + UINT_MOD - 1) % UINT_MOD) (decide (blk.ref_ = 1)))) := by
      rw [hb]
      exact rel_eq_some.mpr ⟨blk, h1, h2, rfl⟩
    refine ⟨?_, ?_⟩
    · simp only [step, hg, clear_eq, hr]
    · intro h3 h4
      unfold UINT_MOD at *
      omega
  · intro hb
    have hc : guard_ptr.clear g w.heap = some ({ block_ := none }, w.heap) := by
      rw [clear_eq, hb]; rfl
    simp only [step, hg, hc]
    have e : w.hs.set h (some { block_ := none }) = w.hs := by
      apply set_same
      have := handle_eq_some.mp hg
      rw [this]
      cases g
      simp at hb
      simp [hb]
    rw [e]

theorem clear_handle_witness :
    (∀ (b : Nat) (blk : guard_block), (guard_ptr.mk (some 0)).block_ = some b →
      demoW.heap.live b = some blk →
      step demoW (.clear 0)
        = some (World.mk
            (demoW.heap.set b (guard_block.mk blk.ptr_ ((blk.ref_ + UINT_MOD - 1) % UINT_MOD) (decide (blk.ref_ = 1))))
            demoW.objs (demoW.hs.set 0 (some { block_ := none }))) ∧
      (1 ≤ blk.ref_ → blk.ref_ < UINT_MOD →
        (blk.ref_ + UINT_MOD - 1) % UINT_MOD = blk.ref_ - 1)) ∧
    ((guard_ptr.mk (some 0)).block_ = none → step demoW (.clear 0) = some demoW) ∧
    (∀ hp : Heap, guard_ptr.isAlive { block_ := none } hp = some false ∧
      guard_ptr.refCount { block_ := none } hp = some 0) :=
  clear_handle demoW 0 { block_ := some 0 } rfl

/-! ## The pointee address of a block (C16) -/

theorem step_ptr_keep {w w1 : World} {op : Op} (h : step w op = some w1)
    (hop : op.isDelete = false) {c : Nat} {blk : guard_block} (hc : w.heap[c]? = some blk) :
    ∃ blk1, w1.heap[c]? = some blk1 ∧ blk1.ptr_ = blk.ptr_ := by
  cases op with
  | new_obj => rw [step_new_obj h]; exact ⟨blk, hc, rfl⟩
  | ctor => rw [step_ctor h]; exact ⟨blk, hc, rfl⟩
  | delete_obj p => simp [Op.isDelete] at hop
  | ctor_ptr ptr =>
    cases ptr with
    | none => rw [step_ctor_null h]; exact ⟨blk, hc, rfl⟩
    | some p =>
      obtain ⟨o, ho, ⟨hb, e⟩ | ⟨b, hp1, hb, ha, e⟩⟩ := step_ctor_ptr h
      · subst e
        refine ⟨blk, ?_, rfl⟩
        simp only
        rw [List.getElem?_append_left (List.getElem?_eq_some_iff.mp hc).1]
        exact hc
      · subst e
        obtain ⟨blk1, h1, h2, _⟩ := acq_block ha hc
        exact ⟨blk1, h1, h2⟩
  | ctor_copy r =>
    obtain ⟨g, hp1, hg, ha, e⟩ := step_ctor_copy h
    subst e
    obtain ⟨blk1, h1, h2, _⟩ := acq_block ha hc
    exact ⟨blk1, h1, h2⟩
  | ctor_move r =>
    obtain ⟨g, hg, e⟩ := step_ctor_move h
    subst e
    exact ⟨blk, hc, rfl⟩
  | swap l r =>
    obtain ⟨a, g, ha, hg, e⟩ := step_swap h
    subst e
    exact ⟨blk, hc, rfl⟩
  | clear x =>
    obtain ⟨g, hp1, hg, h1, e⟩ := step_clear h
    subst e
    obtain ⟨blk1, h2, h3, _⟩ := rel_block h1 hc
    exact ⟨blk1, h2, h3⟩
  | dtor x =>
    obtain ⟨g, hp1, hg, h1, e⟩ := step_dtor h
    subst e
    obtain ⟨blk1, h2, h3, _⟩ := rel_block h1 hc
    exact ⟨blk1, h2, h3⟩
  | assign l r =>
    obtain ⟨a, g, ha, hg, h1 | ⟨hne, hp1, hp2, h1, h2, e⟩⟩ := step_assign h
    · rw [h1.2]; exact ⟨blk, hc, rfl⟩
    · subst e
      obtain ⟨blk1, e1, e2, _⟩ := acq_block h1 hc
      obtain ⟨blk2, f1, f2, _⟩ := rel_block h2 e1
      exact ⟨blk2, f1, f2.trans e2⟩
  | assign_move l r =>
    obtain ⟨a, g, ha, hg, h1 | ⟨hne, hp1, h1, e⟩⟩ := step_assign_move h
    · rw [h1.2]; exact ⟨blk, hc, rfl⟩
    · subst e
      obtain ⟨blk1, h2, h3, _⟩ := rel_block h1 hc
      exact ⟨blk1, h2, h3⟩

theorem step_delete_ptr {w w1 : World} (hi : Inv w) {q : Nat}
    (h : step w (.delete_obj q) = some w1) {c : Nat} {blk : guard_block} {p : Nat}
    (hc : w.heap[c]? = some blk) (hp : blk.ptr_ = some p) :
    ∃ blk1, w1.heap[c]? = some blk1 ∧ (q ≠ p → blk1.ptr_ = some p) ∧
      (q = p → blk1.ptr_ = none) := by
  obtain ⟨o1, ho1, hb1⟩ := hi.ptr_alive c blk p hc hp
  obtain ⟨o, ho, ⟨hb, e⟩ | ⟨b, blk2, hb, hblk, hdel, e⟩⟩ := step_delete_obj h
  · subst e
    refine ⟨blk, hc, fun _ => hp, ?_⟩
    intro hq
    subst hq
    rw [ho1] at ho
    simp at ho
    subst ho
    rw [hb1] at hb
    simp at hb
  · subst e
    have hq := hi.alive_ptr q o b blk2 ho hb hblk
    by_cases hbc : b = c
    · subst hbc
      rw [hc] at hblk
      simp at hblk
      subst hblk
      rw [hp] at hq
      simp at hq
      refine ⟨_, List.getElem?_set_self (List.getElem?_eq_some_iff.mp hc).1, ?_, fun _ => rfl⟩
      intro hne
      exact absurd hq.symm hne
    · refine ⟨blk, by simp only; rw [List.getElem?_set_ne hbc]; exact hc, fun _ => hp, ?_⟩
      intro hqp
      subst hqp
      rw [ho1] at ho
      simp at ho
      subst ho
      rw [hb1] at hb
      simp at hb
      exact absurd hb.symm hbc

theorem run_ptr_mono {ops : List Op} {w w1 : World} (h : run w ops = some w1) {c : Nat}
    {blk : guard_block} (hc : w.heap[c]? = some blk) :
    ∃ blk1, w1.heap[c]? = some blk1 ∧ (blk1.ptr_ = blk.ptr_ ∨ blk1.ptr_ = none) := by
  induction ops generalizing w blk with
  | nil => simp [run] at h; subst h; exact ⟨blk, hc, Or.inl rfl⟩
  | cons op ops ih =>
    simp only [run] at h
    cases hs : step w op with
    | none => simp [hs] at h
    | some w2 =>
      simp only [hs] at h
      obtain ⟨blk2, h1, h2⟩ := step_heap hs hc
      obtain ⟨blk3, h3, h4⟩ := ih h h1
      refine ⟨blk3, h3, ?_⟩
      rcases h4 with h4 | h4
      · rcases h2.1 with h5 | h5
        · left; rw [h4, h5]
        · right; rw [h4, h5]
      · right; exact h4

theorem isAlive_of_live {g : guard_ptr} {hp : Heap} {b : Nat} {blk : guard_block}
    (hb : g.block_ = some b) (hl : hp.live b = some blk) :
    guard_ptr.isAlive g hp = some blk.ptr_.isSome := by
  cases hpt : blk.ptr_ <;>
    simp [guard_ptr.isAlive, guard_ptr.isNull, guard_block.data, hb, hl, hpt]

theorem handle_set_ne {w : World} (hp1 : Heap) {h1 h2 : Nat} (hne : h1 ≠ h2)
    (v : Option guard_ptr) :
    (World.mk hp1 w.objs (w.hs.set h1 v)).handle h2 = w.handle h2 := by
  simp only [World.handle]
  rw [List.getElem?_set_ne hne]

theorem release_other {w : World} (hr : Reachable w) {h1 h2 : Nat} {g2 : guard_ptr}
    {c : Nat} {v : Option guard_ptr} {hp1 : Heap} {g1 : guard_ptr}
    (hne : h1 ≠ h2) (hg1 : w.handle h1 = some g1) (hg2 : w.handle h2 = some g2)
    (hb : g2.block_ = some c) (hlt : owners w c < UINT_MOD) (hv : hslot v = none)
    (hrel : rel w.heap g1.block_ = some hp1)
    (hs : Reachable (World.mk hp1 w.objs (w.hs.set h1 v))) :
    (World.mk hp1 w.objs (w.hs.set h1 v)).handle h2 = some g2 ∧
      guard_ptr.isAlive g2 hp1 = guard_ptr.isAlive g2 w.heap := by
  have e2 : (World.mk hp1 w.objs (w.hs.set h1 v)).handle h2 = some g2 := by
    rw [handle_set_ne hp1 hne v]; exact hg2
  refine ⟨e2, ?_⟩
  have hi := Inv.of_reachable hr
  have hi1 := Inv.of_reachable hs
  obtain ⟨blk, hl, _⟩ := hi.live_of_handle hg2 hb hlt
  have ho := owners_hs_set hp1 w h1 (some g1) v c (handle_eq_some.mp hg1)
  rw [hv] at ho
  simp at ho
  have hlt1 : owners (World.mk hp1 w.objs (w.hs.set h1 v)) c < UINT_MOD := by omega
  obtain ⟨blk1, hl1, _⟩ := hi1.live_of_handle e2 hb hlt1
  obtain ⟨blk2, f1, f2, _⟩ := rel_block hrel (live_eq_some.mp hl).1
  have : blk2 = blk1 := by
    have := (live_eq_some.mp hl1).1
    simp only at this
    rw [f1] at this
    simpa using this
  subst this
  have a1 : guard_ptr.isAlive g2 hp1 = some blk2.ptr_.isSome := isAlive_of_live hb hl1
  rw [a1, isAlive_of_live hb hl, f2]

/-- C16 as stated fails: with 4294967296 handles bound to the block of a living pointee the
count is 1, so destroying handle 1 deletes the block; `isAlive()` of handle 0 was `true`
before and reads the deleted block afterwards (no defined result). -/
theorem pointee_field_counterexample :
    Reachable (bigW 4294967295) ∧
    (bigW 4294967295).handle 0 = some { block_ := some 0 } ∧
    guard_ptr.isAlive { block_ := some 0 } (bigW 4294967295).heap = some true ∧
    step (bigW 4294967295) (.dtor 1) = some (danglingW 4294967295) ∧
    (danglingW 4294967295).handle 0 = some { block_ := some 0 } ∧
    guard_ptr.isAlive { block_ := some 0 } (danglingW 4294967295).heap = none :=
  ⟨bigW_reachable _, bigW_handle _, isAlive_of_live rfl (bigW_live _),
    bigW_step_dtor _ (by decide) (by decide), danglingW_handle _, by decide⟩

/-- C16, amended: along every run the pointee address stored in a block stays what it is
or becomes null, and once null it stays null; the block constructor stores the address it
is given; no operation other than `delete` of a pointee changes the stored address of any
block, and `delete` of pointee `q` nulls exactly the address of the block that stores `q`.
Destroying or clearing handle `h1` leaves `isAlive()` of another handle `h2` unchanged
when the block of `h2` has fewer than 2^32 owners. -/
theorem pointee_field (w : World) (hr : Reachable w) (c : Nat) (blk : guard_block)
    (hc : w.heap[c]? = some blk) :
    (∀ (ops : List Op) (w2 : World), run w ops = some w2 →
      ∃ blk2, w2.heap[c]? = some blk2 ∧ (blk2.ptr_ = blk.ptr_ ∨ blk2.ptr_ = none) ∧
        (blk.ptr_ = none → blk2.ptr_ = none)) ∧
    (∀ (ptr : Option Nat) (r : Nat), (guard_block.create ptr r).ptr_ = ptr) ∧
    (∀ (op : Op) (w1 : World), step w op = some w1 →
      ∃ blk1, w1.heap[c]? = some blk1 ∧
        (op.isDelete = false → blk1.ptr_ = blk.ptr_) ∧
        (∀ p q : Nat, blk.ptr_ = some p → op = .delete_obj q →
          (q ≠ p → blk1.ptr_ = some p) ∧ (q = p → blk1.ptr_ = none))) ∧
    (∀ (h1 h2 : Nat) (g2 : guard_ptr) (op : Op) (w1 : World), h1 ≠ h2 →
      w.handle h2 = some g2 → g2.block_ = some c → owners w c < UINT_MOD →
      op = .dtor h1 ∨ op = .clear h1 → step w op = some w1 →
      w1.handle h2 = some g2 ∧
        guard_ptr.isAlive g2 w1.heap = guard_ptr.isAlive g2 w.heap) := by
  have hi := Inv.of_reachable hr
  refine ⟨?_, fun _ _ => rfl, ?_, ?_⟩
  · intro ops w2 hrun
    obtain ⟨blk2, h1, h2⟩ := run_ptr_mono hrun hc
    refine ⟨blk2, h1, h2, ?_⟩
    intro hn
    obtain ⟨blk3, h3, h4⟩ := run_ptr_none hrun hc hn
    rw [h1] at h3
    simp at h3
    subst h3
    exact h4
  · intro op w1 hs
    obtain ⟨blk1, h1, h2⟩ := step_heap hs hc
    refine ⟨blk1, h1, ?_, ?_⟩
    · intro hop
      obtain ⟨blk2, h3, h4⟩ := step_ptr_keep hs hop hc
      rw [h1] at h3
      simp at h3
      subst h3
      exact h4
    · intro p q hp hop
      subst hop
      obtain ⟨blk2, h3, h4⟩ := step_delete_ptr hi hs hc hp
      rw [h1] at h3
      simp at h3
      subst h3
      exact h4
  · intro h1 h2 g2 op w1 hne hg2 hb hlt hop hs
    have hr1 : Reachable w1 := Reachable.step op hr hs
    rcases hop with hop | hop
    · subst hop
      obtain ⟨g1, hp1, hg1, hrel, e⟩ := step_dtor hs
      subst e
      exact release_other hr hne hg1 hg2 hb hlt rfl hrel hr1
    · subst hop
      obtain ⟨g1, hp1, hg1, hrel, e⟩ := step_clear hs
      subst e
      exact release_other hr hne hg1 hg2 hb hlt rfl hrel hr1

theorem pointee_field_witness :
    (∀ (ops : List Op) (w2 : World), run demoW ops = some w2 →
      ∃ blk2, w2.heap[0]? = some blk2 ∧
        (blk2.ptr_ = (guard_block.mk (some 0) 3 false).ptr_ ∨ blk2.ptr_ = none) ∧
        ((guard_block.mk (some 0) 3 false).ptr_ = none → blk2.ptr_ = none)) ∧
    (∀ (ptr : Option Nat) (r : Nat), (guard_block.create ptr r).ptr_ = ptr) ∧
    (∀ (op : Op) (w1 : World), step demoW op = some w1 →
      ∃ blk1, w1.heap[0]? = some blk1 ∧
        (op.isDelete = false → blk1.ptr_ = (guard_block.mk (some 0) 3 false).ptr_) ∧
        (∀ p q : Nat, (guard_block.mk (some 0) 3 false).ptr_ = some p → op = .delete_obj q →
          (q ≠ p → blk1.ptr_ = some p) ∧ (q = p → blk1.ptr_ = none))) ∧
    (∀ (h1 h2 : Nat) (g2 : guard_ptr) (op : Op) (w1 : World), h1 ≠ h2 →
      demoW.handle h2 = some g2 → g2.block_ = some 0 → owners demoW 0 < UINT_MOD →
      op = .dtor h1 ∨ op = .clear h1 → step demoW op = some w1 →
      w1.handle h2 = some g2 ∧
        guard_ptr.isAlive g2 w1.heap = guard_ptr.isAlive g2 demoW.heap) :=
  pointee_field demoW demoW_reachable 0 { ptr_ := some 0, ref_ := 3, deleted := false } rfl

/-! ## The block held by the base of a living pointee, and `data()` (C17, C20) -/

theorem step_obj_keep {w w1 : World} {op : Op} (h : step w op = some w1) {p : Nat}
    {o : Pointee} (ho : w.objs[p]? = some o) :
    ∃ o1, w1.objs[p]? = some o1 ∧ (o.destroyed = true → o1.destroyed = true) ∧
      (o1.destroyed = false → ∀ b, o.base.block_ = some b → o1.base.block_ = some b) := by
  have same : w1.objs = w.objs → ∃ o1, w1.objs[p]? = some o1 ∧
      (o.destroyed = true → o1.destroyed = true) ∧
      (o1.destroyed = false → ∀ b, o.base.block_ = some b → o1.base.block_ = some b) := by
    intro e
    rw [e]
    exact ⟨o, ho, fun x => x, fun _ _ x => x⟩
  have hlt : p < w.objs.length := (List.getElem?_eq_some_iff.mp ho).1
  cases op with
  | new_obj =>
    rw [step_new_obj h]
    refine ⟨o, ?_, fun x => x, fun _ _ x => x⟩
    simp only
    rw [List.getElem?_append_left hlt]
    exact ho
  | ctor => exact same (by rw [step_ctor h])
  | delete_obj q =>
    obtain ⟨o2, ho2, ⟨hb, e⟩ | ⟨b, blk2, hb, hblk, hdel, e⟩⟩ := step_delete_obj h
    · subst e
      by_cases hq : q = p
      · subst hq
        refine ⟨_, List.getElem?_set_self hlt, fun _ => rfl, ?_⟩
        intro hd
        simp at hd
      · refine ⟨o, ?_, fun x => x, fun _ _ x => x⟩
        simp only
        rw [List.getElem?_set_ne hq]
        exact ho
    · subst e
      by_cases hq : q = p
      · subst hq
        refine ⟨_, List.getElem?_set_self hlt, fun _ => rfl, ?_⟩
        intro hd
        simp at hd
      · refine ⟨o, ?_, fun x => x, fun _ _ x => x⟩
        simp only
        rw [List.getElem?_set_ne hq]
        exact ho
  | ctor_ptr ptr =>
    cases ptr with
    | none => exact same (by rw [step_ctor_null h])
    | some q =>
      obtain ⟨o2, ho2, ⟨hb, e⟩ | ⟨b, hp1, hb, ha, e⟩⟩ := step_ctor_ptr h
      · subst e
        by_cases hq : q = p
        · subst hq
          obtain ⟨e1, e2⟩ := obj_eq_some.mp ho2
          rw [ho] at e1
          simp at e1
          subst e1
          refine ⟨_, List.getElem?_set_self hlt, ?_, ?_⟩
          · intro hd; rw [e2] at hd; simp at hd
          · intro _ b hb2; rw [hb] at hb2; simp at hb2
        · refine ⟨o, ?_, fun x => x, fun _ _ x => x⟩
          simp only
          rw [List.getElem?_set_ne hq]
          exact ho
      · exact same (by rw [e])
  | ctor_copy r =>
    obtain ⟨g, hp1, hg, ha, e⟩ := step_ctor_copy h
    exact same (by rw [e])
  | ctor_move r =>
    obtain ⟨g, hg, e⟩ := step_ctor_move h
    exact same (by rw [e])
  | swap l r =>
    obtain ⟨a, g, ha, hg, e⟩ := step_swap h
    exact same (by rw [e])
  | clear x =>
    obtain ⟨g, hp1, hg, h1, e⟩ := step_clear h
    exact same (by rw [e])
  | dtor x =>
    obtain ⟨g, hp1, hg, h1, e⟩ := step_dtor h
    exact same (by rw [e])
  | assign l r =>
    obtain ⟨a, g, ha, hg, h1 | ⟨hne, hp1, hp2, h1, h2, e⟩⟩ := step_assign h
    · exact same (by rw [h1.2])
    · exact same (by rw [e])
  | assign_move l r =>
    obtain ⟨a, g, ha, hg, h1 | ⟨hne, hp1, h1, e⟩⟩ := step_assign_move h
    · exact same (by rw [h1.2])
    · exact same (by rw [e])

theorem run_obj_keep {ops : List Op} {w w2 : World} (h : run w ops = some w2) {p : Nat}
    {o : Pointee} (ho : w.objs[p]? = some o) :
    ∃ o2, w2.objs[p]? = some o2 ∧ (o.destroyed = true → o2.destroyed = true) ∧
      (o2.destroyed = false → ∀ b, o.base.block_ = some b → o2.base.block_ = some b) := by
  induction ops generalizing w o with
  | nil => simp [run] at h; subst h; exact ⟨o, ho, fun x => x, fun _ _ x => x⟩
  | cons op ops ih =>
    simp only [run] at h
    cases hs : step w op with
    | none => simp [hs] at h
    | some w1 =>
      simp only [hs] at h
      obtain ⟨o1, h1, h2, h3⟩ := step_obj_keep hs ho
      obtain ⟨o2, f1, f2, f3⟩ := ih h h1
      refine ⟨o2, f1, fun x => f2 (h2 x), ?_⟩
      intro hd b hb
      have hd1 : o1.destroyed = false := by
        cases hx : o1.destroyed with
        | false => rfl
        | true => rw [f2 hx] at hd; simp at hd
      exact f3 hd b (h3 hd1 b hb)

theorem danglingW_owners (n : Nat) (h1 : 1 ≤ n) : owners (danglingW n) 0 = n + 1 := by
  have hu : (List.replicate (n + 1) (some ({ block_ := some 0 } : guard_ptr)))[1]?
      = some (some { block_ := some 0 }) := List.getElem?_replicate_of_lt (by omega)
  have := count_set (fun s => decide (hslot s = some 0))
    (List.replicate (n + 1) (some ({ block_ := some 0 } : guard_ptr))) 1
    (some { block_ := some 0 }) none hu
  simp [List.countP_replicate, hslot] at this
  simp [owners, anchorSlots, handleSlots, danglingW, Pointee.slot, hslot]
  omega

theorem run_one {w w1 : World} {op : Op} (h : step w op = some w1) :
    run w [op] = some w1 := by
  simp only [run, h]

theorem danglingW_obj (n : Nat) :
    (danglingW n).obj 0 = some { base := { block_ := some 0 }, destroyed := false } := rfl

theorem danglingW_step_ptr (n : Nat) : step (danglingW n) (.ctor_ptr (some 0)) = none := by
  have ho := danglingW_obj n
  simp only [step, ho, support_guard_ptr.getAndRef, support_guard_ptr.internalGetAndRef,
    guard_block.acquire]
  simp [danglingW, Heap.live]

/-- C17 as stated fails: with 4294967296 handles bound to the block of a living pointee the
count is 1, so destroying handle 1 deletes the block while the base of the living pointee
still holds it (count 0); a later handle constructed from the pointer of the pointee then
applies `acquire()` to the deleted block. -/
theorem anchor_stable_counterexample :
    Reachable (bigW 4294967295) ∧
    (bigW 4294967295).obj 0 = some { base := { block_ := some 0 }, destroyed := false } ∧
    run (bigW 4294967295) [.dtor 1] = some (danglingW 4294967295) ∧
    (danglingW 4294967295).obj 0
      = some { base := { block_ := some 0 }, destroyed := false } ∧
    (danglingW 4294967295).heap[0]? = some { ptr_ := some 0, ref_ := 0, deleted := true } ∧
    owners (danglingW 4294967295) 0 = 4294967296 ∧
    (Op.ctor_ptr (some 0)).valid (danglingW 4294967295) = true ∧
    step (danglingW 4294967295) (.ctor_ptr (some 0)) = none := by
  exact ⟨bigW_reachable _, bigW_obj _, run_one (bigW_step_dtor _ (by decide) (by decide)),
    danglingW_obj _, rfl, danglingW_owners _ (by decide),
    by simp [Op.valid, danglingW_obj], danglingW_step_ptr _⟩

/-- C17, amended: in a reachable state where the base of a living pointee `p` holds block
`b`, after every sequence of operations that leaves `p` alive the base still holds `b`; the
block stores the address of `p`; a handle constructed from the pointer of `p`, when the
construction is defined, is bound to `b`; and when `b` has fewer than 2^32 owners the block
is not deleted, its count is the number of its owners and at least 1, and the construction
of a handle from the pointer of `p` is defined and acquires `b`. -/
theorem anchor_stable (w : World) (hr : Reachable w) (p : Nat) (o : Pointee) (b : Nat)
    (ho : w.obj p = some o) (hb : o.base.block_ = some b) :
    (∀ (ops : List Op) (w2 : World) (o2 : Pointee), run w ops = some w2 →
      w2.obj p = some o2 → o2.base.block_ = some b) ∧
    (∃ blk, w.heap[b]? = some blk ∧ blk.ptr_ = some p) ∧
    (∀ w1 : World, step w (.ctor_ptr (some p)) = some w1 →
      w1.handle w.hs.length = some { block_ := some b }) ∧
    (owners w b < UINT_MOD →
      ∃ blk, w.heap.live b = some blk ∧ 1 ≤ blk.ref_ ∧ blk.ref_ = owners w b ∧
        step w (.ctor_ptr (some p))
          = some (World.mk
              (w.heap.set b (guard_block.mk blk.ptr_ ((blk.ref_ + 1) % UINT_MOD) blk.deleted))
              w.objs (w.hs ++ [some { block_ := some b }]))) := by
  have hi := Inv.of_reachable hr
  obtain ⟨ho1, ho2⟩ := obj_eq_some.mp ho
  have hlt : b < w.heap.length := hi.range_o o (List.getElem?_mem ho1) b hb
  refine ⟨?_, ?_, ?_, ?_⟩
  · intro ops w2 o2 hrun ho3
    obtain ⟨o3, f1, f2, f3⟩ := run_obj_keep hrun ho1
    obtain ⟨g1, g2⟩ := obj_eq_some.mp ho3
    rw [f1] at g1
    simp at g1
    subst g1
    exact f3 g2 b hb
  · exact ⟨w.heap[b], List.getElem?_eq_getElem hlt,
      hi.alive_ptr p o b _ ho hb (List.getElem?_eq_getElem hlt)⟩
  · intro w1 hs
    obtain ⟨o2, ho3, ⟨hb2, e⟩ | ⟨b2, hp1, hb2, ha, e⟩⟩ := step_ctor_ptr hs
    · rw [ho] at ho3
      simp at ho3
      subst ho3
      rw [hb] at hb2
      simp at hb2
    · rw [ho] at ho3
      simp at ho3
      subst ho3
      rw [hb] at hb2
      simp at hb2
      subst hb2
      subst e
      simp only [handle_mk, getElem?_append_length]
  · intro hbound
    obtain ⟨blk, hl, hc⟩ := hi.live_of_obj ho hb hbound
    have h1 := anchorSlots_pos ho hb
    refine ⟨blk, hl, ?_, hc, ?_⟩
    · rw [hc]; unfold owners; omega
    · have hg : support_guard_ptr.getAndRef w.heap p o.base
          = some (b, o.base,
              w.heap.set b (guard_block.mk blk.ptr_ ((blk.ref_ + 1) % UINT_MOD) blk.deleted)) := by
        simp only [support_guard_ptr.getAndRef, support_guard_ptr.internalGetAndRef, hb,
          guard_block.acquire, hl]
      simp only [step, ho, hg]
      have e : w.objs.set p { base := o.base, destroyed := o.destroyed } = w.objs :=
        set_same _ _ _ ho1
      simp only [e]

theorem anchor_stable_witness :
    (∀ (ops : List Op) (w2 : World) (o2 : Pointee), run demoW ops = some w2 →
      w2.obj 0 = some o2 → o2.base.block_ = some 0) ∧
    (∃ blk, demoW.heap[0]? = some blk ∧ blk.ptr_ = some 0) ∧
    (∀ w1 : World, step demoW (.ctor_ptr (some 0)) = some w1 →
      w1.handle demoW.hs.length = some { block_ := some 0 }) ∧
    (owners demoW 0 < UINT_MOD →
      ∃ blk, demoW.heap.live 0 = some blk ∧ 1 ≤ blk.ref_ ∧ blk.ref_ = owners demoW 0 ∧
        step demoW (.ctor_ptr (some 0))
          = some (World.mk
              (demoW.heap.set 0
                (guard_block.mk blk.ptr_ ((blk.ref_ + 1) % UINT_MOD) blk.deleted))
              demoW.objs (demoW.hs ++ [some { block_ := some 0 }]))) :=
  anchor_stable demoW demoW_reachable 0 { base := { block_ := some 0 }, destroyed := false } 0
    rfl rfl

theorem freedW_reachable : Reachable (freedW 4294967295) :=
  Reachable.step (.delete_obj 0) (bigW_reachable 4294967295) (bigW_step_delete _ (by decide))

/-- C20 as stated fails: with 4294967296 handles bound to the block of a living pointee the
count is 1, so the destruction of the pointee deletes the block; `data()` on one of the
handles then reads the deleted block: it has no defined result, where the claim says null. -/
theorem data_access_counterexample :
    Reachable (freedW 4294967295) ∧
    (freedW 4294967295).handle 0 = some { block_ := some 0 } ∧
    (freedW 4294967295).objs = [{ base := { block_ := none }, destroyed := true }] ∧
    guard_ptr.data { block_ := some 0 } (freedW 4294967295).heap = none ∧
    guard_ptr.isAlive { block_ := some 0 } (freedW 4294967295).heap = none :=
  ⟨freedW_reachable, freedW_handle _, rfl, by decide, by decide⟩

/-- C20, amended: `operator->` and the conversion to `T*` return what `data()` returns;
`isAlive()` is defined exactly when `data()` is, and is `true` exactly when `data()` is not
null; `data()` of an empty handle is null.  In a reachable state an address returned by
`data()` is the address of a living pointee whose base holds the block of the handle, and
when the block of the handle has fewer than 2^32 owners `data()` is defined and returns
the address of the living pointee whose base holds the block, and null when there is
none. -/
theorem data_access (w : World) (hr : Reachable w) (h : Nat) (g : guard_ptr)
    (hg : w.handle h = some g) :
    (∀ hp : Heap, guard_ptr.operator_arrow g hp = guard_ptr.data g hp ∧
      guard_ptr.operator_T_ptr g hp = guard_ptr.data g hp ∧
      guard_ptr.isAlive g hp = (guard_ptr.data g hp).map Option.isSome) ∧
    (g.block_ = none → guard_ptr.data g w.heap = some none) ∧
    (∀ p : Nat, guard_ptr.data g w.heap = some (some p) →
      guard_ptr.isAlive g w.heap = some true ∧
      ∃ o, w.obj p = some o ∧ o.base.block_ = g.block_) ∧
    (∀ b : Nat, g.block_ = some b → owners w b < UINT_MOD →
      ∃ d, guard_ptr.data g w.heap = some d ∧
        guard_ptr.isAlive g w.heap = some d.isSome ∧
        (∀ p : Nat, d = some p ↔ ∃ o, w.obj p = some o ∧ o.base.block_ = some b)) := by
  have hi := Inv.of_reachable hr
  have hA : ∀ hp : Heap,
      guard_ptr.isAlive g hp = (guard_ptr.data g hp).map Option.isSome := by
    intro hp
    cases hb : g.block_ with
    | none => simp [guard_ptr.isAlive, guard_ptr.isNull, guard_ptr.data, hb]
    | some b =>
      cases hd : guard_block.data hp b with
      | none => simp [guard_ptr.isAlive, guard_ptr.isNull, guard_ptr.data, hb, hd]
      | some d =>
        cases d <;> simp [guard_ptr.isAlive, guard_ptr.isNull, guard_ptr.data, hb, hd]
  refine ⟨fun hp => ⟨rfl, rfl, hA hp⟩, ?_, ?_, ?_⟩
  · intro hb
    simp [guard_ptr.data, hb]
  · intro p hd
    refine ⟨by rw [hA, hd]; rfl, ?_⟩
    cases hb : g.block_ with
    | none => simp [guard_ptr.data, hb] at hd
    | some b =>
      simp only [guard_ptr.data, hb, guard_block.data] at hd
      cases hl : w.heap.live b with
      | none => simp [hl] at hd
      | some blk =>
        simp [hl] at hd
        exact hi.ptr_alive b blk p (live_eq_some.mp hl).1 hd
  · intro b hb hlt
    obtain ⟨blk, hl, _⟩ := hi.live_of_handle hg hb hlt
    have hd : guard_ptr.data g w.heap = some blk.ptr_ := by
      simp [guard_ptr.data, hb, guard_block.data, hl]
    refine ⟨blk.ptr_, hd, by rw [hA, hd]; rfl, ?_⟩
    intro p
    constructor
    · intro hp
      exact hi.ptr_alive b blk p (live_eq_some.mp hl).1 hp
    · rintro ⟨o, ho, hob⟩
      exact hi.alive_ptr p o b blk ho hob (live_eq_some.mp hl).1

theorem data_access_witness :
    (∀ hp : Heap, guard_ptr.operator_arrow { block_ := some 0 } hp
        = guard_ptr.data { block_ := some 0 } hp ∧
      guard_ptr.operator_T_ptr { block_ := some 0 } hp
        = guard_ptr.data { block_ := some 0 } hp ∧
      guard_ptr.isAlive { block_ := some 0 } hp
        = (guard_ptr.data { block_ := some 0 } hp).map Option.isSome) ∧
    ((guard_ptr.mk (some 0)).block_ = none →
      guard_ptr.data { block_ := some 0 } demoW.heap = some none) ∧
    (∀ p : Nat, guard_ptr.data { block_ := some 0 } demoW.heap = some (some p) →
      guard_ptr.isAlive { block_ := some 0 } demoW.heap = some true ∧
      ∃ o, demoW.obj p = some o ∧ o.base.block_ = (guard_ptr.mk (some 0)).block_) ∧
    (∀ b : Nat, (guard_ptr.mk (some 0)).block_ = some b → owners demoW b < UINT_MOD →
      ∃ d, guard_ptr.data { block_ := some 0 } demoW.heap = some d ∧
        guard_ptr.isAlive { block_ := some 0 } demoW.heap = some d.isSome ∧
        (∀ p : Nat, d = some p ↔ ∃ o, demoW.obj p = some o ∧ o.base.block_ = some b)) :=
  data_access demoW demoW_reachable 0 { block_ := some 0 } rfl

/-! ## The race of two first handles for one pointee (C18) -/

theorem race_check :
    (List.range 9).all (fun k => (Race.after k [Race.init []]).all Race.good) = true := by
  decide

theorem race_ends : Race.after 9 [Race.init []] = [] := by decide

theorem lift_live (hp l : Heap) (p b : Nat) :
    Heap.live (hp ++ l.map (liftBlock p)) (hp.length + b)
      = (Heap.live l b).map (liftBlock p) := by
  unfold Heap.live
  rw [getElem?_append_add, List.getElem?_map]
  cases h : l[b]? with
  | none => rfl
  | some blk =>
    cases hd : blk.deleted <;> simp [liftBlock, hd]

theorem lift_set (hp l : Heap) (p b : Nat) (blk : guard_block) :
    (hp ++ l.map (liftBlock p)).set (hp.length + b) (liftBlock p blk)
      = hp ++ (l.set b blk).map (liftBlock p) := by
  rw [set_append_add, List.map_set]

theorem lift_acquire (hp l : Heap) (p b : Nat) :
    guard_block.acquire (hp ++ l.map (liftBlock p)) (hp.length + b)
      = (guard_block.acquire l b).map (fun l1 => hp ++ l1.map (liftBlock p)) := by
  unfold guard_block.acquire
  rw [lift_live]
  cases h : Heap.live l b with
  | none => rfl
  | some blk =>
    simp only [Option.map_some']
    rw [← lift_set]
    rfl

theorem lift_thread_step (hp : Heap) (p : Nat) (s : Shared) (t : Thread) :
    Thread.step p (liftShared hp p s) (liftThread hp.length t)
      = (Thread.step 0 s t).map
          (fun x => (liftThread hp.length x.1, liftShared hp p x.2)) := by
  cases t with
  | entry => rfl
  | loaded b =>
    cases b with
    | none =>
      simp [Thread.step, liftThread, liftShared, guard_block.create, liftBlock]
    | some b =>
      simp only [Thread.step, liftThread, liftShared, Option.map_some', lift_acquire]
      cases h : guard_block.acquire s.heap b <;> rfl
  | created b =>
    simp only [Thread.step, liftThread, liftShared, compare_exchange_strong]
    cases h : s.base.block_ <;> simp
  | failed b held =>
    simp only [Thread.step, liftThread, liftShared, lift_live]
    cases h : Heap.live s.heap b with
    | none => rfl
    | some blk =>
      simp only [Option.map_some']
      have := lift_set hp s.heap p b { blk with deleted := true }
      simp only [liftBlock] at this ⊢
      rw [← this]
  | discarded b =>
    cases b with
    | none => rfl
    | some b =>
      simp only [Thread.step, liftThread, liftShared, Option.map_some', lift_acquire]
      cases h : guard_block.acquire s.heap b <;> rfl
  | returned b => rfl

theorem lift_race_step (hp : Heap) (p : Nat) (r : Race) (t : Bool) :
    Race.step p (liftRace hp p r) t = (Race.step 0 r t).map (liftRace hp p) := by
  cases t with
  | false =>
    simp only [Race.step, liftRace, lift_thread_step]
    cases h : Thread.step 0 r.shared r.t1 <;> rfl
  | true =>
    simp only [Race.step, liftRace, lift_thread_step]
    cases h : Thread.step 0 r.shared r.t2 <;> rfl

theorem lift_race_exec (hp : Heap) (p : Nat) (sched : List Bool) (r : Race) :
    Race.exec p (liftRace hp p r) sched = (Race.exec 0 r sched).map (liftRace hp p) := by
  induction sched generalizing r with
  | nil => rfl
  | cons t ts ih =>
    simp only [Race.exec, lift_race_step]
    cases h : Race.step 0 r t with
    | none => rfl
    | some r1 => simp only [Option.map_some']; exact ih r1

theorem lift_init (hp : Heap) (p : Nat) : liftRace hp p (Race.init []) = Race.init hp := by
  simp [liftRace, liftShared, Race.init, liftThread]

theorem after_mem (sched : List Bool) (l : List Race) (r r1 : Race) (hr : r ∈ l)
    (h : Race.exec 0 r sched = some r1) : r1 ∈ Race.after sched.length l := by
  induction sched generalizing l r with
  | nil => simp [Race.exec] at h; subst h; exact hr
  | cons t ts ih =>
    simp only [Race.exec] at h
    cases hs : Race.step 0 r t with
    | none => simp [hs] at h
    | some r2 =>
      simp only [hs] at h
      simp only [List.length_cons, Race.after]
      apply ih _ r2 _ h
      rw [List.mem_flatMap]
      refine ⟨r, hr, ?_⟩
      simp only [Race.nexts, List.mem_filterMap]
      exact ⟨t, by cases t <;> simp, hs⟩

theorem after_nil (k : Nat) : Race.after k [] = [] := by
  induction k with
  | zero => rfl
  | succ k ih => simpa [Race.after] using ih

theorem after_add (k j : Nat) (l : List Race) :
    Race.after (k + j) l = Race.after j (Race.after k l) := by
  induction k generalizing l with
  | zero => simp [Race.after]
  | succ k ih =>
    rw [Nat.add_right_comm]
    simp only [Race.after]
    exact ih _

theorem race_reach (sched : List Bool) (r : Race)
    (h : Race.exec 0 (Race.init []) sched = some r) :
    sched.length ≤ 8 ∧ Race.good r = true := by
  have hm := after_mem sched [Race.init []] _ r (List.mem_singleton.mpr rfl) h
  have hl : sched.length ≤ 8 := by
    by_contra hc
    obtain ⟨j, hj⟩ : ∃ j, sched.length = 9 + j := ⟨sched.length - 9, by omega⟩
    rw [hj, after_add, race_ends, after_nil] at hm
    simp at hm
  refine ⟨hl, ?_⟩
  have := race_check
  rw [List.all_eq_true] at this
  have h2 := this sched.length (List.mem_range.mpr (by omega))
  rw [List.all_eq_true] at h2
  exact h2 r hm

theorem lift_result (n : Nat) (t : Thread) :
    (liftThread n t).result = t.result.map (fun c => n + c) := by
  cases t <;> rfl

theorem lift_lost (n : Nat) (t : Thread) :
    (liftThread n t).lost = t.lost.map (fun c => n + c) := by
  cases t <;> rfl

theorem lift_returned {n : Nat} {t : Thread} {b : Nat} (h : liftThread n t = .returned b) :
    ∃ c, t = .returned c ∧ b = n + c := by
  cases t <;> simp [liftThread] at h
  exact ⟨_, rfl, h.symm⟩

theorem lost_not_installed {n : Nat} {t : Thread} {l : List Nat} {b : Nat}
    (h : (match t.lost with | some b => decide (b ∉ l) | none => true) = true)
    (hb : (liftThread n t).lost = some b) : b ∉ l.map (fun c => n + c) := by
  rw [lift_lost] at hb
  cases ht : t.lost with
  | none => simp [ht] at hb
  | some c =>
    simp [ht] at hb h
    subst hb
    simpa using h

/-- C18: two threads run `internalGetAndRef` for the same pointee `p`, whose base holds no
block, from any heap `hp0`, their atomic steps (load, allocation, compare-and-exchange,
delete, acquire) interleaved by any schedule.  In every state they reach: at most 8 steps
were taken; a thread that has not returned can take its next step (no null or deleted block
is dereferenced); the base holds the only block pointer ever stored in it, or none; a block
whose installation failed was never stored in the base.  When both threads have returned,
both return the block the base holds, that block stores `p` and has count 3, and the heap
is `hp0` followed by that block alone or by that block and the deleted block of the loser. -/
theorem first_binding_race (hp0 : Heap) (p : Nat) (sched : List Bool) (r : Race)
    (h : Race.exec p (Race.init hp0) sched = some r) :
    sched.length ≤ 8 ∧
    (r.t1.result = none → (Race.step p r false).isSome = true) ∧
    (r.t2.result = none → (Race.step p r true).isSome = true) ∧
    r.shared.installs = r.shared.base.block_.toList ∧
    (∀ b : Nat, r.t1.lost = some b ∨ r.t2.lost = some b → b ∉ r.shared.installs) ∧
    (∀ b1 b2 : Nat, r.t1 = .returned b1 → r.t2 = .returned b2 →
      b1 = b2 ∧ r.shared.base.block_ = some b1 ∧ r.shared.installs = [b1] ∧
      r.shared.heap.live b1 = some { ptr_ := some p, ref_ := 3, deleted := false } ∧
      ((b1 = hp0.length ∧
          r.shared.heap = hp0 ++ [{ ptr_ := some p, ref_ := 3, deleted := false }]) ∨
       (b1 = hp0.length ∧
          r.shared.heap = hp0 ++ [{ ptr_ := some p, ref_ := 3, deleted := false },
                                  { ptr_ := some p, ref_ := 2, deleted := true }]) ∨
       (b1 = hp0.length + 1 ∧
          r.shared.heap = hp0 ++ [{ ptr_ := some p, ref_ := 2, deleted := true },
                                  { ptr_ := some p, ref_ := 3, deleted := false }]))) := by
  rw [← lift_init hp0 p, lift_race_exec] at h
  cases h0 : Race.exec 0 (Race.init []) sched with
  | none => simp [h0] at h
  | some r0 =>
    simp only [h0, Option.map_some', Option.some.injEq] at h
    subst h
    obtain ⟨hl, hg⟩ := race_reach sched r0 h0
    simp only [Race.good, Bool.and_eq_true, Bool.or_eq_true, decide_eq_true_eq] at hg
    obtain ⟨⟨⟨⟨⟨g1, g2⟩, g3⟩, g4⟩, g5⟩, g6⟩ := hg
    refine ⟨hl, ?_, ?_, ?_, ?_, ?_⟩
    · intro hn
      rw [lift_race_step]
      simp only [liftRace, lift_result] at hn
      cases hr : r0.t1.result with
      | some c => simp [hr] at hn
      | none =>
        simp [hr] at g1
        simpa using g1
    · intro hn
      rw [lift_race_step]
      simp only [liftRace, lift_result] at hn
      cases hr : r0.t2.result with
      | some c => simp [hr] at hn
      | none =>
        simp [hr] at g2
        simpa using g2
    · simp only [liftRace, liftShared, g3]
      cases r0.shared.base.block_ <;> rfl
    · intro b hb
      rcases hb with hb | hb
      · exact lost_not_installed g4 hb
      · exact lost_not_installed g5 hb
    · intro b1 b2 e1 e2
      obtain ⟨c1, f1, rfl⟩ := lift_returned e1
      obtain ⟨c2, f2, rfl⟩ := lift_returned e2
      have hf : r0 ∈ Race.finals := by
        rcases g6 with g6 | g6
        · simp [f1, f2, Thread.result] at g6
        · exact g6
      simp only [Race.finals, List.mem_cons, List.mem_singleton, List.not_mem_nil,
        or_false] at hf
      rcases hf with hf | hf | hf
      · subst hf
        simp at f1 f2
        subst f1 f2
        clear g1 g2 g3 g4 g5 g6 h0 e1 e2
        simp only [liftRace, liftShared, lift_live]
        simp [liftBlock, Heap.live]
      · subst hf
        simp at f1 f2
        subst f1 f2
        clear g1 g2 g3 g4 g5 g6 h0 e1 e2
        simp only [liftRace, liftShared, lift_live]
        simp [liftBlock, Heap.live]
      · subst hf
        simp at f1 f2
        subst f1 f2
        clear g1 g2 g3 g4 g5 g6 h0 e1 e2
        simp only [liftRace, liftShared, lift_live]
        simp [liftBlock, Heap.live]

theorem first_binding_race_witness :
    Race.exec 1 (Race.init demoW.heap) [false, true, false, true, false, true, true, true]
      = some raceDemo ∧
    [false, true, false, true, false, true, true, true].length ≤ 8 ∧
    (raceDemo.t1.result = none → (Race.step 1 raceDemo false).isSome = true) ∧
    (raceDemo.t2.result = none → (Race.step 1 raceDemo true).isSome = true) ∧
    raceDemo.shared.installs = raceDemo.shared.base.block_.toList ∧
    (∀ b : Nat, raceDemo.t1.lost = some b ∨ raceDemo.t2.lost = some b →
      b ∉ raceDemo.shared.installs) ∧
    (∀ b1 b2 : Nat, raceDemo.t1 = .returned b1 → raceDemo.t2 = .returned b2 →
      b1 = b2 ∧ raceDemo.shared.base.block_ = some b1 ∧ raceDemo.shared.installs = [b1] ∧
      raceDemo.shared.heap.live b1 = some { ptr_ := some 1, ref_ := 3, deleted := false } ∧
      ((b1 = demoW.heap.length ∧
          raceDemo.shared.heap
            = demoW.heap ++ [{ ptr_ := some 1, ref_ := 3, deleted := false }]) ∨
       (b1 = demoW.heap.length ∧
          raceDemo.shared.heap
            = demoW.heap ++ [{ ptr_ := some 1, ref_ := 3, deleted := false },
                             { ptr_ := some 1, ref_ := 2, deleted := true }]) ∨
       (b1 = demoW.heap.length + 1 ∧
          raceDemo.shared.heap
            = demoW.heap ++ [{ ptr_ := some 1, ref_ := 2, deleted := true },
                             { ptr_ := some 1, ref_ := 3, deleted := false }]))) :=
  ⟨by decide, first_binding_race demoW.heap 1 [false, true, false, true, false, true, true, true]
    raceDemo (by decide)⟩

end guard
